import Mathlib

/-!
# Cartographie front-end (`static/app.js`): upload and progress orchestration

A shallow embedding of the `CartographyApp` class of `static/app.js`.

Modelling conventions.

* A JavaScript string holding file content is a `List Char` (the text returned by
  `file.text()` is a sequence of Unicode scalar values); short user-interface strings
  (messages, form fields) are Lean `String`s.
* JavaScript numbers are rationals (`ℚ`) or naturals where the source only counts;
  `undefined` / absent object fields are `none`. The arithmetic of the upload progress
  (line 272) and of the overall percentage (lines 353-355) is also given in double
  precision (`toDouble`, `chunkProgressReport`, `overallPercentageDouble`); elsewhere
  operations on numbers are exact.
* An `async` method is a function from the state before the call to the state after it,
  together with `Except String Unit` when the method can throw (`Error.message`): the
  method runs to its end without another handler in between. For `startAnalysis` the two
  parts before and after the response of the analyze request are also given separately
  (`startAnalysisUntilAnalyze`, `startAnalysisAfterAnalyze`).
* The page (`document`) is the record `Dom`; the browser's interval timers and the
  requests handed to `fetch` are recorded in `State`.
-/

set_option autoImplicit false

namespace Cartographie

/-! ## Strings -/

/-- Code points matched by `WhiteSpace` or `LineTerminator` in ECMAScript: the characters
that `String.prototype.trim` removes from both ends. -/
def isJsWhiteSpace (c : Char) : Bool :=
  c.toNat ∈ [0x09, 0x0A, 0x0B, 0x0C, 0x0D, 0x20, 0xA0, 0x1680, 0x2028, 0x2029,
    0x202F, 0x205F, 0x3000, 0xFEFF] || (0x2000 ≤ c.toNat && c.toNat ≤ 0x200A)

/-- The method `String.prototype.trim`. -/
def jsTrim (s : List Char) : List Char :=
  ((s.dropWhile isJsWhiteSpace).reverse.dropWhile isJsWhiteSpace).reverse

/-- Truthiness of a string: only the empty string is falsy. -/
def jsTruthy (s : List Char) : Bool := !s.isEmpty

/-- The call `text.split('\n')`: the always non-empty list of maximal newline-free pieces. -/
def splitNewline : List Char → List (List Char)
  | [] => [[]]
  | c :: cs =>
    if c = '\n' then [] :: splitNewline cs
    else
      match splitNewline cs with
      | [] => [[c]]
      | l :: ls => (c :: l) :: ls

/-- The call `xs.slice(start, end)` for non-negative integer bounds. -/
def jsSlice {α : Type} (xs : List α) (start stop : ℕ) : List α :=
  (xs.take stop).drop start

/-- The call `rows.join('\n')`. -/
def joinNewline (rows : List (List Char)) : List Char :=
  List.intercalate ['\n'] rows

/-- The call `Math.round`: nearest integer, ties towards `+∞`. -/
def jsRound (x : ℚ) : ℤ := ⌊x + 1 / 2⌋

/-- Truthiness of an optional number: `undefined` and `0` are falsy. -/
def numTruthy : Option ℚ → Bool
  | none => false
  | some x => decide (x ≠ 0)

/-- Truthiness of an optional UI string: `undefined` and `''` are falsy. -/
def strTruthy : Option String → Bool
  | none => false
  | some s => decide (s ≠ "")

/-! ## Double-precision numbers

JavaScript numbers are IEEE 754 binary64 values. A number is represented by the rational
it denotes, and every arithmetic operation returns the exact result rounded to the nearest
representable value, ties to the even significand. -/

/-- Rounding to the nearest integer, ties to the even one. -/
def roundHalfEven (x : ℚ) : ℤ :=
  if x - ⌊x⌋ < 1 / 2 then ⌊x⌋
  else if 1 / 2 < x - ⌊x⌋ then ⌊x⌋ + 1
  else if ⌊x⌋ % 2 = 0 then ⌊x⌋ else ⌊x⌋ + 1

/-- The binary exponent of the binade of `x` in binary64: `⌊log₂ |x|⌋`, and `-1022`
throughout the subnormal range. (For zero the value plays no role.) -/
def doubleExponent (x : ℚ) : ℤ := max (Int.log 2 |x|) (-1022)

/-- The distance between neighbouring binary64 values in the binade of `x`: the
significand has 53 bits. -/
def doubleUnit (x : ℚ) : ℚ := 2 ^ (doubleExponent x - 52)

/-- The binary64 value nearest to `x`, ties to even: the result of rounding an exact value
to a JavaScript number. Results of magnitude `2 ^ 1024` and above, which are infinite in
JavaScript, are not represented. -/
def toDouble (x : ℚ) : ℚ := (roundHalfEven (x / doubleUnit x) : ℚ) * doubleUnit x

/-- The JavaScript expression `a + b` on numbers. -/
def jsAdd (a b : ℚ) : ℚ := toDouble (a + b)

/-- The JavaScript expression `a - b` on numbers. -/
def jsSub (a b : ℚ) : ℚ := toDouble (a - b)

/-- The JavaScript expression `a * b` on numbers. -/
def jsMul (a b : ℚ) : ℚ := toDouble (a * b)

/-- The JavaScript expression `a / b` on numbers, for a non-zero `b`. -/
def jsDiv (a b : ℚ) : ℚ := toDouble (a / b)

/-! ## Data model -/

/-- A cluster of the analysis result. -/
structure Cluster where
  cluster_id : ℤ
  theme : String
  size : ℚ
  urls : List String
  deriving DecidableEq

/-- A proximity anomaly of the analysis result. -/
structure Proximity where
  anomaly_score : ℚ
  cosine : ℚ
  hops : ℕ
  url_i : String
  url_j : String
  node_i : String
  node_j : String
  deriving DecidableEq

/-- A point of the 2-D projection. -/
structure Point where
  x : ℚ
  y : ℚ
  url : String
  cluster : Option ℤ
  deriving DecidableEq

/-- The result payload (`status.result`, stored in `this.results`). `total_edges` is
`summary?.graph_stats?.total_edges`. -/
structure AnalysisResult where
  total_pages : Option ℚ
  clusters : Option (List Cluster)
  proximities : Option (List Proximity)
  projection_2d : Option (List Point)
  total_edges : Option ℚ
  deriving DecidableEq

/-- The object `status.progress` destructured by `updateProgress`. -/
structure Progress where
  step : Option ℚ
  total_steps : Option ℚ
  step_name : Option String
  progress_percentage : Option ℚ
  message : Option String
  deriving DecidableEq

/-- An object handed to `updateProgress`: either the body of the backend's
`GET /projects/{id}/progress` (fields `status`, `result`, `error`, `progress`) or an object
literal built by the client (fields `status`, `progress_percentage`, `step`, `total_steps`,
`step_name` at the top level). -/
structure Status where
  status : Option String
  result : Option AnalysisResult
  error : Option String
  progress : Option Progress
  progress_percentage : Option ℚ
  step : Option ℚ
  total_steps : Option ℚ
  step_name : Option String
  deriving DecidableEq

/-! ## The page -/

/-- An element with id `step-<idx>` and the two classes `updateProgress` toggles. -/
structure StepElement where
  idx : ℕ
  active : Bool
  completed : Bool
  deriving DecidableEq

/-- A row of the anomaly table built by `showAnomalies` (lines 727-740): the badge colour,
the score and the cosine as rounded percentages, the hop count and the two URLs. -/
structure AnomalyRow where
  scoreColor : String
  scorePercent : ℤ
  cosinePercent : ℤ
  hops : ℕ
  url_i : String
  url_j : String
  deriving DecidableEq

/-- A row of the cluster table built by `showClusters` (lines 610-627); `colorIndex` is the
index `index % 10` into the colour scheme. -/
structure ClusterRow where
  colorIndex : ℕ
  cluster_id : ℤ
  theme : String
  size : ℚ
  urls : List String
  deriving DecidableEq

/-- Content of the `visualization-chart` container: as the page ships it, after
`createVisualization`, after `showClusters` (header counts, slider maximum, displayed
minimum size, rows) or after `showAnomalies` (header count, rows). -/
inductive Chart where
  | untouched
  | noData
  | scatter (points : List Point)
  | clusterTable (shown total : ℕ) (sliderMax : Option ℚ) (minSize : ℤ)
      (rows : List ClusterRow)
  | anomalyTable (count : ℕ) (rows : List AnomalyRow)
  deriving DecidableEq

/-- The parts of the document the application writes. `progressFillWidth` is the number
in `progress-fill.style.width` (the text before `%`); the four `total…` fields are the
numbers written as text content of the statistics elements. -/
structure Dom where
  progressFillWidth : ℚ
  progressText : String
  steps : List StepElement
  progressSectionDisplay : String
  resultsSectionDisplay : String
  errorText : String
  errorDisplay : String
  totalPages : ℚ
  totalClusters : ℚ
  totalAnomalies : ℚ
  totalLinks : ℚ
  chart : Chart
  deriving DecidableEq

/-! ## `updateProgress` -/

/-- The local variable `percentage` of `updateProgress` (lines 350-358): the overall
percentage computed from the destructured progress fields, with the arithmetic of lines
353-355 carried out exactly. -/
def overallPercentage (p : Progress) : ℚ :=
  if numTruthy p.step && numTruthy p.total_steps && p.progress_percentage.isSome then
    let stepProgress := ((p.step.getD 0 - 1) / p.total_steps.getD 0) * 100
    let currentStepProgress := p.progress_percentage.getD 0 / p.total_steps.getD 0
    stepProgress + currentStepProgress
  else if p.progress_percentage.isSome then
    p.progress_percentage.getD 0
  else 0

/-- The local variable `percentage` of `updateProgress` (lines 350-358) as the program
computes it: every operation of lines 353-355 is a double-precision operation. -/
def overallPercentageDouble (p : Progress) : ℚ :=
  if numTruthy p.step && numTruthy p.total_steps && p.progress_percentage.isSome then
    let stepProgress := jsMul (jsDiv (jsSub (p.step.getD 0) 1) (p.total_steps.getD 0)) 100
    let currentStepProgress := jsDiv (p.progress_percentage.getD 0) (p.total_steps.getD 0)
    jsAdd stepProgress currentStepProgress
  else if p.progress_percentage.isSome then
    p.progress_percentage.getD 0
  else 0

/-- The value `message || step_name || 'Analyse en cours...'`. -/
def displayText (p : Progress) : String :=
  if strTruthy p.message then p.message.getD ""
  else if strTruthy p.step_name then p.step_name.getD ""
  else "Analyse en cours..."

/-- One iteration of the step loop of `updateProgress` for index `i`: the first element
with id `step-i` (if any) loses `active` and `completed`, then gets `completed` when
`i < step` and `active` when `i === step`. -/
def updateStepElement (step : ℚ) (i : ℕ) : List StepElement → List StepElement
  | [] => []
  | e :: rest =>
    if e.idx = i then
      { e with completed := decide ((i : ℚ) < step),
               active := !decide ((i : ℚ) < step) && decide ((i : ℚ) = step) } :: rest
    else e :: updateStepElement step i rest

/-- The loop `for (let i = 1; i <= total_steps; i++)` of `updateProgress`. -/
def updateSteps (step total_steps : ℚ) (els : List StepElement) : List StepElement :=
  (List.range ⌊total_steps⌋₊).foldl (fun acc k => updateStepElement step (k + 1) acc) els

/-- The method `updateProgress(status)` (lines 338-382). -/
def updateProgress (dom : Dom) (status : Status) : Dom :=
  match status.progress with
  | none => dom
  | some p =>
    let percentage := overallPercentage p
    let dom1 := { dom with progressFillWidth := min percentage 100 }
    let dom2 := { dom1 with progressText := displayText p }
    if numTruthy p.step && numTruthy p.total_steps then
      { dom2 with steps := updateSteps (p.step.getD 0) (p.total_steps.getD 0) dom2.steps }
    else dom2

/-! ## Network and application state -/

/-- The multipart form of one `import-chunk` request (lines 254-260). `chunk_data` is the
content of the attached blob and `chunk_filename` its file name; the other fields are the
strings appended to the form. -/
structure ChunkForm where
  chunk_data : List Char
  chunk_filename : String
  file_type : String
  chunk_index : String
  total_chunks : String
  is_first_chunk : String
  is_last_chunk : String
  deriving DecidableEq

/-- A call of `fetch`; `project` is the value of `this.currentProject` spliced into the
URL. -/
inductive Request where
  | createProject
  | importChunk (project : Option String) (form : ChunkForm)
  | importFinalize (project : Option String)
  | analyzeSimple (project : Option String)
  | progress (project : Option String)
  deriving DecidableEq

/-- A parsed JSON body, as far as the client reads it: a project object with its `id`, a
status object, the value `null` (the one value on which reading a field throws a
`TypeError`), or any other value (reading a field of it gives `undefined`). -/
inductive Json where
  | project (id : Option String)
  | status (s : Status)
  | null
  | other
  deriving DecidableEq

/-- A response: `response.ok`, the result of `response.text()` and the result of
`response.json()` (the rejection message when the body does not parse). -/
structure Response where
  ok : Bool
  text : String
  json : Except String Json

/-- What `await fetch(...)` yields: a response, or a rejection (network error). -/
inductive FetchOutcome where
  | response (r : Response)
  | rejected (message : String)

/-- The fields of the `CartographyApp` instance, the page, the browser's active interval
timers (`timers`, with `nextTimer` the next handle `setInterval` returns) and the log of
the requests handed to `fetch`. -/
structure State where
  currentProject : Option String
  results : Option AnalysisResult
  progressInterval : Option ℕ
  clusterMinSizeFilter : Option ℤ
  dom : Dom
  timers : List ℕ
  nextTimer : ℕ
  requests : List Request

/-- The method `showProgress` (lines 384-387). -/
def showProgress (dom : Dom) : Dom :=
  { dom with progressSectionDisplay := "block", resultsSectionDisplay := "none" }

/-- The method `hideProgress` (lines 389-391). -/
def hideProgress (dom : Dom) : Dom :=
  { dom with progressSectionDisplay := "none" }

/-- The method `showError` (lines 566-570). -/
def showError (dom : Dom) (message : String) : Dom :=
  { dom with errorText := message, errorDisplay := "block" }

/-- The method `hideError` (lines 804-806). -/
def hideError (dom : Dom) : Dom :=
  { dom with errorDisplay := "none" }

/-! ## Chunked upload -/

/-- The constant `chunkSize` (line 240). -/
def chunkSize : ℕ := 1000

/-- The constant `header = lines[0]` (line 237). -/
def headerOf (text : List Char) : List Char :=
  (splitNewline text).headD []

/-- The constant `dataLines = lines.slice(1).filter(line => line.trim())` (line 238). -/
def dataLinesOf (text : List Char) : List (List Char) :=
  (splitNewline text).tail.filter (fun line => jsTruthy (jsTrim line))

/-- The constant `totalChunks = Math.ceil(dataLines.length / chunkSize)` (line 241). -/
def totalChunksOf (rowCount : ℕ) : ℕ :=
  ⌈(rowCount : ℚ) / (chunkSize : ℚ)⌉₊

/-- The constant `chunkLines = dataLines.slice(start, end)` of iteration `i`
(lines 246-248). -/
def chunkLines (dataLines : List (List Char)) (i : ℕ) : List (List Char) :=
  let start := i * chunkSize
  let stop := min (start + chunkSize) dataLines.length
  jsSlice dataLines start stop

/-- The form built in iteration `i` of the loop (lines 251-260). -/
def chunkForm (header : List Char) (dataLines : List (List Char)) (fileType : String)
    (totalChunks i : ℕ) : ChunkForm :=
  let chunkCsv := header ++ ['\n'] ++ joinNewline (chunkLines dataLines i)
  { chunk_data := chunkCsv
    chunk_filename := fileType ++ "_chunk_" ++ toString i ++ ".csv"
    file_type := fileType
    chunk_index := toString i
    total_chunks := toString totalChunks
    is_first_chunk := toString (decide (i = 0))
    is_last_chunk := toString (decide ((i : ℤ) = (totalChunks : ℤ) - 1)) }

/-- The message of the error thrown at line 268. -/
def chunkErrorMessage (i totalChunks : ℕ) : String :=
  "Erreur upload chunk " ++ toString (i + 1) ++ "/" ++ toString totalChunks

/-- The object literal handed to `updateProgress` after chunk `i` (lines 272-279); the
argument of `Math.round` is the double-precision value of
`(i + 1) / totalChunks * progressStep`. -/
def chunkProgressReport (fileType : String) (progressStep : ℚ) (totalChunks i : ℕ) :
    Status :=
  let progress := jsRound (jsMul (jsDiv (jsAdd (i : ℚ) 1) (totalChunks : ℚ)) progressStep)
  { status := some ("Upload " ++ fileType ++ ": " ++ toString (i + 1) ++ "/"
      ++ toString totalChunks ++ " chunks")
    result := none
    error := none
    progress := none
    progress_percentage := some (progress : ℚ)
    step := some 1
    total_steps := some 4
    step_name := some ("Upload " ++ fileType) }

/-- The loop `for (let i = 0; i < totalChunks; i++)` of `uploadFileByChunks`
(lines 245-282), run over the indices that remain. The bound is constant and the body does
not assign `i`, so the loop visits the indices of `List.range totalChunks` in order until
the body throws. -/
def uploadChunksFrom (fetch : Request → FetchOutcome) (header : List Char)
    (dataLines : List (List Char)) (fileType : String) (progressStep : ℚ)
    (totalChunks : ℕ) : List ℕ → State → State × Except String Unit
  | [], st => (st, .ok ())
  | i :: rest, st =>
    let req := Request.importChunk st.currentProject
      (chunkForm header dataLines fileType totalChunks i)
    let st1 := { st with requests := st.requests ++ [req] }
    match fetch req with
    | .rejected message => (st1, .error message)
    | .response r =>
      if !r.ok then (st1, .error (chunkErrorMessage i totalChunks))
      else
        let report := chunkProgressReport fileType progressStep totalChunks i
        let st2 := { st1 with dom := updateProgress st1.dom report }
        uploadChunksFrom fetch header dataLines fileType progressStep totalChunks rest st2

/-- The method `uploadFileByChunks(file, fileType, progressStep)` (lines 230-285); `file`
is the text of the selected file, `none` when no file is selected. -/
def uploadFileByChunks (fetch : Request → FetchOutcome) (st : State)
    (file : Option (List Char)) (fileType : String) (progressStep : ℚ) :
    State × Except String Unit :=
  match file with
  | none => (st, .ok ())
  | some text =>
    let header := headerOf text
    let dataLines := dataLinesOf text
    let totalChunks := totalChunksOf dataLines.length
    uploadChunksFrom fetch header dataLines fileType progressStep totalChunks
      (List.range totalChunks) st

/-- The message of the error thrown by `createProject` (line 191). -/
def createProjectErrorMessage : String := "Impossible de créer le projet"

/-- The method `createProject` (lines 174-195). -/
def createProject (fetch : Request → FetchOutcome) (st : State) :
    State × Except String Json :=
  let st1 := { st with requests := st.requests ++ [Request.createProject] }
  match fetch Request.createProject with
  | .rejected message => (st1, .error message)
  | .response r =>
    if !r.ok then (st1, .error createProjectErrorMessage)
    else (st1, r.json)

/-- The message of the error thrown by `uploadFiles` (line 224). -/
def finalizeErrorMessage : String := "Erreur lors de la finalisation de l'upload"

/-- The object literal handed to `updateProgress` at the start of `uploadFiles`
(lines 201-207). -/
def uploadStartReport : Status :=
  { status := some "Upload des fichiers..."
    result := none
    error := none
    progress := none
    progress_percentage := some 0
    step := some 1
    total_steps := some 4
    step_name := some "Upload en cours" }

/-- The method `uploadFiles` (lines 197-228); `pagesFile` and `linksFile` are the texts of
the files selected in the two inputs. -/
def uploadFiles (fetch : Request → FetchOutcome) (st : State)
    (pagesFile linksFile : Option (List Char)) : State × Except String Json :=
  let st0 := { st with dom := updateProgress st.dom uploadStartReport }
  match uploadFileByChunks fetch st0 pagesFile "pages" 50 with
  | (st1, .error message) => (st1, .error message)
  | (st1, .ok ()) =>
    match (if linksFile.isSome then uploadFileByChunks fetch st1 linksFile "links" 50
           else (st1, .ok ())) with
    | (st2, .error message) => (st2, .error message)
    | (st2, .ok ()) =>
      let req := Request.importFinalize st2.currentProject
      let st3 := { st2 with requests := st2.requests ++ [req] }
      match fetch req with
      | .rejected message => (st3, .error message)
      | .response r =>
        if !r.ok then (st3, .error finalizeErrorMessage)
        else (st3, r.json)

/-! ## Progress polling -/

/-- The call `clearInterval(handle)`: the timer with that handle, if any, is removed from
the active timers. -/
def clearInterval (st : State) (handle : Option ℕ) : State :=
  match handle with
  | none => st
  | some h => { st with timers := st.timers.filter (fun t => t ≠ h) }

/-- The method `startProgressMonitoring` (lines 307-326): `setInterval` registers a new
timer and its handle is stored in `this.progressInterval`. -/
def startProgressMonitoring (st : State) : State :=
  { st with
    progressInterval := some st.nextTimer
    timers := st.timers ++ [st.nextTimer]
    nextTimer := st.nextTimer + 1 }

/-- The message of the error thrown by `getJobStatus` (line 332). -/
def statusErrorMessage : String := "Impossible de récupérer le statut"

/-- The object a parsed body is when read as a status: the fields of a status body, and
no field at all for any other JSON value. For `null` the first field read
(`status.progress`, line 344) throws inside the `try` block of the poll tick, which leaves
the state as a status without fields does. -/
def Json.asStatus : Json → Status
  | .status s => s
  | _ => { status := none, result := none, error := none, progress := none,
           progress_percentage := none, step := none, total_steps := none,
           step_name := none }

/-- The method `getJobStatus` (lines 328-336), given the outcome of its `fetch`. -/
def getJobStatus (st : State) (outcome : FetchOutcome) : State × Except String Status :=
  let st1 := { st with requests := st.requests ++ [Request.progress st.currentProject] }
  match outcome with
  | .rejected message => (st1, .error message)
  | .response r =>
    if !r.ok then (st1, .error statusErrorMessage)
    else
      match r.json with
      | .error message => (st1, .error message)
      | .ok v => (st1, .ok v.asStatus)

/-- The method `updateStats` (lines 404-411); it throws a `TypeError` when `this.results`
is `undefined`. -/
def updateStats (st : State) : State × Except String Unit :=
  match st.results with
  | none => (st, .error "TypeError")
  | some stats =>
    ({ st with dom := { st.dom with
        totalPages := stats.total_pages.getD 0
        totalClusters := ((stats.clusters.map List.length).getD 0 : ℕ)
        totalAnomalies := ((stats.proximities.map List.length).getD 0 : ℕ)
        totalLinks := stats.total_edges.getD 0 } }, .ok ())

/-- The method `createVisualization` (lines 413-538), as far as the content of the chart
container goes: the "no data" paragraph for an empty projection, the scatter plot of the
points otherwise. -/
def createVisualization (st : State) : State × Except String Unit :=
  match st.results with
  | none => (st, .error "TypeError")
  | some res =>
    let projection2D := res.projection_2d.getD []
    if projection2D.isEmpty then ({ st with dom := { st.dom with chart := .noData } }, .ok ())
    else ({ st with dom := { st.dom with chart := .scatter projection2D } }, .ok ())

/-- The method `showResults` (lines 393-402). -/
def showResults (st : State) : State × Except String Unit :=
  let st1 := { st with dom := hideProgress st.dom }
  let st2 := { st1 with dom := { st1.dom with resultsSectionDisplay := "block" } }
  match updateStats st2 with
  | (st3, .error message) => (st3, .error message)
  | (st3, .ok ()) => createVisualization st3

/-- The value `status.error || 'Erreur inconnue'` (line 319). -/
def errorOrUnknown (error : Option String) : String :=
  if strTruthy error then error.getD "" else "Erreur inconnue"

/-- Terminal success statuses tested at line 313. -/
def isSuccessStatus (s : Option String) : Bool :=
  s = some "SUCCESS" || s = some "ANALYZED"

/-- Terminal failure statuses tested at line 317. -/
def isFailureStatus (s : Option String) : Bool :=
  s = some "FAILURE" || s = some "ERROR"

/-- One run of the interval callback of `startProgressMonitoring` (lines 308-325), given
the outcome of the status fetch. An exception inside the `try` block is caught and only
logged, so the state is the one reached when it was thrown. -/
def pollTick (st : State) (outcome : FetchOutcome) : State :=
  match getJobStatus st outcome with
  | (st1, .error _) => st1
  | (st1, .ok status) =>
    let st2 := { st1 with dom := updateProgress st1.dom status }
    if isSuccessStatus status.status then
      let st3 := clearInterval st2 st2.progressInterval
      let st4 := { st3 with results := status.result }
      (showResults st4).1
    else if isFailureStatus status.status then
      let st3 := clearInterval st2 st2.progressInterval
      let message := "Analyse échouée: " ++ errorOrUnknown status.error
      let st4 := { st3 with dom := showError st3.dom message }
      { st4 with dom := hideProgress st4.dom }
    else st2

/-! ## Session controller -/

/-- The field `id` of a parsed body other than `null` (`project.id`, line 149). -/
def Json.id : Json → Option String
  | .project id => id
  | _ => none

/-- The object literal handed to `updateProgress` before the analysis is started
(lines 155-161). -/
def analysisStartReport : Status :=
  { status := some "Analyse en cours..."
    result := none
    error := none
    progress := none
    progress_percentage := some 0
    step := some 1
    total_steps := some 4
    step_name := some "Démarrage de l'analyse" }

/-- The method `startSimpleAnalysis` (lines 287-305): on a failure response it throws with
the response text; otherwise it starts the monitoring and then returns the parsed body
(throwing when the body does not parse). -/
def startSimpleAnalysis (fetch : Request → FetchOutcome) (st : State) :
    State × Except String Json :=
  let req := Request.analyzeSimple st.currentProject
  let st1 := { st with requests := st.requests ++ [req] }
  match fetch req with
  | .rejected message => (st1, .error message)
  | .response r =>
    if !r.ok then (st1, .error ("Erreur analyse: " ++ r.text))
    else (startProgressMonitoring st1, r.json)

/-- The `try` block of `startAnalysis` (lines 144-165); `pagesFile` and `linksFile` are the
texts of the files selected in the two inputs. When the create body is `null`, reading
`project.id` (line 149) throws a `TypeError` before `currentProject` is assigned; its
message, which depends on the engine, is represented by the text `TypeError`. -/
def startAnalysisBody (fetch : Request → FetchOutcome) (st : State)
    (pagesFile linksFile : Option (List Char)) : State × Except String Unit :=
  let st1 := { st with dom := showProgress (hideError st.dom) }
  match createProject fetch st1 with
  | (st2, .error message) => (st2, .error message)
  | (st2, .ok project) =>
    if project = Json.null then (st2, .error "TypeError")
    else
      let st3 := { st2 with currentProject := project.id }
      match uploadFiles fetch st3 pagesFile linksFile with
      | (st4, .error message) => (st4, .error message)
      | (st4, .ok _) =>
        let st5 := { st4 with dom := updateProgress st4.dom analysisStartReport }
        match startSimpleAnalysis fetch st5 with
        | (st6, .error message) => (st6, .error message)
        | (st6, .ok _) => (st6, .ok ())

/-- The method `startAnalysis` (lines 132-172): the `try` block, and the `catch` block
that shows the wrapped message and hides the progress section. -/
def startAnalysis (fetch : Request → FetchOutcome) (st : State)
    (pagesFile linksFile : Option (List Char)) : State :=
  match startAnalysisBody fetch st pagesFile linksFile with
  | (st1, .ok ()) => st1
  | (st1, .error message) =>
    let st2 := { st1 with dom := showError st1.dom ("Erreur lors de l'analyse: " ++ message) }
    { st2 with dom := hideProgress st2.dom }

/-- The `catch` block of `startAnalysis` (lines 167-171). -/
def startAnalysisCatch (st : State) (message : String) : State :=
  let st2 := { st with dom := showError st.dom ("Erreur lors de l'analyse: " ++ message) }
  { st2 with dom := hideProgress st2.dom }

/-- A run of `startAnalysis` from the call up to the point where `startSimpleAnalysis` has
sent the analyze request and awaits its response (line 289). The result is the state at
that point and `true`, or, when the run has ended in the `catch` block before that point,
the state it leaves and `false`. -/
def startAnalysisUntilAnalyze (fetch : Request → FetchOutcome) (st : State)
    (pagesFile linksFile : Option (List Char)) : State × Bool :=
  let st1 := { st with dom := showProgress (hideError st.dom) }
  match createProject fetch st1 with
  | (st2, .error message) => (startAnalysisCatch st2 message, false)
  | (st2, .ok project) =>
    if project = Json.null then (startAnalysisCatch st2 "TypeError", false)
    else
      let st3 := { st2 with currentProject := project.id }
      match uploadFiles fetch st3 pagesFile linksFile with
      | (st4, .error message) => (startAnalysisCatch st4 message, false)
      | (st4, .ok _) =>
        let st5 := { st4 with dom := updateProgress st4.dom analysisStartReport }
        let req := Request.analyzeSimple st5.currentProject
        ({ st5 with requests := st5.requests ++ [req] }, true)

/-- The rest of a run of `startAnalysis` that awaits the response of its analyze request,
executed on the state in which the response `outcome` arrives (lines 296-304, and the
`catch` block when `startSimpleAnalysis` throws). -/
def startAnalysisAfterAnalyze (st : State) (outcome : FetchOutcome) : State :=
  match outcome with
  | .rejected message => startAnalysisCatch st message
  | .response r =>
    if !r.ok then startAnalysisCatch st ("Erreur analyse: " ++ r.text)
    else
      match r.json with
      | .error message => startAnalysisCatch (startProgressMonitoring st) message
      | .ok _ => startProgressMonitoring st

/-! ## Result views -/

/-- The call `proximities.sort((a, b) => b.anomaly_score - a.anomaly_score)`: the list in
non-increasing score order, entries of equal score keeping their relative order (the sort
of `Array.prototype.sort` is stable, so the result does not depend on the algorithm). -/
def sortByScoreDesc (ps : List Proximity) : List Proximity :=
  ps.insertionSort (fun a b => b.anomaly_score ≤ a.anomaly_score)

/-- The table row `showAnomalies` appends for one anomaly (lines 727-740). -/
def anomalyRow (prox : Proximity) : AnomalyRow :=
  { scoreColor :=
      if prox.anomaly_score > 8 / 10 then "#dc3545"
      else if prox.anomaly_score > 6 / 10 then "#fd7e14"
      else "#ffc107"
    scorePercent := jsRound (prox.anomaly_score * 100)
    cosinePercent := jsRound (prox.cosine * 100)
    hops := prox.hops
    url_i := prox.url_i
    url_j := prox.url_j }

/-- The method `showAnomalies` (lines 695-776). The array held in
`this.results.proximities` is sorted in place, so the stored result afterwards holds the
sorted order; a missing array is replaced by a fresh empty one. -/
def showAnomalies (st : State) : State × Except String Unit :=
  match st.results with
  | none => (st, .error "TypeError")
  | some res =>
    let proximities := res.proximities.getD []
    let sorted := sortByScoreDesc proximities
    let res1 := { res with proximities := res.proximities.map sortByScoreDesc }
    let chart := Chart.anomalyTable proximities.length (sorted.map anomalyRow)
    ({ st with results := some res1, dom := { st.dom with chart := chart } }, .ok ())

/-- Three digits of a number below 1000, with leading zeros. -/
def pad3 (n : ℕ) : String :=
  if n < 10 then "00" ++ toString n
  else if n < 100 then "0" ++ toString n
  else toString n

/-- The call `x.toFixed(3)` for a number of ordinary size: the nearest multiple of one
thousandth of the absolute value (ties to the larger one), written with three decimals
after the sign. -/
def toFixed3 (x : ℚ) : String :=
  let n : ℕ := ⌊|x| * 1000 + 1 / 2⌋₊
  (if x < 0 then "-" else "") ++ toString (n / 1000) ++ "." ++ pad3 (n % 1000)

/-- The cells of one line of the anomalies CSV (line 787). -/
structure AnomalyCsvRow where
  score : String
  cosine : String
  hops : ℕ
  url_i : String
  url_j : String
  node_i : String
  node_j : String
  deriving DecidableEq

/-- The line `exportAnomaliesCSV` appends for one anomaly (line 787). -/
def anomalyCsvRow (prox : Proximity) : AnomalyCsvRow :=
  { score := toFixed3 prox.anomaly_score
    cosine := toFixed3 prox.cosine
    hops := prox.hops
    url_i := prox.url_i
    url_j := prox.url_j
    node_i := prox.node_i
    node_j := prox.node_j }

/-- The method `exportAnomaliesCSV` (lines 778-802); the value is the list of the data
lines of the downloaded file, after its fixed header line. The array held in
`this.results.proximities` is sorted in place. -/
def exportAnomaliesCSV (st : State) : State × Except String (List AnomalyCsvRow) :=
  match st.results with
  | none => (st, .error "TypeError")
  | some res =>
    let proximities := res.proximities.getD []
    let sorted := sortByScoreDesc proximities
    let res1 := { res with proximities := res.proximities.map sortByScoreDesc }
    ({ st with results := some res1 }, .ok (sorted.map anomalyCsvRow))

/-- The value `this.clusterMinSizeFilter || 1` (line 577): an unset, `NaN` or zero filter
counts as 1. -/
def minSizeFilterOf (filter : Option ℤ) : ℤ :=
  match filter with
  | none => 1
  | some m => if m = 0 then 1 else m

/-- The value `Math.max(...sizes)` written as the slider maximum (line 587); `none` stands
for the `-Infinity` of an empty list. -/
def maxSize (sizes : List ℚ) : Option ℚ :=
  sizes.foldl (fun acc x => some (match acc with | none => x | some a => max a x)) none

/-- The table row `showClusters` appends for the cluster at position `index` of the
filtered list (lines 610-627). -/
def clusterRow (index : ℕ) (cluster : Cluster) : ClusterRow :=
  { colorIndex := index % 10
    cluster_id := cluster.cluster_id
    theme := cluster.theme
    size := cluster.size
    urls := cluster.urls }

/-- The clusters `showClusters` keeps (line 578). -/
def filterClusters (minSizeFilter : ℤ) (allClusters : List Cluster) : List Cluster :=
  allClusters.filter (fun cluster => decide ((minSizeFilter : ℚ) ≤ cluster.size))

/-- The loop `clusters.forEach((cluster, index) => ...)` of `showClusters`, from position
`index` on. -/
def clusterRowsFrom : ℕ → List Cluster → List ClusterRow
  | _, [] => []
  | index, cluster :: rest => clusterRow index cluster :: clusterRowsFrom (index + 1) rest

/-- The method `showClusters` (lines 572-667). -/
def showClusters (st : State) : State × Except String Unit :=
  match st.results with
  | none => (st, .error "TypeError")
  | some res =>
    let allClusters := res.clusters.getD []
    let minSizeFilter := minSizeFilterOf st.clusterMinSizeFilter
    let clusters := filterClusters minSizeFilter allClusters
    let chart := Chart.clusterTable clusters.length allClusters.length
      (maxSize (allClusters.map Cluster.size)) minSizeFilter (clusterRowsFrom 0 clusters)
    ({ st with dom := { st.dom with chart := chart } }, .ok ())

/-- The cells of one line of the clusters CSV (line 677). -/
structure ClusterCsvRow where
  cluster_id : ℤ
  theme : String
  size : ℚ
  url : String
  deriving DecidableEq

/-- The method `exportClustersCSV` (lines 669-693); the value is the list of the data
lines of the downloaded file, one per cluster and URL. -/
def exportClustersCSV (st : State) : State × Except String (List ClusterCsvRow) :=
  match st.results with
  | none => (st, .error "TypeError")
  | some res =>
    let clusters := res.clusters.getD []
    (st, .ok (clusters.flatMap (fun cluster => cluster.urls.map (fun url =>
      { cluster_id := cluster.cluster_id, theme := cluster.theme, size := cluster.size,
        url := url }))))

/-- The value of a character as a digit of the given radix, if it is one. -/
def digitValue (radix : ℕ) (c : Char) : Option ℕ :=
  let v : Option ℕ :=
    if 48 ≤ c.toNat ∧ c.toNat ≤ 57 then some (c.toNat - 48)
    else if 97 ≤ c.toNat ∧ c.toNat ≤ 122 then some (c.toNat - 87)
    else if 65 ≤ c.toNat ∧ c.toNat ≤ 90 then some (c.toNat - 55)
    else none
  match v with
  | some d => if d < radix then some d else none
  | none => none

/-- The values of the longest run of digits of the given radix a string starts with. -/
def leadingDigits (radix : ℕ) : List Char → List ℕ
  | [] => []
  | c :: rest =>
    match digitValue radix c with
    | some d => d :: leadingDigits radix rest
    | none => []

/-- The call `parseInt(s)` without radix argument: leading white space is skipped, a sign
and a `0x` / `0X` marker are read, and the longest run of digits is converted; `none`
stands for `NaN` (no digit). -/
def jsParseInt (s : String) : Option ℤ :=
  let cs := s.data.dropWhile isJsWhiteSpace
  let negative : Bool := cs.head? = some '-'
  let cs1 := if cs.head? = some '-' ∨ cs.head? = some '+' then cs.tail else cs
  let hex : Bool := cs1.take 2 = ['0', 'x'] ∨ cs1.take 2 = ['0', 'X']
  let radix := if hex then 16 else 10
  let cs2 := if hex then cs1.drop 2 else cs1
  let ds := leadingDigits radix cs2
  if ds = [] then none
  else
    let value := ds.foldl (fun acc d => acc * radix + d) 0
    some (if negative then -(value : ℤ) else (value : ℤ))

/-- The method `updateClusterFilter(minSize)` (lines 808-812), called by the slider of the
cluster table with its value. The element `cluster-size-value` is part of the cluster
table, so writing to it throws when another view is on display; otherwise the table,
that element included, is rebuilt by `showClusters`. -/
def updateClusterFilter (st : State) (minSize : String) : State × Except String Unit :=
  let st1 := { st with clusterMinSizeFilter := jsParseInt minSize }
  match st1.dom.chart with
  | .clusterTable _ _ _ _ _ => showClusters st1
  | _ => (st1, .error "TypeError")

/-! ## Definitions used to state the properties -/

/-- The number a list of decimal digit characters denotes. -/
def decimalValue (ds : List Char) : ℕ :=
  ds.foldl (fun acc c => acc * 10 + (c.toNat - 48)) 0

/-- The data rows a chunk payload carries: its lines after the header line. -/
def chunkRows (form : ChunkForm) : List (List Char) :=
  (splitNewline form.chunk_data).tail

/-- The form `uploadFileByChunks` builds for chunk `i` of a file with the given text. -/
def chunkFormOf (text : List Char) (fileType : String) (i : ℕ) : ChunkForm :=
  chunkForm (headerOf text) (dataLinesOf text) fileType
    (totalChunksOf (dataLinesOf text).length) i

/-- The request `uploadFileByChunks` issues for chunk `i` of a file, in a state whose
current project is `project`. -/
def chunkRequest (project : Option String) (text : List Char) (fileType : String)
    (i : ℕ) : Request :=
  Request.importChunk project (chunkFormOf text fileType i)

/-- The forms of the `import-chunk` requests of a request log, in order. -/
def sentForms : List Request → List ChunkForm
  | [] => []
  | .importChunk _ form :: rest => form :: sentForms rest
  | _ :: rest => sentForms rest

/-- The chunks transmitted by one run of `uploadFileByChunks` started in state `st`: the
forms of the requests the run appends to the request log. -/
def chunksSent (fetch : Request → FetchOutcome) (st : State) (text : List Char)
    (fileType : String) (progressStep : ℚ) : List ChunkForm :=
  sentForms ((uploadFileByChunks fetch st (some text) fileType progressStep).1.requests.drop
    st.requests.length)

/-- The response to a request is a success response (`response.ok` is true). -/
def respondsOk (fetch : Request → FetchOutcome) (req : Request) : Prop :=
  ∃ r, fetch req = .response r ∧ r.ok = true

/-- The response to a request is a failure response (`response.ok` is false). -/
def respondsNotOk (fetch : Request → FetchOutcome) (req : Request) : Prop :=
  ∃ r, fetch req = .response r ∧ r.ok = false

/-- The overall percentage as the specification words it: the step formula when `step`,
`total_steps` and `progress_percentage` are all present, the percentage when only the
percentage is present, and 0 otherwise. -/
def specOverallPercentage (p : Progress) : ℚ :=
  match p.step, p.total_steps, p.progress_percentage with
  | some s, some t, some q => ((s - 1) / t) * 100 + q / t
  | none, none, some q => q
  | _, _, _ => 0

/-- The status a fetch delivers when it succeeds: the response is ok and its body parses;
`none` for a failure response, a rejected fetch or a body that does not parse. -/
def fetchedStatus : FetchOutcome → Option Status
  | .rejected _ => none
  | .response r =>
    if r.ok then
      match r.json with
      | .ok v => some v.asStatus
      | .error _ => none
    else none

/-- The status is one of the four values after which the tick stops the timer. -/
def isTerminalStatus (s : Option String) : Prop :=
  s = some "SUCCESS" ∨ s = some "ANALYZED" ∨ s = some "FAILURE" ∨ s = some "ERROR"

/-- The state of `startAnalysis` once the project is created: error banner hidden,
progress section shown, the create request logged and the project id stored. -/
def afterCreate (st : State) (project : Option String) : State :=
  { st with
    dom := showProgress (hideError st.dom)
    requests := st.requests ++ [Request.createProject]
    currentProject := project }

/-- The `import-chunk` requests a complete upload of a file issues, in order; none when
no file is selected. -/
def fileChunkRequests (project : Option String) (file : Option (List Char))
    (fileType : String) : List Request :=
  match file with
  | none => []
  | some text =>
    (List.range (totalChunksOf (dataLinesOf text).length)).map
      (chunkRequest project text fileType)

/-- The request gets a success response whose body parses. -/
def succeeds (fetch : Request → FetchOutcome) (req : Request) : Prop :=
  ∃ r v, fetch req = .response r ∧ r.ok = true ∧ r.json = .ok v

/-- The cluster table is on display (so its slider and the element `cluster-size-value`
exist). -/
def showsClusterTable (chart : Chart) : Bool :=
  match chart with
  | .clusterTable _ _ _ _ _ => true
  | _ => false

/-- The cluster a table row displays. -/
def ClusterRow.cluster (row : ClusterRow) : Cluster :=
  { cluster_id := row.cluster_id, theme := row.theme, size := row.size, urls := row.urls }

/-! ## Sample inputs -/

/-- A transport that answers every request with an empty success response. -/
def okFetch : Request → FetchOutcome :=
  fun _ => .response { ok := true, text := "", json := .ok .other }

/-- A page on which nothing has been written yet. -/
def emptyDom : Dom :=
  { progressFillWidth := 0, progressText := "", steps := [],
    progressSectionDisplay := "none", resultsSectionDisplay := "none",
    errorText := "", errorDisplay := "none",
    totalPages := 0, totalClusters := 0, totalAnomalies := 0, totalLinks := 0,
    chart := .untouched }

/-- The state the constructor leaves (lines 2-7), with no timer and no request yet. -/
def initialState : State :=
  { currentProject := none, results := none, progressInterval := none,
    clusterMinSizeFilter := none, dom := emptyDom, timers := [], nextTimer := 1,
    requests := [] }

/-- A pages file with a header line, two data rows and a blank line. -/
def sampleText : List Char := "url,title\na,A\n  \nb,B\n".toList

/-- A transport that answers every request with a failure response. -/
def failFetch : Request → FetchOutcome :=
  fun _ => .response { ok := false, text := "", json := .ok .other }

/-- The progress object of the specification's example: step 2 of 4 at 50 percent. -/
def stepTwoOfFour : Progress :=
  { step := some 2, total_steps := some 4, step_name := none,
    progress_percentage := some 50, message := none }

/-- The progress object of the last of six steps at 100 percent. -/
def sixOfSix : Progress :=
  { step := some 6, total_steps := some 6, step_name := none,
    progress_percentage := some 100, message := none }

/-- The progress object of the last of twelve steps at 100 percent. -/
def twelveOfTwelve : Progress :=
  { step := some 12, total_steps := some 12, step_name := none,
    progress_percentage := some 100, message := none }

/-- A progress object whose `step` is present but zero. -/
def zeroStepProgress : Progress :=
  { step := some 0, total_steps := some 4, step_name := none,
    progress_percentage := some 50, message := none }

/-- A status body whose progress object carries only a negative percentage. -/
def negativeStatus : Status :=
  { status := some "RUNNING", result := none, error := none,
    progress := some { step := none, total_steps := none, step_name := none,
                       progress_percentage := some (-5), message := none },
    progress_percentage := none, step := none, total_steps := none, step_name := none }

/-- A success response whose body is the given status object. -/
def statusResponse (s : Status) : FetchOutcome :=
  .response { ok := true, text := "", json := .ok (.status s) }

/-- A status body with the given status string and nothing else. -/
def plainStatus (name : String) : Status :=
  { status := some name, result := none, error := none, progress := none,
    progress_percentage := none, step := none, total_steps := none, step_name := none }

/-- The state after `startProgressMonitoring` ran twice from the initial state: timers 1
and 2 are active and `progressInterval` holds the handle 2. -/
def twoTimersState : State :=
  startProgressMonitoring (startProgressMonitoring initialState)

/-- A transport that answers every request with a success response whose body is the
JSON value `null`. -/
def nullFetch : Request → FetchOutcome :=
  fun _ => .response { ok := true, text := "", json := .ok Json.null }

/-- A transport that answers every request with a success response whose body is the
project `p1`. -/
def projectFetch : Request → FetchOutcome :=
  fun _ => .response { ok := true, text := "", json := .ok (.project (some "p1")) }

/-- An anomaly with the given score and first URL. -/
def sampleProximity (score : ℚ) (name : String) : Proximity :=
  { anomaly_score := score, cosine := 17 / 20, hops := 3, url_i := name, url_j := "z",
    node_i := "1", node_j := "2" }

/-- A cluster with the given id and size. -/
def sampleCluster (id : ℤ) (size : ℚ) : Cluster :=
  { cluster_id := id, theme := "t", size := size, urls := ["u"] }

/-- A result with clusters of sizes 1, 5, 10 and anomalies of scores 0.9, 0.3, 0.7. -/
def sampleResult : AnalysisResult :=
  { total_pages := some 16
    clusters := some [sampleCluster 0 1, sampleCluster 1 5, sampleCluster 2 10]
    proximities := some [sampleProximity (9 / 10) "a", sampleProximity (3 / 10) "b",
      sampleProximity (7 / 10) "c"]
    projection_2d := none
    total_edges := none }

/-- The initial state once the sample result is stored. -/
def resultState : State :=
  { initialState with results := some sampleResult }

/-- The state with the sample result stored and the cluster table on display. -/
def clusterViewState : State :=
  (showClusters resultState).1

/-- The timer side of a state: the active timers, the stored handle and the next handle. -/
def timerState (st : State) : List ℕ × Option ℕ × ℕ :=
  (st.timers, st.progressInterval, st.nextTimer)

/-- States reached from the initial state by any sequence of analysis starts and poll
ticks. -/
inductive Reachable : State → Prop where
  | initial : Reachable initialState
  | start (fetch : Request → FetchOutcome) (st : State)
      (pagesFile linksFile : Option (List Char)) :
      Reachable st → Reachable (startAnalysis fetch st pagesFile linksFile)
  | tick (st : State) (outcome : FetchOutcome) :
      Reachable st → Reachable (pollTick st outcome)

/-- States reached from the initial state by runs of `startAnalysis` and poll ticks that
do not overlap: every run and every tick is carried out to its end before the next one
begins, and a run is only begun while no poll timer is active. -/
inductive ReachableSerial : State → Prop where
  | initial : ReachableSerial initialState
  | start (fetch : Request → FetchOutcome) (st : State)
      (pagesFile linksFile : Option (List Char)) :
      ReachableSerial st → st.timers = [] →
      ReachableSerial (startAnalysis fetch st pagesFile linksFile)
  | tick (st : State) (outcome : FetchOutcome) :
      ReachableSerial st → ReachableSerial (pollTick st outcome)

/-- The state after two complete runs of `startAnalysis` on the sample file, the second
started while the first is still being monitored. -/
def twoSessionsState : State :=
  startAnalysis projectFetch
    (startAnalysis projectFetch initialState (some sampleText) none) (some sampleText) none

/-- The state in which the first of two overlapping runs of `startAnalysis` on the sample
file awaits the response of its analyze request. -/
def firstRunWaiting : State :=
  (startAnalysisUntilAnalyze projectFetch initialState (some sampleText) none).1

/-- The state in which both of two overlapping runs of `startAnalysis` on the sample file
await the response of their analyze request: the second run was begun in the state
`firstRunWaiting`. -/
def bothRunsWaiting : State :=
  (startAnalysisUntilAnalyze projectFetch firstRunWaiting (some sampleText) none).1

/-- The state after the two overlapping runs have received their responses, the first run
first. -/
def overlappingRunsState : State :=
  startAnalysisAfterAnalyze
    (startAnalysisAfterAnalyze bothRunsWaiting
      (projectFetch (Request.analyzeSimple (some "p1"))))
    (projectFetch (Request.analyzeSimple (some "p1")))

/-! ## Lemmas: splitting and joining lines -/

theorem splitNewline_ne_nil (t : List Char) : splitNewline t ≠ [] := by
  induction t with
  | nil => simp [splitNewline]
  | cons c cs ih =>
    unfold splitNewline
    split_ifs
    · simp
    · split <;> simp

theorem splitNewline_cons_newline (cs : List Char) :
    splitNewline ('\n' :: cs) = [] :: splitNewline cs := by
  simp [splitNewline]

theorem splitNewline_cons_other (c : Char) (cs : List Char) (hc : c ≠ '\n') :
    splitNewline (c :: cs)
      = (c :: (splitNewline cs).headD []) :: (splitNewline cs).tail := by
  have hne := splitNewline_ne_nil cs
  rw [splitNewline, if_neg hc]
  cases h : splitNewline cs with
  | nil => exact absurd h hne
  | cons l ls => simp

theorem headD_splitNewline (t : List Char) :
    (splitNewline t).headD [] = t.takeWhile (fun c => c ≠ '\n') := by
  induction t with
  | nil => simp [splitNewline]
  | cons c cs ih =>
    by_cases hc : c = '\n'
    · subst hc
      simp [splitNewline_cons_newline]
    · rw [splitNewline_cons_other c cs hc, List.takeWhile_cons]
      simp only [List.headD_cons, ne_eq, hc, not_false_eq_true, decide_True, ↓reduceIte,
        List.cons.injEq, true_and]
      exact ih

theorem splitNewline_no_newline (t : List Char) :
    ∀ l ∈ splitNewline t, '\n' ∉ l := by
  induction t with
  | nil => simp [splitNewline]
  | cons c cs ih =>
    by_cases hc : c = '\n'
    · subst hc
      intro l hl
      rw [splitNewline_cons_newline] at hl
      rcases List.mem_cons.1 hl with h | h
      · subst h; simp
      · exact ih l h
    · intro l hl
      rw [splitNewline_cons_other c cs hc] at hl
      have hne := splitNewline_ne_nil cs
      cases hs : splitNewline cs with
      | nil => exact absurd hs hne
      | cons l0 ls =>
        rw [hs] at hl ih
        simp only [List.headD_cons, List.tail_cons, List.mem_cons] at hl
        rcases hl with h | h
        · subst h
          have h0 := ih l0 (by simp)
          simp only [List.mem_cons, not_or]
          exact ⟨fun h => hc h.symm, h0⟩
        · exact ih l (by simp [h])

theorem splitNewline_of_no_newline (l : List Char) (h : '\n' ∉ l) :
    splitNewline l = [l] := by
  induction l with
  | nil => simp [splitNewline]
  | cons c cs ih =>
    simp only [List.mem_cons, not_or] at h
    rw [splitNewline_cons_other c cs (fun e => h.1 e.symm), ih h.2]
    simp

theorem splitNewline_append_newline (l rest : List Char) (h : '\n' ∉ l) :
    splitNewline (l ++ '\n' :: rest) = l :: splitNewline rest := by
  induction l with
  | nil => simp [splitNewline_cons_newline]
  | cons c cs ih =>
    simp only [List.mem_cons, not_or] at h
    rw [List.cons_append, splitNewline_cons_other c _ (fun e => h.1 e.symm), ih h.2]
    simp

theorem joinNewline_cons_cons (r r2 : List Char) (rs : List (List Char)) :
    joinNewline (r :: r2 :: rs) = r ++ '\n' :: joinNewline (r2 :: rs) := by
  simp [joinNewline, List.intercalate, List.intersperse]

theorem splitNewline_joinNewline (rows : List (List Char)) (hne : rows ≠ [])
    (h : ∀ r ∈ rows, '\n' ∉ r) : splitNewline (joinNewline rows) = rows := by
  induction rows with
  | nil => exact absurd rfl hne
  | cons r rs ih =>
    cases rs with
    | nil =>
      have : joinNewline [r] = r := by simp [joinNewline, List.intercalate]
      rw [this]
      exact splitNewline_of_no_newline r (h r (by simp))
    | cons r2 rs2 =>
      rw [joinNewline_cons_cons, splitNewline_append_newline r _ (h r (by simp)),
        ih (by simp) (fun x hx => h x (List.mem_cons_of_mem _ hx))]

/-! ## Lemmas: decimal rendering of naturals -/

theorem digitChar_value (k : ℕ) (hk : k < 10) :
    (Nat.digitChar k).toNat - 48 = k ∧ Nat.digitChar k ≠ '/' := by
  interval_cases k <;> decide

theorem decimalValue_append_singleton (pre : List Char) (c : Char) :
    decimalValue (pre ++ [c]) = decimalValue pre * 10 + (c.toNat - 48) := by
  simp [decimalValue, List.foldl_append]

theorem toDigitsCore_spec (fuel : ℕ) :
    ∀ (n : ℕ) (ds : List Char), n < fuel →
      ∃ pre, Nat.toDigitsCore 10 fuel n ds = pre ++ ds ∧ decimalValue pre = n ∧
        '/' ∉ pre := by
  induction fuel with
  | zero => intro n ds h; omega
  | succ fuel ih =>
    intro n ds h
    have hd := digitChar_value (n % 10) (Nat.mod_lt _ (by norm_num))
    unfold Nat.toDigitsCore
    by_cases h0 : n / 10 = 0
    · refine ⟨[Nat.digitChar (n % 10)], ?_, ?_, ?_⟩
      · simp [h0]
      · have hn : n % 10 = n := by omega
        have hv : decimalValue [Nat.digitChar (n % 10)] = n % 10 := by
          simp [decimalValue, hd.1]
        rw [hv, hn]
      · simp [Ne.symm hd.2]
    · obtain ⟨pre, hpre, hval, hmem⟩ := ih (n / 10) (Nat.digitChar (n % 10) :: ds) (by omega)
      refine ⟨pre ++ [Nat.digitChar (n % 10)], ?_, ?_, ?_⟩
      · simp [h0, hpre]
      · rw [decimalValue_append_singleton, hval, hd.1]; omega
      · simp [hmem, Ne.symm hd.2]

theorem toDigits_spec (n : ℕ) :
    decimalValue (Nat.toDigits 10 n) = n ∧ '/' ∉ Nat.toDigits 10 n := by
  obtain ⟨pre, hpre, hval, hmem⟩ := toDigitsCore_spec (n + 1) n [] (by omega)
  simp only [List.append_nil] at hpre
  rw [Nat.toDigits, hpre]
  exact ⟨hval, hmem⟩

theorem toString_nat_data (n : ℕ) : (toString n).data = Nat.toDigits 10 n := rfl

theorem toString_nat_injective (a b : ℕ) (h : toString a = toString b) : a = b := by
  have hd : Nat.toDigits 10 a = Nat.toDigits 10 b := by
    rw [← toString_nat_data, ← toString_nat_data, h]
  rw [← (toDigits_spec a).1, ← (toDigits_spec b).1, hd]

/-! ## Lemmas: the chunks of a file -/

theorem totalChunksOf_eq (n : ℕ) : totalChunksOf n = (n + 999) / 1000 := by
  apply eq_of_forall_ge_iff
  intro m
  unfold totalChunksOf chunkSize
  rw [Nat.ceil_le, div_le_iff₀ (by norm_num : (0 : ℚ) < ((1000 : ℕ) : ℚ))]
  constructor
  · intro h
    have h2 : n ≤ m * 1000 := by exact_mod_cast h
    omega
  · intro h
    have h2 : n ≤ m * 1000 := by omega
    exact_mod_cast h2

theorem lt_totalChunksOf_iff (n i : ℕ) : i < totalChunksOf n ↔ i * 1000 < n := by
  rw [totalChunksOf_eq]
  omega

theorem chunkLines_eq (dataLines : List (List Char)) (i : ℕ) :
    chunkLines dataLines i = (dataLines.drop (i * 1000)).take 1000 := by
  unfold chunkLines jsSlice chunkSize
  simp only
  rw [List.drop_take, List.take_eq_take]
  simp only [List.length_drop]
  omega

theorem chunkLines_length (dataLines : List (List Char)) (i : ℕ) :
    (chunkLines dataLines i).length = min 1000 (dataLines.length - i * 1000) := by
  rw [chunkLines_eq]
  simp [List.length_take, List.length_drop]

theorem flatMap_take_drop {α : Type} (c : ℕ) :
    ∀ (n : ℕ) (l : List α), l.length ≤ n * c →
      (List.range n).flatMap (fun i => (l.drop (i * c)).take c) = l := by
  intro n
  induction n with
  | zero =>
    intro l h
    have : l = [] := List.length_eq_zero.1 (by omega)
    simp [this]
  | succ n ih =>
    intro l h
    rw [List.range_succ_eq_map, List.flatMap_cons, List.flatMap_map]
    have hl : (l.drop c).length ≤ n * c := by
      rw [List.length_drop, Nat.succ_mul] at *
      omega
    have hfun : (fun i => (l.drop (i.succ * c)).take c)
        = fun i => ((l.drop c).drop (i * c)).take c := by
      funext i
      rw [List.drop_drop, Nat.succ_mul, Nat.add_comm]
    have h0 : (l.drop (0 * c)).take c = l.take c := by simp
    rw [h0]
    show l.take c ++ (List.range n).flatMap (fun i => (l.drop (i.succ * c)).take c) = l
    rw [hfun, ih (l.drop c) hl, List.take_append_drop]

theorem flatMap_chunkLines (dataLines : List (List Char)) :
    (List.range (totalChunksOf dataLines.length)).flatMap (chunkLines dataLines)
      = dataLines := by
  have hfun : chunkLines dataLines = fun i => (dataLines.drop (i * 1000)).take 1000 := by
    funext i
    exact chunkLines_eq dataLines i
  rw [hfun]
  apply flatMap_take_drop
  rw [totalChunksOf_eq]
  omega

theorem chunkLines_ne_nil (dataLines : List (List Char)) (i : ℕ)
    (hi : i < totalChunksOf dataLines.length) : chunkLines dataLines i ≠ [] := by
  intro h
  have hl := chunkLines_length dataLines i
  rw [h] at hl
  rw [lt_totalChunksOf_iff] at hi
  simp only [List.length_nil] at hl
  omega

theorem mem_of_mem_chunkLines (dataLines : List (List Char)) (i : ℕ) (r : List Char)
    (h : r ∈ chunkLines dataLines i) : r ∈ dataLines := by
  rw [chunkLines_eq] at h
  exact List.mem_of_mem_drop (List.mem_of_mem_take h)

theorem dataLinesOf_no_newline (text : List Char) :
    ∀ r ∈ dataLinesOf text, '\n' ∉ r := by
  intro r hr
  unfold dataLinesOf at hr
  have h1 := (List.mem_filter.1 hr).1
  exact splitNewline_no_newline text r (List.mem_of_mem_tail h1)

theorem headerOf_eq (text : List Char) :
    headerOf text = text.takeWhile (fun c => c ≠ '\n') :=
  headD_splitNewline text

theorem headerOf_no_newline (text : List Char) : '\n' ∉ headerOf text := by
  have hne := splitNewline_ne_nil text
  unfold headerOf
  cases h : splitNewline text with
  | nil => exact absurd h hne
  | cons l ls =>
    simp only [List.headD_cons]
    exact splitNewline_no_newline text l (by simp [h])

theorem chunkRows_chunkForm (text : List Char) (fileType : String) (n i : ℕ)
    (hi : i < totalChunksOf (dataLinesOf text).length) :
    chunkRows (chunkForm (headerOf text) (dataLinesOf text) fileType n i)
      = chunkLines (dataLinesOf text) i := by
  unfold chunkRows chunkForm
  simp only [List.append_assoc, List.singleton_append]
  rw [splitNewline_append_newline _ _ (headerOf_no_newline text), List.tail_cons]
  apply splitNewline_joinNewline _ (chunkLines_ne_nil _ i hi)
  intro r hr
  exact dataLinesOf_no_newline text r (mem_of_mem_chunkLines _ i r hr)

/-! ## Lemmas: the upload loop -/

theorem updateProgress_chunkProgressReport (dom : Dom) (fileType : String)
    (progressStep : ℚ) (n i : ℕ) :
    updateProgress dom (chunkProgressReport fileType progressStep n i) = dom := rfl

theorem uploadChunksFrom_append_ok (fetch : Request → FetchOutcome) (header : List Char)
    (dataLines : List (List Char)) (fileType : String) (progressStep : ℚ) (n : ℕ)
    (rest : List ℕ) :
    ∀ (pre : List ℕ) (st : State),
      (∀ i ∈ pre, respondsOk fetch
        (Request.importChunk st.currentProject (chunkForm header dataLines fileType n i))) →
      uploadChunksFrom fetch header dataLines fileType progressStep n (pre ++ rest) st
        = uploadChunksFrom fetch header dataLines fileType progressStep n rest
            { st with requests := st.requests ++ pre.map (fun i =>
                Request.importChunk st.currentProject
                  (chunkForm header dataLines fileType n i)) } := by
  intro pre
  induction pre with
  | nil => intro st _; simp
  | cons i pre ih =>
    intro st h
    obtain ⟨r, hr, hok⟩ := h i (by simp)
    rw [List.cons_append, uploadChunksFrom]
    simp only [hr, hok, Bool.not_true, Bool.false_eq_true, ↓reduceIte,
      updateProgress_chunkProgressReport]
    rw [ih { st with requests := st.requests ++
        [Request.importChunk st.currentProject (chunkForm header dataLines fileType n i)] }
      (fun j hj => h j (List.mem_cons_of_mem _ hj))]
    simp [List.append_assoc]

theorem uploadChunksFrom_all_ok (fetch : Request → FetchOutcome) (header : List Char)
    (dataLines : List (List Char)) (fileType : String) (progressStep : ℚ) (n : ℕ)
    (idxs : List ℕ) (st : State)
    (h : ∀ i ∈ idxs, respondsOk fetch
      (Request.importChunk st.currentProject (chunkForm header dataLines fileType n i))) :
    uploadChunksFrom fetch header dataLines fileType progressStep n idxs st
      = ({ st with requests := st.requests ++ idxs.map (fun i =>
            Request.importChunk st.currentProject
              (chunkForm header dataLines fileType n i)) }, .ok ()) := by
  have := uploadChunksFrom_append_ok fetch header dataLines fileType progressStep n []
    idxs st h
  rw [List.append_nil] at this
  rw [this, uploadChunksFrom]

theorem uploadChunksFrom_fail (fetch : Request → FetchOutcome) (header : List Char)
    (dataLines : List (List Char)) (fileType : String) (progressStep : ℚ) (n : ℕ)
    (pre : List ℕ) (k : ℕ) (post : List ℕ) (st : State)
    (h : ∀ i ∈ pre, respondsOk fetch
      (Request.importChunk st.currentProject (chunkForm header dataLines fileType n i)))
    (hk : respondsNotOk fetch
      (Request.importChunk st.currentProject (chunkForm header dataLines fileType n k))) :
    uploadChunksFrom fetch header dataLines fileType progressStep n (pre ++ k :: post) st
      = ({ st with requests := st.requests ++ (pre ++ [k]).map (fun i =>
            Request.importChunk st.currentProject
              (chunkForm header dataLines fileType n i)) },
          .error (chunkErrorMessage k n)) := by
  obtain ⟨r, hr, hok⟩ := hk
  rw [uploadChunksFrom_append_ok fetch header dataLines fileType progressStep n _ pre st h,
    uploadChunksFrom]
  simp [hr, hok, List.append_assoc]

theorem range_split (n k : ℕ) (hk : k < n) :
    ∃ post, List.range n = List.range k ++ k :: post := by
  have hn : n = k + ((n - (k + 1)) + 1) := by omega
  refine ⟨(List.range (n - (k + 1))).map (fun j => k + (j + 1)), ?_⟩
  conv_lhs => rw [hn]
  rw [List.range_add, List.range_succ_eq_map]
  simp

theorem chunkRequest_injective (project : Option String) (text : List Char)
    (fileType : String) (i j : ℕ)
    (h : chunkRequest project text fileType i = chunkRequest project text fileType j) :
    i = j := by
  unfold chunkRequest chunkFormOf at h
  have hf := (Request.importChunk.injEq _ _ _ _).mp h
  have hidx := congrArg ChunkForm.chunk_index hf.2
  exact toString_nat_injective i j hidx

theorem uploadFileByChunks_all_ok (fetch : Request → FetchOutcome) (st : State)
    (text : List Char) (fileType : String) (progressStep : ℚ)
    (h : ∀ i, i < totalChunksOf (dataLinesOf text).length →
      respondsOk fetch (chunkRequest st.currentProject text fileType i)) :
    uploadFileByChunks fetch st (some text) fileType progressStep
      = ({ st with requests := (st.requests ++
            (List.range (totalChunksOf (dataLinesOf text).length)).map
              (chunkRequest st.currentProject text fileType)) }, .ok ()) := by
  unfold uploadFileByChunks
  simp only
  rw [uploadChunksFrom_all_ok]
  · rfl
  · intro i hi
    exact h i (List.mem_range.1 hi)

theorem uploadFileByChunks_fail (fetch : Request → FetchOutcome) (st : State)
    (text : List Char) (fileType : String) (progressStep : ℚ) (k : ℕ)
    (hk : k < totalChunksOf (dataLinesOf text).length)
    (hok : ∀ j, j < k → respondsOk fetch (chunkRequest st.currentProject text fileType j))
    (hfail : respondsNotOk fetch (chunkRequest st.currentProject text fileType k)) :
    uploadFileByChunks fetch st (some text) fileType progressStep
      = ({ st with requests := (st.requests ++
            (List.range (k + 1)).map (chunkRequest st.currentProject text fileType)) },
          .error (chunkErrorMessage k (totalChunksOf (dataLinesOf text).length))) := by
  obtain ⟨post, hpost⟩ := range_split _ k hk
  unfold uploadFileByChunks
  simp only
  rw [hpost, uploadChunksFrom_fail fetch _ _ _ _ _ (List.range k) k post st
    (fun i hi => hok i (List.mem_range.1 hi)) hfail, List.range_succ]
  rfl

theorem sentForms_map_chunkRequest (project : Option String) (text : List Char)
    (fileType : String) (l : List ℕ) :
    sentForms (l.map (chunkRequest project text fileType))
      = l.map (chunkFormOf text fileType) := by
  induction l with
  | nil => rfl
  | cons i l ih => simp [chunkRequest, sentForms, ← ih]

theorem chunksSent_all_ok (fetch : Request → FetchOutcome) (st : State)
    (text : List Char) (fileType : String) (progressStep : ℚ)
    (h : ∀ i, i < totalChunksOf (dataLinesOf text).length →
      respondsOk fetch (chunkRequest st.currentProject text fileType i)) :
    chunksSent fetch st text fileType progressStep
      = (List.range (totalChunksOf (dataLinesOf text).length)).map
          (chunkFormOf text fileType) := by
  unfold chunksSent
  rw [uploadFileByChunks_all_ok fetch st text fileType progressStep h]
  simp [sentForms_map_chunkRequest]

theorem chunkRows_chunkFormOf (text : List Char) (fileType : String) (i : ℕ)
    (hi : i < totalChunksOf (dataLinesOf text).length) :
    chunkRows (chunkFormOf text fileType i) = chunkLines (dataLinesOf text) i :=
  chunkRows_chunkForm text fileType _ i hi

theorem toString_bool_eq_true (b : Bool) : toString b = "true" ↔ b = true := by
  cases b
  · simp only [Bool.false_eq_true, iff_false]
    decide
  · simp only [iff_true]
    rfl

theorem getElem?_range_map {β : Type} (f : ℕ → β) (n i : ℕ) (c : β) :
    ((List.range n).map f)[i]? = some c ↔ i < n ∧ f i = c := by
  rw [List.getElem?_map]
  by_cases hi : i < n
  · rw [List.getElem?_range hi]
    simp [hi]
  · have : (List.range n)[i]? = none := by
      apply List.getElem?_eq_none
      simp only [List.length_range]
      omega
    rw [this]
    simp [hi]

theorem countP_range_eq (n k : ℕ) (hk : k < n) :
    (List.range n).countP (fun i => decide (i = k)) = 1 := by
  have h := List.count_eq_one_of_mem (List.nodup_range n) (List.mem_range.2 hk)
  rw [List.count_eq_countP] at h
  rw [← h]
  apply List.countP_congr
  intro x _
  simp

theorem dataLinesOf_eq_filter (text : List Char) :
    dataLinesOf text
      = (splitNewline text).tail.filter (fun line => decide (jsTrim line ≠ [])) := by
  unfold dataLinesOf
  congr 1
  funext line
  cases h : jsTrim line <;> simp [jsTruthy]

/-! ## Lemmas: double-precision rounding -/

theorem roundHalfEven_ge_floor (x : ℚ) : ⌊x⌋ ≤ roundHalfEven x := by
  unfold roundHalfEven
  split_ifs <;> omega

theorem roundHalfEven_le_floor_succ (x : ℚ) : roundHalfEven x ≤ ⌊x⌋ + 1 := by
  unfold roundHalfEven
  split_ifs <;> omega

theorem abs_roundHalfEven_sub_le (x : ℚ) : |(roundHalfEven x : ℚ) - x| ≤ 1 / 2 := by
  have h1 := Int.floor_le x
  have h2 := Int.lt_floor_add_one x
  unfold roundHalfEven
  rw [abs_le]
  split_ifs with ha hb hc <;> push_cast <;> constructor <;> linarith

theorem roundHalfEven_eq_of_abs_lt (x : ℚ) (m : ℤ) (h : |x - m| < 1 / 2) :
    roundHalfEven x = m := by
  rw [abs_lt] at h
  rcases le_or_lt (m : ℚ) x with hm | hm
  · have hf : ⌊x⌋ = m := by
      rw [Int.floor_eq_iff]
      constructor <;> linarith
    unfold roundHalfEven
    rw [hf, if_pos (by linarith)]
  · have hf : ⌊x⌋ = m - 1 := by
      rw [Int.floor_eq_iff]
      push_cast
      constructor <;> linarith
    unfold roundHalfEven
    rw [hf]
    push_cast
    rw [if_neg (by linarith), if_pos (by linarith)]
    ring

theorem roundHalfEven_intCast (k : ℤ) : roundHalfEven (k : ℚ) = k :=
  roundHalfEven_eq_of_abs_lt _ k (by simp)

theorem roundHalfEven_mono {x y : ℚ} (h : x ≤ y) : roundHalfEven x ≤ roundHalfEven y := by
  have hfl : ⌊x⌋ ≤ ⌊y⌋ := Int.floor_mono h
  rcases lt_or_eq_of_le hfl with hlt | heq
  · have h1 := roundHalfEven_le_floor_succ x
    have h2 := roundHalfEven_ge_floor y
    omega
  · unfold roundHalfEven
    rw [heq]
    split_ifs <;> first | omega | (exfalso; linarith)

theorem doubleUnit_pos (x : ℚ) : 0 < doubleUnit x := zpow_pos (by norm_num) _

theorem toDouble_zero : toDouble 0 = 0 := by
  have h := roundHalfEven_intCast 0
  simp only [Int.cast_zero] at h
  simp [toDouble, h]

theorem toDouble_nonneg {x : ℚ} (h : 0 ≤ x) : 0 ≤ toDouble x := by
  have h0 := roundHalfEven_intCast 0
  simp only [Int.cast_zero] at h0
  have h1 : roundHalfEven 0 ≤ roundHalfEven (x / doubleUnit x) :=
    roundHalfEven_mono (div_nonneg h (doubleUnit_pos x).le)
  rw [h0] at h1
  exact mul_nonneg (by exact_mod_cast h1) (doubleUnit_pos x).le

theorem abs_toDouble_sub_le_unit (x : ℚ) : |toDouble x - x| ≤ doubleUnit x / 2 := by
  have hu := doubleUnit_pos x
  have h := abs_roundHalfEven_sub_le (x / doubleUnit x)
  have heq : toDouble x - x
      = ((roundHalfEven (x / doubleUnit x) : ℚ) - x / doubleUnit x) * doubleUnit x := by
    unfold toDouble
    field_simp
  rw [heq, abs_mul, abs_of_pos hu]
  have := mul_le_mul_of_nonneg_right h hu.le
  linarith

theorem doubleExponent_of_normal (x : ℚ) (h : (2 : ℚ) ^ (-1022 : ℤ) ≤ |x|) :
    doubleExponent x = Int.log 2 |x| := by
  have hpos : 0 < |x| := lt_of_lt_of_le (zpow_pos (by norm_num) _) h
  have h2 : ((2 : ℕ) : ℚ) ^ (-1022 : ℤ) ≤ |x| := by simpa using h
  have := (Int.zpow_le_iff_le_log (by norm_num : 1 < 2) hpos).mp h2
  exact max_eq_left this

theorem zpow_log_le_abs (x : ℚ) (hx : x ≠ 0) : (2 : ℚ) ^ Int.log 2 |x| ≤ |x| := by
  have h := Int.zpow_log_le_self (by norm_num : 1 < 2) (abs_pos.mpr hx)
  simpa using h

theorem abs_lt_zpow_log_succ (x : ℚ) : |x| < (2 : ℚ) ^ (Int.log 2 |x| + 1) := by
  have h := Int.lt_zpow_succ_log_self (by norm_num : 1 < 2) |x|
  simpa using h

theorem zpow_neg_nat (k : ℕ) : (2 : ℚ) ^ (-(k : ℤ)) = 1 / 2 ^ k := by
  rw [zpow_neg, zpow_natCast, one_div]

theorem doubleUnit_le_of_normal (x : ℚ) (h : (2 : ℚ) ^ (-1022 : ℤ) ≤ |x|) :
    doubleUnit x ≤ |x| / 2 ^ 52 := by
  have hpos : 0 < |x| := lt_of_lt_of_le (zpow_pos (by norm_num) _) h
  have hx : x ≠ 0 := abs_pos.mp hpos
  unfold doubleUnit
  rw [doubleExponent_of_normal x h, sub_eq_add_neg, zpow_add₀ (by norm_num : (2 : ℚ) ≠ 0)]
  have h1 := zpow_log_le_abs x hx
  have h2 : (2 : ℚ) ^ (-52 : ℤ) = 1 / 2 ^ 52 := zpow_neg_nat 52
  rw [h2, div_eq_mul_one_div |x|]
  exact mul_le_mul_of_nonneg_right h1 (by positivity)

theorem doubleUnit_le (x : ℚ) (hx : x ≠ 0) : doubleUnit x ≤ |x| / 2 ^ 52 + 1 / 2 ^ 1074 := by
  rcases le_or_lt ((2 : ℚ) ^ (-1022 : ℤ)) |x| with h | h
  · have := doubleUnit_le_of_normal x h
    have h3 : (0 : ℚ) ≤ 1 / 2 ^ 1074 := by positivity
    linarith
  · have hE : doubleExponent x = -1022 := by
      unfold doubleExponent
      apply max_eq_right
      have hpos : 0 < |x| := abs_pos.mpr hx
      have h2 : |x| < ((2 : ℕ) : ℚ) ^ (-1022 : ℤ) := by simpa using h
      exact le_of_lt ((Int.lt_zpow_iff_log_lt (by norm_num : 1 < 2) hpos).mp h2)
    unfold doubleUnit
    rw [hE]
    have h2 : (2 : ℚ) ^ ((-1022 : ℤ) - 52) = 1 / 2 ^ 1074 := zpow_neg_nat 1074
    rw [h2]
    have : 0 ≤ |x| / 2 ^ 52 := by positivity
    linarith

/-- The rounding error of `toDouble` on a value in the normal range. -/
theorem abs_toDouble_sub_le_of_normal (x : ℚ) (h : (2 : ℚ) ^ (-1022 : ℤ) ≤ |x|) :
    |toDouble x - x| ≤ |x| / 2 ^ 53 := by
  have h1 := abs_toDouble_sub_le_unit x
  have h2 := doubleUnit_le_of_normal x h
  have h3 : |x| / 2 ^ 53 = |x| / 2 ^ 52 / 2 := by
    rw [div_div]
    norm_num
  rw [h3]
  linarith

/-- The rounding error of `toDouble` on any value. -/
theorem abs_toDouble_sub_le (x : ℚ) : |toDouble x - x| ≤ |x| / 2 ^ 53 + 1 / 2 ^ 1075 := by
  rcases eq_or_ne x 0 with h0 | h0
  · rw [h0, toDouble_zero]
    simp
  have h1 := abs_toDouble_sub_le_unit x
  have h2 := doubleUnit_le x h0
  have h3 : |x| / 2 ^ 53 = |x| / 2 ^ 52 / 2 := by
    rw [div_div]
    norm_num
  have h4 : (1 : ℚ) / 2 ^ 1075 = 1 / 2 ^ 1074 / 2 := by
    rw [div_div]
    norm_num
  rw [h3, h4]
  linarith

theorem doubleExponent_eq_of_bounds (x : ℚ) (e : ℤ) (he : -1022 ≤ e)
    (hlo : (2 : ℚ) ^ e ≤ |x|) (hhi : |x| < (2 : ℚ) ^ (e + 1)) : doubleExponent x = e := by
  have hpos : 0 < |x| := lt_of_lt_of_le (zpow_pos (by norm_num) _) hlo
  have h1 : ((2 : ℕ) : ℚ) ^ e ≤ |x| := by simpa using hlo
  have h2 : |x| < ((2 : ℕ) : ℚ) ^ (e + 1) := by simpa using hhi
  have h3 := (Int.zpow_le_iff_le_log (by norm_num : 1 < 2) hpos).mp h1
  have h4 := (Int.lt_zpow_iff_log_lt (by norm_num : 1 < 2) hpos).mp h2
  unfold doubleExponent
  rw [max_eq_left (by omega)]
  omega

/-- Evaluation of `toDouble`: the binade of `x` and the integer nearest to the scaled
value determine the result. -/
theorem toDouble_eq_of_bounds (x : ℚ) (e m : ℤ) (he : -1022 ≤ e)
    (hlo : (2 : ℚ) ^ e ≤ |x|) (hhi : |x| < (2 : ℚ) ^ (e + 1))
    (hm : |x / 2 ^ (e - 52) - m| < 1 / 2) : toDouble x = m * 2 ^ (e - 52) := by
  unfold toDouble doubleUnit
  rw [doubleExponent_eq_of_bounds x e he hlo hhi, roundHalfEven_eq_of_abs_lt _ m hm]

theorem toDouble_natCast (n : ℕ) (h : n < 2 ^ 53) : toDouble (n : ℚ) = n := by
  rcases Nat.eq_zero_or_pos n with h0 | h0
  · rw [h0]
    simpa using toDouble_zero
  have hlog : Nat.log 2 n < 53 := Nat.log_lt_of_lt_pow (by omega) h
  have hE : doubleExponent (n : ℚ) = (Nat.log 2 n : ℤ) := by
    unfold doubleExponent
    rw [abs_of_nonneg (by positivity : (0 : ℚ) ≤ n), Int.log_natCast]
    apply max_eq_left
    omega
  obtain ⟨k, hk⟩ : ∃ k : ℕ, Nat.log 2 n + k = 52 := ⟨52 - Nat.log 2 n, by omega⟩
  have hu : doubleUnit (n : ℚ) = 1 / 2 ^ k := by
    unfold doubleUnit
    rw [hE, show ((Nat.log 2 n : ℤ) - 52) = -(k : ℤ) by omega, zpow_neg_nat]
  have hdiv : (n : ℚ) / (1 / 2 ^ k) = (((n * 2 ^ k : ℕ) : ℤ) : ℚ) := by
    push_cast
    field_simp
  unfold toDouble
  rw [hu, hdiv, roundHalfEven_intCast]
  push_cast
  field_simp

theorem toDouble_le_top (x : ℚ) (hx : 0 ≤ x) :
    toDouble x ≤ (2 : ℚ) ^ (doubleExponent x + 1) := by
  have hu := doubleUnit_pos x
  have h1 : x < (2 : ℚ) ^ (doubleExponent x + 1) := by
    have h2 := abs_lt_zpow_log_succ x
    rw [abs_of_nonneg hx] at h2
    have h3 : (2 : ℚ) ^ (Int.log 2 x + 1) ≤ (2 : ℚ) ^ (doubleExponent x + 1) := by
      apply zpow_le_zpow_right₀ (by norm_num)
      have : Int.log 2 x ≤ doubleExponent x := by
        unfold doubleExponent
        rw [abs_of_nonneg hx]
        exact le_max_left _ _
      omega
    linarith
  have hsplit : (2 : ℚ) ^ (doubleExponent x + 1) = (((2 ^ 53 : ℕ) : ℤ) : ℚ) * doubleUnit x := by
    unfold doubleUnit
    rw [show doubleExponent x + 1 = ((53 : ℕ) : ℤ) + (doubleExponent x - 52) by omega,
      zpow_add₀ (by norm_num : (2 : ℚ) ≠ 0), zpow_natCast]
    push_cast
    rfl
  have h4 : x / doubleUnit x ≤ (((2 ^ 53 : ℕ) : ℤ) : ℚ) := by
    rw [div_le_iff₀ hu, ← hsplit]
    exact h1.le
  have h5 := roundHalfEven_mono h4
  rw [roundHalfEven_intCast] at h5
  rw [hsplit]
  unfold toDouble
  exact mul_le_mul_of_nonneg_right (by exact_mod_cast h5) hu.le

theorem bottom_le_toDouble (x : ℚ) (hx : (2 : ℚ) ^ (-1022 : ℤ) ≤ x) :
    (2 : ℚ) ^ doubleExponent x ≤ toDouble x := by
  have hu := doubleUnit_pos x
  have hpos : 0 < x := lt_of_lt_of_le (zpow_pos (by norm_num) _) hx
  have habs : |x| = x := abs_of_pos hpos
  have hE : doubleExponent x = Int.log 2 |x| := doubleExponent_of_normal x (by rw [habs]; exact hx)
  have h1 : (2 : ℚ) ^ doubleExponent x ≤ x := by
    rw [hE]
    have := zpow_log_le_abs x (ne_of_gt hpos)
    rwa [habs] at this ⊢
  have hsplit : (2 : ℚ) ^ doubleExponent x = (((2 ^ 52 : ℕ) : ℤ) : ℚ) * doubleUnit x := by
    unfold doubleUnit
    rw [show doubleExponent x = ((52 : ℕ) : ℤ) + (doubleExponent x - 52) by omega,
      zpow_add₀ (by norm_num : (2 : ℚ) ≠ 0), zpow_natCast,
      show ((52 : ℕ) : ℤ) + (doubleExponent x - 52) = doubleExponent x by omega]
    push_cast
    rfl
  have h4 : (((2 ^ 52 : ℕ) : ℤ) : ℚ) ≤ x / doubleUnit x := by
    rw [le_div_iff₀ hu, ← hsplit]
    exact h1
  have h5 := roundHalfEven_mono h4
  rw [roundHalfEven_intCast] at h5
  rw [hsplit]
  unfold toDouble
  exact mul_le_mul_of_nonneg_right (by exact_mod_cast h5) hu.le

/-- Rounding to a double is monotone on the non-negative numbers. -/
theorem toDouble_mono {x y : ℚ} (hx : 0 ≤ x) (h : x ≤ y) : toDouble x ≤ toDouble y := by
  rcases eq_or_lt_of_le hx with h0 | hpos
  · rw [← h0, toDouble_zero]
    exact toDouble_nonneg (le_trans hx h)
  have hy : 0 < y := lt_of_lt_of_le hpos h
  have hlog : Int.log 2 |x| ≤ Int.log 2 |y| := by
    rw [abs_of_pos hpos, abs_of_pos hy]
    exact Int.log_mono_right hpos h
  have hE : doubleExponent x ≤ doubleExponent y := max_le_max hlog le_rfl
  rcases eq_or_lt_of_le hE with heq | hlt
  · have hu : doubleUnit x = doubleUnit y := by
      unfold doubleUnit
      rw [heq]
    unfold toDouble
    rw [hu]
    have h1 : x / doubleUnit y ≤ y / doubleUnit y :=
      div_le_div_of_nonneg_right h (doubleUnit_pos y).le
    exact mul_le_mul_of_nonneg_right (by exact_mod_cast roundHalfEven_mono h1)
      (doubleUnit_pos y).le
  · have hxE : -1022 ≤ doubleExponent x := le_max_right _ _
    have hyn : (2 : ℚ) ^ (-1022 : ℤ) ≤ y := by
      have hL : doubleExponent y = Int.log 2 |y| := by
        unfold doubleExponent
        apply max_eq_left
        by_contra hc
        have : doubleExponent y = -1022 := by
          unfold doubleExponent
          exact max_eq_right (by omega)
        omega
      have h1 := zpow_log_le_abs y (ne_of_gt hy)
      rw [abs_of_pos hy] at h1 hL
      have h2 : (2 : ℚ) ^ (-1022 : ℤ) ≤ (2 : ℚ) ^ Int.log 2 y :=
        zpow_le_zpow_right₀ (by norm_num) (by omega)
      linarith
    have h1 := toDouble_le_top x hx
    have h2 := bottom_le_toDouble y hyn
    have h3 : (2 : ℚ) ^ (doubleExponent x + 1) ≤ (2 : ℚ) ^ doubleExponent y :=
      zpow_le_zpow_right₀ (by norm_num) (by omega)
    linarith

theorem toDouble_eq_of_pos (x : ℚ) (e m : ℤ) (he : -1022 ≤ e)
    (hlo : (2 : ℚ) ^ e ≤ x) (hhi : x < (2 : ℚ) ^ (e + 1))
    (hm1 : (m : ℚ) - 1 / 2 < x / 2 ^ (e - 52)) (hm2 : x / 2 ^ (e - 52) < m + 1 / 2) :
    toDouble x = m * 2 ^ (e - 52) := by
  have hpos : 0 < x := lt_of_lt_of_le (zpow_pos (by norm_num) _) hlo
  apply toDouble_eq_of_bounds x e m he
  · rwa [abs_of_pos hpos]
  · rwa [abs_of_pos hpos]
  · rw [abs_lt]
    constructor <;> linarith

theorem abs_toDouble_sub_le_of_le (x B : ℚ) (hB : |x| ≤ B) :
    |toDouble x - x| ≤ (B + 1) / 2 ^ 53 := by
  have h1 := abs_toDouble_sub_le x
  have h2 : (1 : ℚ) / 2 ^ 1075 ≤ 1 / 2 ^ 53 := by norm_num
  have h3 : |x| / 2 ^ 53 ≤ B / 2 ^ 53 := div_le_div_of_nonneg_right hB (by positivity)
  rw [add_div]
  linarith

theorem abs_toDouble_sub_le_of_near (x y B d : ℚ) (h : |x - y| ≤ d) (hB : |y| + d ≤ B) :
    |toDouble x - y| ≤ d + (B + 1) / 2 ^ 53 := by
  have hx : |x| ≤ B := by
    have h1 := abs_sub_abs_le_abs_sub x y
    linarith
  have h2 := abs_toDouble_sub_le_of_le x B hx
  have h3 := abs_sub_le (toDouble x) x y
  linarith

/-! ## Claims about the chunk encoder and the upload loop -/

/-- C1: when every chunk request succeeds, `uploadFileByChunks` completes and transmits
exactly `ceil(R / 1000)` chunks, where `R` is the number of lines after the first that are
not blank after trimming; every chunk carries between 1 and 1000 data rows, and a file
with `R = 0` transmits no chunk. -/
theorem upload_transmits_ceil_chunks (fetch : Request → FetchOutcome) (st : State)
    (text : List Char) (fileType : String) (progressStep : ℚ)
    (hok : ∀ i, respondsOk fetch (chunkRequest st.currentProject text fileType i)) :
    (uploadFileByChunks fetch st (some text) fileType progressStep).2 = .ok () ∧
    (uploadFileByChunks fetch st (some text) fileType progressStep).1.requests
      = st.requests ++ (chunksSent fetch st text fileType progressStep).map
          (Request.importChunk st.currentProject) ∧
    (chunksSent fetch st text fileType progressStep).length
      = ⌈((((splitNewline text).tail.filter
            (fun line => decide (jsTrim line ≠ []))).length : ℕ) : ℚ) / 1000⌉₊ ∧
    (∀ c ∈ chunksSent fetch st text fileType progressStep,
      1 ≤ (chunkRows c).length ∧ (chunkRows c).length ≤ 1000) ∧
    (((splitNewline text).tail.filter (fun line => decide (jsTrim line ≠ []))).length = 0 →
      chunksSent fetch st text fileType progressStep = []) := by
  have hok2 : ∀ i, i < totalChunksOf (dataLinesOf text).length →
      respondsOk fetch (chunkRequest st.currentProject text fileType i) := fun i _ => hok i
  have hrun := uploadFileByChunks_all_ok fetch st text fileType progressStep hok2
  have hsent := chunksSent_all_ok fetch st text fileType progressStep hok2
  rw [← dataLinesOf_eq_filter]
  have hceil : ⌈(((dataLinesOf text).length : ℕ) : ℚ) / 1000⌉₊
      = totalChunksOf (dataLinesOf text).length := by
    simp [totalChunksOf, chunkSize]
  refine ⟨by rw [hrun], ?_, ?_, ?_, ?_⟩
  · rw [hrun, hsent]
    simp [chunkRequest, Function.comp_def]
  · rw [hsent, hceil]
    simp
  · intro c hc
    rw [hsent] at hc
    obtain ⟨i, hi, rfl⟩ := List.mem_map.1 hc
    have hi2 := List.mem_range.1 hi
    rw [chunkRows_chunkFormOf text fileType i hi2, chunkLines_length]
    rw [lt_totalChunksOf_iff] at hi2
    omega
  · intro h0
    rw [hsent, totalChunksOf_eq, h0]
    rfl

/-- Witness for C1: the sample file uploaded through the always-succeeding transport. -/
theorem upload_transmits_ceil_chunks_witness :
    (uploadFileByChunks okFetch initialState (some sampleText) "pages" 50).2 = .ok () ∧
    (chunksSent okFetch initialState sampleText "pages" 50).length
      = ⌈((((splitNewline sampleText).tail.filter
            (fun line => decide (jsTrim line ≠ []))).length : ℕ) : ℚ) / 1000⌉₊ :=
  let h := upload_transmits_ceil_chunks okFetch initialState sampleText "pages" 50
    (fun _ => ⟨_, rfl, rfl⟩)
  ⟨h.1, h.2.2.1⟩

/-- C2: concatenating, in chunk-index order, the data rows of the chunks that
`uploadFileByChunks` builds gives exactly the file's non-blank lines after the first
line, unchanged and in their original order. -/
theorem chunk_rows_concat (fetch : Request → FetchOutcome) (st : State)
    (text : List Char) (fileType : String) (progressStep : ℚ)
    (hok : ∀ i, respondsOk fetch (chunkRequest st.currentProject text fileType i)) :
    ((chunksSent fetch st text fileType progressStep).map chunkRows).flatten
      = (splitNewline text).tail.filter (fun line => decide (jsTrim line ≠ [])) := by
  rw [chunksSent_all_ok fetch st text fileType progressStep (fun i _ => hok i),
    ← dataLinesOf_eq_filter, List.map_map]
  have hmap : (List.range (totalChunksOf (dataLinesOf text).length)).map
        (chunkRows ∘ chunkFormOf text fileType)
      = (List.range (totalChunksOf (dataLinesOf text).length)).map
        (chunkLines (dataLinesOf text)) := by
    apply List.map_congr_left
    intro i hi
    exact chunkRows_chunkFormOf text fileType i (List.mem_range.1 hi)
  rw [hmap]
  exact flatMap_chunkLines (dataLinesOf text)

/-- Witness for C2: the sample file uploaded through the always-succeeding transport. -/
theorem chunk_rows_concat_witness :
    ((chunksSent okFetch initialState sampleText "pages" 50).map chunkRows).flatten
      = ["a,A".toList, "b,B".toList] :=
  (chunk_rows_concat okFetch initialState sampleText "pages" 50
    (fun _ => ⟨_, rfl, rfl⟩)).trans (by decide)

/-- C3: for every chunk index `i < totalChunks`, the payload of chunk `i` built by
`uploadFileByChunks` is the header, a newline, and the chunk's rows joined with newlines,
where the header is the text before the first newline of the file; so each payload starts
with the header line of the original file. -/
theorem chunk_payload_has_header (fetch : Request → FetchOutcome) (st : State)
    (text : List Char) (fileType : String) (progressStep : ℚ)
    (hok : ∀ i, respondsOk fetch (chunkRequest st.currentProject text fileType i)) :
    (chunksSent fetch st text fileType progressStep).length
      = totalChunksOf (dataLinesOf text).length ∧
    ∀ i c, (chunksSent fetch st text fileType progressStep)[i]? = some c →
      c.chunk_data = text.takeWhile (fun ch => ch ≠ '\n') ++ ['\n']
        ++ joinNewline (chunkRows c) ∧
      chunkRows c = chunkLines (dataLinesOf text) i ∧
      (splitNewline c.chunk_data).headD [] = (splitNewline text).headD [] := by
  rw [chunksSent_all_ok fetch st text fileType progressStep (fun i _ => hok i)]
  refine ⟨by simp, ?_⟩
  intro i c hc
  obtain ⟨hi, rfl⟩ := (getElem?_range_map _ _ _ _).1 hc
  have hrows := chunkRows_chunkFormOf text fileType i hi
  refine ⟨?_, hrows, ?_⟩
  · rw [hrows, ← headerOf_eq]
    rfl
  · have hdata : (chunkFormOf text fileType i).chunk_data
        = headerOf text ++ '\n' :: joinNewline (chunkLines (dataLinesOf text) i) := by
      simp [chunkFormOf, chunkForm]
    rw [hdata, splitNewline_append_newline _ _ (headerOf_no_newline text)]
    rfl

/-- Witness for C3: the only chunk of the sample file. -/
theorem chunk_payload_has_header_witness :
    (chunksSent okFetch initialState sampleText "pages" 50).length
      = totalChunksOf (dataLinesOf sampleText).length ∧
    ∀ i c, (chunksSent okFetch initialState sampleText "pages" 50)[i]? = some c →
      c.chunk_data = sampleText.takeWhile (fun ch => ch ≠ '\n') ++ ['\n']
        ++ joinNewline (chunkRows c) ∧
      chunkRows c = chunkLines (dataLinesOf sampleText) i ∧
      (splitNewline c.chunk_data).headD [] = (splitNewline sampleText).headD [] :=
  chunk_payload_has_header okFetch initialState sampleText "pages" 50
    (fun _ => ⟨_, rfl, rfl⟩)

/-- C4: for a file with at least one data row, the chunk at position `i` carries
`chunk_index = i` and the common `total_chunks`; `is_first_chunk` is true exactly for
index 0 and `is_last_chunk` exactly for index `totalChunks - 1`, each for exactly one
chunk, and the chunk indices are `0, 1, ..., totalChunks - 1` without gap or repeat. -/
theorem chunk_flags_and_indices (fetch : Request → FetchOutcome) (st : State)
    (text : List Char) (fileType : String) (progressStep : ℚ)
    (hrows : 1 ≤ (dataLinesOf text).length)
    (hok : ∀ i, respondsOk fetch (chunkRequest st.currentProject text fileType i)) :
    1 ≤ totalChunksOf (dataLinesOf text).length ∧
    (chunksSent fetch st text fileType progressStep).map ChunkForm.chunk_index
      = (List.range (totalChunksOf (dataLinesOf text).length)).map toString ∧
    ((chunksSent fetch st text fileType progressStep).map ChunkForm.chunk_index).Nodup ∧
    (∀ i c, (chunksSent fetch st text fileType progressStep)[i]? = some c →
      c.chunk_index = toString i ∧
      c.total_chunks = toString (totalChunksOf (dataLinesOf text).length) ∧
      (c.is_first_chunk = "true" ↔ i = 0) ∧
      (c.is_last_chunk = "true" ↔ i = totalChunksOf (dataLinesOf text).length - 1)) ∧
    (chunksSent fetch st text fileType progressStep).countP
      (fun c => decide (c.is_first_chunk = "true")) = 1 ∧
    (chunksSent fetch st text fileType progressStep).countP
      (fun c => decide (c.is_last_chunk = "true")) = 1 := by
  rw [chunksSent_all_ok fetch st text fileType progressStep (fun i _ => hok i)]
  have hn : 1 ≤ totalChunksOf (dataLinesOf text).length := by
    rw [totalChunksOf_eq]
    omega
  have hfirst : ∀ i, (chunkFormOf text fileType i).is_first_chunk = "true" ↔ i = 0 := by
    intro i
    simp [chunkFormOf, chunkForm, toString_bool_eq_true]
  have hlast : ∀ i, (chunkFormOf text fileType i).is_last_chunk = "true"
      ↔ i = totalChunksOf (dataLinesOf text).length - 1 := by
    intro i
    simp only [chunkFormOf, chunkForm, toString_bool_eq_true, decide_eq_true_eq]
    omega
  have hidx : ((List.range (totalChunksOf (dataLinesOf text).length)).map
        (chunkFormOf text fileType)).map ChunkForm.chunk_index
      = (List.range (totalChunksOf (dataLinesOf text).length)).map toString := by
    rw [List.map_map]
    rfl
  refine ⟨hn, hidx, ?_, ?_, ?_, ?_⟩
  · rw [hidx]
    exact (List.nodup_range _).map (fun a b h => toString_nat_injective a b h)
  · intro i c hc
    obtain ⟨_, rfl⟩ := (getElem?_range_map _ _ _ _).1 hc
    exact ⟨rfl, rfl, hfirst i, hlast i⟩
  · rw [List.countP_map, ← countP_range_eq _ 0 hn]
    apply List.countP_congr
    intro i _
    simp [hfirst i]
  · rw [List.countP_map,
      ← countP_range_eq (totalChunksOf (dataLinesOf text).length)
        (totalChunksOf (dataLinesOf text).length - 1) (by omega)]
    apply List.countP_congr
    intro i _
    simp [hlast i]

/-- Witness for C4: the sample file has two data rows. -/
theorem chunk_flags_and_indices_witness :
    1 ≤ (dataLinesOf sampleText).length ∧
    (chunksSent okFetch initialState sampleText "pages" 50).countP
      (fun c => decide (c.is_first_chunk = "true")) = 1 ∧
    (chunksSent okFetch initialState sampleText "pages" 50).countP
      (fun c => decide (c.is_last_chunk = "true")) = 1 :=
  let h := chunk_flags_and_indices okFetch initialState sampleText "pages" 50
    (by decide) (fun _ => ⟨_, rfl, rfl⟩)
  ⟨by decide, h.2.2.2.2.1, h.2.2.2.2.2⟩

/-- C5: when chunk `k` is the first chunk whose response is not ok, `uploadFileByChunks`
issues the `import-chunk` requests of the indices `0, 1, ..., k` in that order, none for
an index above `k`, and ends by throwing; chunk `i + 1` is requested only when the
response to chunk `i` was ok. -/
theorem chunk_failure_aborts (fetch : Request → FetchOutcome) (st : State)
    (text : List Char) (fileType : String) (progressStep : ℚ) (k : ℕ)
    (hk : k < totalChunksOf (dataLinesOf text).length)
    (hok : ∀ j, j < k → respondsOk fetch (chunkRequest st.currentProject text fileType j))
    (hfail : respondsNotOk fetch (chunkRequest st.currentProject text fileType k)) :
    (uploadFileByChunks fetch st (some text) fileType progressStep).1.requests
      = st.requests ++
        (List.range (k + 1)).map (chunkRequest st.currentProject text fileType) ∧
    (∀ i, k < i → chunkRequest st.currentProject text fileType i ∉
      (uploadFileByChunks fetch st (some text) fileType progressStep).1.requests.drop
        st.requests.length) ∧
    (∃ message,
      (uploadFileByChunks fetch st (some text) fileType progressStep).2 = .error message) ∧
    (∀ i, chunkRequest st.currentProject text fileType (i + 1) ∈
      (uploadFileByChunks fetch st (some text) fileType progressStep).1.requests.drop
        st.requests.length →
      respondsOk fetch (chunkRequest st.currentProject text fileType i)) := by
  have hrun := uploadFileByChunks_fail fetch st text fileType progressStep k hk hok hfail
  refine ⟨by rw [hrun], ?_, ⟨_, by rw [hrun]⟩, ?_⟩
  · intro i hi hmem
    rw [hrun] at hmem
    simp only [List.drop_left] at hmem
    obtain ⟨j, hj, hreq⟩ := List.mem_map.1 hmem
    have hji := chunkRequest_injective _ _ _ _ _ hreq
    have := List.mem_range.1 hj
    omega
  · intro i hmem
    rw [hrun] at hmem
    simp only [List.drop_left] at hmem
    obtain ⟨j, hj, hreq⟩ := List.mem_map.1 hmem
    have hji := chunkRequest_injective _ _ _ _ _ hreq
    have := List.mem_range.1 hj
    exact hok i (by omega)

/-- Witness for C5: the first chunk of the sample file is refused. -/
theorem chunk_failure_aborts_witness :
    (uploadFileByChunks failFetch initialState (some sampleText) "pages" 50).1.requests
      = [chunkRequest none sampleText "pages" 0] ∧
    (∃ message,
      (uploadFileByChunks failFetch initialState (some sampleText) "pages" 50).2
        = .error message) :=
  let h := chunk_failure_aborts failFetch initialState sampleText "pages" 50 0
    (by rw [lt_totalChunksOf_iff]; decide) (fun j hj => absurd hj (Nat.not_lt_zero j))
    ⟨_, rfl, rfl⟩
  ⟨h.1, h.2.2.1⟩

theorem chunkErrorMessage_data (i n : ℕ) :
    (chunkErrorMessage i n).data
      = "Erreur upload chunk ".data ++
        (Nat.toDigits 10 (i + 1) ++ '/' :: Nat.toDigits 10 n) := by
  simp only [chunkErrorMessage, String.data_append, toString_nat_data, List.append_assoc]
  rfl

theorem chunkErrorMessage_injective (i n j m : ℕ)
    (h : chunkErrorMessage i n = chunkErrorMessage j m) : i = j ∧ n = m := by
  have hd := congrArg String.data h
  rw [chunkErrorMessage_data, chunkErrorMessage_data, List.append_right_inj,
    List.append_cons_inj_of_not_mem (toDigits_spec (i + 1)).2 (toDigits_spec n).2] at hd
  have h1 : i + 1 = j + 1 := by
    rw [← (toDigits_spec (i + 1)).1, ← (toDigits_spec (j + 1)).1, hd.1]
  have h2 : n = m := by
    rw [← (toDigits_spec n).1, ← (toDigits_spec m).1, hd.2.2]
  exact ⟨by omega, h2⟩

theorem chunkErrorMessage_ne_finalize (i n : ℕ) :
    chunkErrorMessage i n ≠ finalizeErrorMessage := by
  intro h
  have hd := congrArg (fun s => s.data.take 8) h
  simp only [chunkErrorMessage_data] at hd
  rw [List.take_append_of_le_length (by decide)] at hd
  exact absurd hd (by decide)

theorem chunkErrorMessage_ne_createProject (i n : ℕ) :
    chunkErrorMessage i n ≠ createProjectErrorMessage := by
  intro h
  have hd := congrArg (fun s => s.data.take 1) h
  simp only [chunkErrorMessage_data] at hd
  rw [List.take_append_of_le_length (by decide)] at hd
  exact absurd hd (by decide)

theorem uploadFileByChunks_accepting (fetch : Request → FetchOutcome) (st : State)
    (file : Option (List Char)) (fileType : String) (progressStep : ℚ)
    (h : ∀ project form, respondsOk fetch (Request.importChunk project form)) :
    ∃ reqs, uploadFileByChunks fetch st file fileType progressStep
      = ({ st with requests := st.requests ++ reqs }, .ok ()) := by
  cases file with
  | none => exact ⟨[], by simp [uploadFileByChunks]⟩
  | some text =>
    exact ⟨_, uploadFileByChunks_all_ok fetch st text fileType progressStep
      (fun i _ => h _ _)⟩

theorem uploadFiles_finalize_fail (fetch : Request → FetchOutcome) (st : State)
    (pagesFile linksFile : Option (List Char))
    (h : ∀ project form, respondsOk fetch (Request.importChunk project form))
    (hfin : respondsNotOk fetch (Request.importFinalize st.currentProject)) :
    (uploadFiles fetch st pagesFile linksFile).2 = .error finalizeErrorMessage := by
  obtain ⟨r, hr, hok⟩ := hfin
  have hst : ({ st with dom := updateProgress st.dom uploadStartReport } : State) = st := rfl
  obtain ⟨reqs1, h1⟩ := uploadFileByChunks_accepting fetch st pagesFile "pages" 50 h
  unfold uploadFiles
  simp only [hst, h1]
  cases hl : linksFile.isSome
  · simp [hr, hok]
  · obtain ⟨reqs2, h2⟩ := uploadFileByChunks_accepting fetch
      { st with requests := st.requests ++ reqs1 } linksFile "links" 50 h
    simp [h2, hr, hok]

theorem createProject_fail (fetch : Request → FetchOutcome) (st : State)
    (h : respondsNotOk fetch Request.createProject) :
    (createProject fetch st).2 = .error createProjectErrorMessage := by
  obtain ⟨r, hr, hok⟩ := h
  simp [createProject, hr, hok]

/-- C6: the error `uploadFileByChunks` throws when chunk `k` fails carries the message
built from `k + 1` and the total chunk count; different (index, total) pairs give
different messages, and no such message equals the finalize-failure message thrown by
`uploadFiles` or the creation-failure message thrown by `createProject`. -/
theorem chunk_error_identifies_chunk :
    (∀ (fetch : Request → FetchOutcome) (st : State) (text : List Char)
        (fileType : String) (progressStep : ℚ) (k : ℕ),
      k < totalChunksOf (dataLinesOf text).length →
      (∀ j, j < k → respondsOk fetch (chunkRequest st.currentProject text fileType j)) →
      respondsNotOk fetch (chunkRequest st.currentProject text fileType k) →
      (uploadFileByChunks fetch st (some text) fileType progressStep).2
        = .error (chunkErrorMessage k (totalChunksOf (dataLinesOf text).length))) ∧
    (∀ i n j m : ℕ, (i, n) ≠ (j, m) → chunkErrorMessage i n ≠ chunkErrorMessage j m) ∧
    (∀ i n : ℕ, chunkErrorMessage i n ≠ finalizeErrorMessage ∧
      chunkErrorMessage i n ≠ createProjectErrorMessage) ∧
    (∀ (fetch : Request → FetchOutcome) (st : State) (pagesFile linksFile : Option (List Char)),
      (∀ project form, respondsOk fetch (Request.importChunk project form)) →
      respondsNotOk fetch (Request.importFinalize st.currentProject) →
      (uploadFiles fetch st pagesFile linksFile).2 = .error finalizeErrorMessage) ∧
    (∀ (fetch : Request → FetchOutcome) (st : State),
      respondsNotOk fetch Request.createProject →
      (createProject fetch st).2 = .error createProjectErrorMessage) := by
  refine ⟨?_, ?_, ?_, uploadFiles_finalize_fail, createProject_fail⟩
  · intro fetch st text fileType progressStep k hk hok hfail
    rw [uploadFileByChunks_fail fetch st text fileType progressStep k hk hok hfail]
  · intro i n j m hne heq
    obtain ⟨h1, h2⟩ := chunkErrorMessage_injective i n j m heq
    exact hne (by rw [h1, h2])
  · intro i n
    exact ⟨chunkErrorMessage_ne_finalize i n, chunkErrorMessage_ne_createProject i n⟩

/-- Witness for C6: the messages of chunk 1 of 3 and chunk 2 of 3. -/
theorem chunk_error_identifies_chunk_witness :
    chunkErrorMessage 0 3 = "Erreur upload chunk 1/3" ∧
    chunkErrorMessage 0 3 ≠ chunkErrorMessage 1 3 ∧
    chunkErrorMessage 0 3 ≠ finalizeErrorMessage :=
  ⟨by decide, chunk_error_identifies_chunk.2.1 0 3 1 3 (by decide),
    (chunk_error_identifies_chunk.2.2.1 0 3).1⟩

/-! ## Claims about progress normalisation -/

/-- Counterexample for C7: with `step = 0`, `total_steps = 4` and a percentage of 50 all
three fields are present, yet `updateProgress` computes 50 and not the step formula
`((0 - 1) / 4) * 100 + 50 / 4 = -12.5`. -/
theorem overall_percentage_zero_step :
    overallPercentage zeroStepProgress = 50 ∧
    specOverallPercentage zeroStepProgress = -25 / 2 ∧
    overallPercentage zeroStepProgress ≠ specOverallPercentage zeroStepProgress := by
  have h1 : overallPercentage zeroStepProgress = 50 := by
    simp [overallPercentage, zeroStepProgress, numTruthy]
  have h2 : specOverallPercentage zeroStepProgress = -25 / 2 := by
    simp only [specOverallPercentage, zeroStepProgress]
    norm_num
  refine ⟨h1, h2, ?_⟩
  rw [h1, h2]
  norm_num

theorem overallPercentage_formula (p : Progress) (s t q : ℚ) (hs : p.step = some s)
    (ht : p.total_steps = some t) (hq : p.progress_percentage = some q) (hs0 : s ≠ 0)
    (ht0 : t ≠ 0) : overallPercentage p = ((s - 1) / t) * 100 + q / t := by
  simp [overallPercentage, numTruthy, hs, ht, hq, hs0, ht0]

theorem overallPercentage_plain (p : Progress) (q : ℚ) (hq : p.progress_percentage = some q)
    (h : p.step = none ∨ p.step = some 0 ∨ p.total_steps = none ∨ p.total_steps = some 0) :
    overallPercentage p = q := by
  rcases h with h | h | h | h <;> simp [overallPercentage, numTruthy, hq, h]

/-- C7 (amended): the overall percentage `updateProgress` computes is
`((step - 1) / total_steps) * 100 + progress_percentage / total_steps` whenever `step` and
`total_steps` are present and non-zero and the percentage is present; it is the percentage
whenever the percentage is present and `step` or `total_steps` is absent or zero; it is 0
when the percentage is absent. For step 2 of 4 at 50 percent it is 37.5. -/
theorem overall_percentage_cases (p : Progress) :
    (∀ s t q : ℚ, p.step = some s → p.total_steps = some t →
      p.progress_percentage = some q → s ≠ 0 → t ≠ 0 →
      overallPercentage p = ((s - 1) / t) * 100 + q / t) ∧
    (∀ q : ℚ, p.progress_percentage = some q →
      (p.step = none ∨ p.step = some 0 ∨ p.total_steps = none ∨ p.total_steps = some 0) →
      overallPercentage p = q) ∧
    (p.progress_percentage = none → overallPercentage p = 0) ∧
    overallPercentage stepTwoOfFour = 75 / 2 := by
  refine ⟨?_, ?_, ?_, ?_⟩
  · intro s t q hs ht hq hs0 ht0
    exact overallPercentage_formula p s t q hs ht hq hs0 ht0
  · intro q hq h
    exact overallPercentage_plain p q hq h
  · intro hq
    simp [overallPercentage, hq]
  · simp only [overallPercentage, numTruthy, stepTwoOfFour]
    norm_num

/-- Witness for C7: step 2 of 4 at 50 percent gives 37.5. -/
theorem overall_percentage_cases_witness :
    overallPercentage stepTwoOfFour = ((2 - 1) / 4) * 100 + 50 / 4 :=
  (overall_percentage_cases stepTwoOfFour).1 2 4 50 rfl rfl rfl (by norm_num) (by norm_num)

/-- Counterexample for C8: a percentage of -5 is written to the bar width as -5, below the
interval [0, 100]. -/
theorem progress_width_negative :
    (updateProgress emptyDom negativeStatus).progressFillWidth = -5 ∧
    ¬ (0 ≤ (updateProgress emptyDom negativeStatus).progressFillWidth) := by
  have h : (updateProgress emptyDom negativeStatus).progressFillWidth = -5 := by
    simp only [updateProgress, negativeStatus, overallPercentage, numTruthy]
    norm_num
  rw [h]
  exact ⟨rfl, by norm_num⟩

theorem updateProgress_width (dom : Dom) (status : Status) (p : Progress)
    (hp : status.progress = some p) :
    (updateProgress dom status).progressFillWidth = min (overallPercentage p) 100 := by
  unfold updateProgress
  rw [hp]
  simp only
  split_ifs <;> rfl

/-- C8 (amended): the percentage `updateProgress` writes to the bar width is the minimum
of the overall percentage and 100: it never exceeds 100, and it is at least 0 whenever the
overall percentage is, in particular for `step ≥ 1`, `total_steps > 0` and a non-negative
percentage, and for a non-negative percentage alone. -/
theorem progress_width_bounds (dom : Dom) (status : Status) (p : Progress)
    (hp : status.progress = some p) :
    (updateProgress dom status).progressFillWidth = min (overallPercentage p) 100 ∧
    (updateProgress dom status).progressFillWidth ≤ 100 ∧
    (0 ≤ overallPercentage p → 0 ≤ (updateProgress dom status).progressFillWidth) ∧
    (∀ s t q : ℚ, p.step = some s → p.total_steps = some t →
      p.progress_percentage = some q → 1 ≤ s → 0 < t → 0 ≤ q →
      0 ≤ (updateProgress dom status).progressFillWidth) ∧
    (∀ q : ℚ, p.step = none → p.total_steps = none → p.progress_percentage = some q →
      0 ≤ q → 0 ≤ (updateProgress dom status).progressFillWidth) := by
  have hw := updateProgress_width dom status p hp
  refine ⟨hw, ?_, ?_, ?_, ?_⟩
  · rw [hw]
    exact min_le_right _ _
  · intro h
    rw [hw]
    exact le_min h (by norm_num)
  · intro s t q hs ht hq h1 h0 hq0
    rw [hw, overallPercentage_formula p s t q hs ht hq (by linarith) (by linarith)]
    apply le_min _ (by norm_num)
    have ha : 0 ≤ (s - 1) / t := div_nonneg (by linarith) h0.le
    have hb : 0 ≤ q / t := div_nonneg hq0 h0.le
    linarith
  · intro q hs _ hq hq0
    rw [hw, overallPercentage_plain p q hq (Or.inl hs)]
    exact le_min hq0 (by norm_num)

/-- Witness for C8: the negative percentage is still written as a value below 100. -/
theorem progress_width_bounds_witness :
    (updateProgress emptyDom negativeStatus).progressFillWidth ≤ 100 :=
  (progress_width_bounds emptyDom negativeStatus _ rfl).2.1

theorem step_formula_eq (s t q : ℚ) (ht : 0 < t) :
    ((s - 1) / t) * 100 + q / t = ((s - 1) * 100 + q) / t := by
  field_simp

theorem stepFormula_exact_range (s t q : ℚ) (h1 : 1 ≤ s) (hst : s ≤ t) (hq0 : 0 ≤ q)
    (hq100 : q ≤ 100) :
    0 ≤ ((s - 1) / t) * 100 + q / t ∧ ((s - 1) / t) * 100 + q / t ≤ 100 ∧
    (((s - 1) / t) * 100 + q / t = 100 ↔ s = t ∧ q = 100) := by
  have ht0 : 0 < t := by linarith
  rw [step_formula_eq s t q ht0]
  refine ⟨?_, ?_, ?_⟩
  · apply div_nonneg _ ht0.le
    nlinarith
  · rw [div_le_iff₀ ht0]
    nlinarith
  · rw [div_eq_iff (ne_of_gt ht0)]
    constructor
    · intro h
      have hs2 : s = t := by nlinarith
      refine ⟨hs2, ?_⟩
      rw [hs2] at h
      linarith
    · rintro ⟨h2, h3⟩
      rw [h2, h3]
      ring

theorem stepFormulaDouble_error (s t q : ℚ) (h1 : 1 ≤ s) (hst : s ≤ t) (hq0 : 0 ≤ q)
    (hq100 : q ≤ 100) :
    |jsAdd (jsMul (jsDiv (jsSub s 1) t) 100) (jsDiv q t) - (((s - 1) / t) * 100 + q / t)|
      ≤ 1 / 2 ^ 43 := by
  have ht0 : 0 < t := by linarith
  obtain ⟨hE0, hE100, -⟩ := stepFormula_exact_range s t q h1 hst hq0 hq100
  have hf0 : 0 ≤ (s - 1) / t := div_nonneg (by linarith) ht0.le
  have hf1 : (s - 1) / t ≤ 1 := by
    rw [div_le_one ht0]
    linarith
  have hg0 : 0 ≤ q / t := div_nonneg hq0 ht0.le
  have hg100 : q / t ≤ 100 := by
    rw [div_le_iff₀ ht0]
    nlinarith
  obtain ⟨ε, hε⟩ : ∃ ε : ℚ, ε = 1 / 2 ^ 53 := ⟨_, rfl⟩
  have hε0 : 0 ≤ ε := by
    rw [hε]
    positivity
  have hεs : 1000 * ε ≤ 1 := by
    rw [hε]
    norm_num
  have hεt : 1024 * ε = 1 / 2 ^ 43 := by
    rw [hε]
    norm_num
  have hb : ∀ B : ℚ, (B + 1) / 2 ^ 53 = (B + 1) * ε := by
    intro B
    rw [hε]
    ring
  unfold jsAdd jsMul jsDiv jsSub
  have e0 : |toDouble (s - 1) - (s - 1)| ≤ s * ε := by
    have h := abs_toDouble_sub_le_of_le (s - 1) (s - 1)
      (by rw [abs_of_nonneg (by linarith)])
    rw [hb] at h
    linarith
  have e0d : |toDouble (s - 1) / t - (s - 1) / t| ≤ ε := by
    rw [← sub_div, abs_div, abs_of_pos ht0, div_le_iff₀ ht0]
    nlinarith
  have e1 : |toDouble (toDouble (s - 1) / t) - (s - 1) / t| ≤ 4 * ε := by
    have h := abs_toDouble_sub_le_of_near _ _ 2 ε e0d
      (by rw [abs_of_nonneg hf0]; linarith)
    rw [hb] at h
    linarith
  have e1m : |toDouble (toDouble (s - 1) / t) * 100 - (s - 1) / t * 100| ≤ 400 * ε := by
    rw [← sub_mul, abs_mul, abs_of_pos (by norm_num : (0 : ℚ) < 100)]
    linarith
  have e2 : |toDouble (toDouble (toDouble (s - 1) / t) * 100) - (s - 1) / t * 100|
      ≤ 502 * ε := by
    have h := abs_toDouble_sub_le_of_near _ _ 101 (400 * ε) e1m
      (by rw [abs_of_nonneg (by linarith)]; linarith)
    rw [hb] at h
    linarith
  have e3 : |toDouble (q / t) - q / t| ≤ 101 * ε := by
    have h := abs_toDouble_sub_le_of_le (q / t) 100 (by rw [abs_of_nonneg hg0]; exact hg100)
    rw [hb] at h
    linarith
  have e23 : |toDouble (toDouble (toDouble (s - 1) / t) * 100) + toDouble (q / t)
      - ((s - 1) / t * 100 + q / t)| ≤ 603 * ε := by
    have h := abs_add (toDouble (toDouble (toDouble (s - 1) / t) * 100) - (s - 1) / t * 100)
      (toDouble (q / t) - q / t)
    have heq : toDouble (toDouble (toDouble (s - 1) / t) * 100) + toDouble (q / t)
        - ((s - 1) / t * 100 + q / t)
        = toDouble (toDouble (toDouble (s - 1) / t) * 100) - (s - 1) / t * 100
          + (toDouble (q / t) - q / t) := by ring
    rw [heq]
    linarith
  have h := abs_toDouble_sub_le_of_near _ _ 101 (603 * ε) e23
    (by rw [abs_of_nonneg hE0]; linarith)
  rw [hb] at h
  linarith

theorem stepFormulaDouble_nonneg (s t q : ℚ) (h1 : 1 ≤ s) (ht : 0 ≤ t) (hq0 : 0 ≤ q) :
    0 ≤ jsAdd (jsMul (jsDiv (jsSub s 1) t) 100) (jsDiv q t) :=
  toDouble_nonneg (add_nonneg
    (toDouble_nonneg (mul_nonneg
      (toDouble_nonneg (div_nonneg (toDouble_nonneg (by linarith)) ht)) (by norm_num)))
    (toDouble_nonneg (div_nonneg hq0 ht)))

theorem stepFormulaDouble_mono (s s2 t q q2 : ℚ) (h1 : 1 ≤ s) (ht : 0 ≤ t) (hq0 : 0 ≤ q)
    (hs : s ≤ s2) (hq : q ≤ q2) :
    jsAdd (jsMul (jsDiv (jsSub s 1) t) 100) (jsDiv q t)
      ≤ jsAdd (jsMul (jsDiv (jsSub s2 1) t) 100) (jsDiv q2 t) := by
  unfold jsAdd jsMul jsDiv jsSub
  have a0 : 0 ≤ toDouble (s - 1) := toDouble_nonneg (by linarith)
  have m0 : toDouble (s - 1) ≤ toDouble (s2 - 1) := toDouble_mono (by linarith) (by linarith)
  have a1 : 0 ≤ toDouble (toDouble (s - 1) / t) := toDouble_nonneg (div_nonneg a0 ht)
  have m1 : toDouble (toDouble (s - 1) / t) ≤ toDouble (toDouble (s2 - 1) / t) :=
    toDouble_mono (div_nonneg a0 ht) (div_le_div_of_nonneg_right m0 ht)
  have a2 : 0 ≤ toDouble (toDouble (toDouble (s - 1) / t) * 100) :=
    toDouble_nonneg (mul_nonneg a1 (by norm_num))
  have m2 : toDouble (toDouble (toDouble (s - 1) / t) * 100)
      ≤ toDouble (toDouble (toDouble (s2 - 1) / t) * 100) :=
    toDouble_mono (mul_nonneg a1 (by norm_num)) (mul_le_mul_of_nonneg_right m1 (by norm_num))
  have a3 : 0 ≤ toDouble (q / t) := toDouble_nonneg (div_nonneg hq0 ht)
  have m3 : toDouble (q / t) ≤ toDouble (q2 / t) :=
    toDouble_mono (div_nonneg hq0 ht) (div_le_div_of_nonneg_right hq ht)
  exact toDouble_mono (add_nonneg a2 a3) (add_le_add m2 m3)

theorem stepFormulaDouble_six :
    jsAdd (jsMul (jsDiv (jsSub 6 1) 6) 100) (jsDiv 100 6) = 100 + 1 / 2 ^ 46 := by
  have e0 : toDouble (6 - 1) = 5 := by
    have h := toDouble_natCast 5 (by norm_num)
    norm_num at h ⊢
    exact h
  have e1 : toDouble (5 / 6) = 7505999378950827 / 2 ^ 53 := by
    rw [toDouble_eq_of_pos (5 / 6) (-1) 7505999378950827 (by norm_num) (by norm_num)
      (by norm_num) (by norm_num) (by norm_num)]
    norm_num
  have e2 : toDouble (7505999378950827 / 2 ^ 53 * 100) = 5864062014805334 / 2 ^ 46 := by
    rw [toDouble_eq_of_pos _ 6 5864062014805334 (by norm_num) (by norm_num)
      (by norm_num) (by norm_num) (by norm_num)]
    norm_num
  have e3 : toDouble (100 / 6) = 4691249611844267 / 2 ^ 48 := by
    rw [toDouble_eq_of_pos _ 4 4691249611844267 (by norm_num) (by norm_num)
      (by norm_num) (by norm_num) (by norm_num)]
    norm_num
  have e4 : toDouble (5864062014805334 / 2 ^ 46 + 4691249611844267 / 2 ^ 48)
      = 7036874417766401 / 2 ^ 46 := by
    rw [toDouble_eq_of_pos _ 6 7036874417766401 (by norm_num) (by norm_num)
      (by norm_num) (by norm_num) (by norm_num)]
    norm_num
  unfold jsAdd jsMul jsDiv jsSub
  rw [e0, e1, e2, e3, e4]
  norm_num

theorem stepFormulaDouble_twelve :
    jsAdd (jsMul (jsDiv (jsSub 12 1) 12) 100) (jsDiv 100 12) = 100 - 1 / 2 ^ 46 := by
  have e0 : toDouble (12 - 1) = 11 := by
    have h := toDouble_natCast 11 (by norm_num)
    norm_num at h ⊢
    exact h
  have e1 : toDouble (11 / 12) = 8256599316845909 / 2 ^ 53 := by
    rw [toDouble_eq_of_pos _ (-1) 8256599316845909 (by norm_num) (by norm_num)
      (by norm_num) (by norm_num) (by norm_num)]
    norm_num
  have e2 : toDouble (8256599316845909 / 2 ^ 53 * 100) = 6450468216285866 / 2 ^ 46 := by
    rw [toDouble_eq_of_pos _ 6 6450468216285866 (by norm_num) (by norm_num)
      (by norm_num) (by norm_num) (by norm_num)]
    norm_num
  have e3 : toDouble (100 / 12) = 4691249611844267 / 2 ^ 49 := by
    rw [toDouble_eq_of_pos _ 3 4691249611844267 (by norm_num) (by norm_num)
      (by norm_num) (by norm_num) (by norm_num)]
    norm_num
  have e4 : toDouble (6450468216285866 / 2 ^ 46 + 4691249611844267 / 2 ^ 49)
      = 7036874417766399 / 2 ^ 46 := by
    rw [toDouble_eq_of_pos _ 6 7036874417766399 (by norm_num) (by norm_num)
      (by norm_num) (by norm_num) (by norm_num)]
    norm_num
  unfold jsAdd jsMul jsDiv jsSub
  rw [e0, e1, e2, e3, e4]
  norm_num

theorem overallPercentageDouble_formula (p : Progress) (s t q : ℚ) (hs : p.step = some s)
    (ht : p.total_steps = some t) (hq : p.progress_percentage = some q) (hs0 : s ≠ 0)
    (ht0 : t ≠ 0) :
    overallPercentageDouble p = jsAdd (jsMul (jsDiv (jsSub s 1) t) 100) (jsDiv q t) := by
  simp [overallPercentageDouble, numTruthy, hs, ht, hq, hs0, ht0]

/-- Counterexample for C20: at step 6 of 6 with 100 percent the overall percentage that
`updateProgress` computes is `100 + 2 ^ -46`, above 100, so the clamp changes it; at step
12 of 12 with 100 percent it is `100 - 2 ^ -46`, not 100. -/
theorem overall_percentage_exceeds_hundred :
    overallPercentageDouble sixOfSix = 100 + 1 / 2 ^ 46 ∧
    100 < overallPercentageDouble sixOfSix ∧
    min (overallPercentageDouble sixOfSix) 100 ≠ overallPercentageDouble sixOfSix ∧
    overallPercentageDouble twelveOfTwelve = 100 - 1 / 2 ^ 46 ∧
    overallPercentageDouble twelveOfTwelve ≠ 100 := by
  have h6 : overallPercentageDouble sixOfSix = 100 + 1 / 2 ^ 46 := by
    rw [overallPercentageDouble_formula sixOfSix 6 6 100 rfl rfl rfl (by norm_num)
      (by norm_num)]
    exact stepFormulaDouble_six
  have h12 : overallPercentageDouble twelveOfTwelve = 100 - 1 / 2 ^ 46 := by
    rw [overallPercentageDouble_formula twelveOfTwelve 12 12 100 rfl rfl rfl (by norm_num)
      (by norm_num)]
    exact stepFormulaDouble_twelve
  have hgt : (100 : ℚ) < 100 + 1 / 2 ^ 46 := by norm_num
  refine ⟨h6, ?_, ?_, h12, ?_⟩
  · rw [h6]
    exact hgt
  · rw [h6, min_eq_right hgt.le]
    exact ne_of_lt hgt
  · rw [h12]
    norm_num

/-- C20 (amended): for `1 ≤ step ≤ total_steps` and a percentage between 0 and 100 the
overall percentage `updateProgress` computes in double precision is at least 0 and within
`2 ^ -43` of the exact value of the step formula; the exact value lies in [0, 100] and is
100 exactly when `step = total_steps` and the percentage is 100; the value after the
clamp lies in [0, 100]; and the computed value does not decrease when `step` or the
percentage grows. -/
theorem overall_percentage_double_in_range (p : Progress) (s t q : ℚ)
    (hs : p.step = some s) (ht : p.total_steps = some t)
    (hq : p.progress_percentage = some q)
    (h1 : 1 ≤ s) (hst : s ≤ t) (hq0 : 0 ≤ q) (hq100 : q ≤ 100) :
    overallPercentageDouble p = jsAdd (jsMul (jsDiv (jsSub s 1) t) 100) (jsDiv q t) ∧
    0 ≤ overallPercentageDouble p ∧
    |overallPercentageDouble p - (((s - 1) / t) * 100 + q / t)| ≤ 1 / 2 ^ 43 ∧
    0 ≤ ((s - 1) / t) * 100 + q / t ∧
    ((s - 1) / t) * 100 + q / t ≤ 100 ∧
    (((s - 1) / t) * 100 + q / t = 100 ↔ s = t ∧ q = 100) ∧
    0 ≤ min (overallPercentageDouble p) 100 ∧
    min (overallPercentageDouble p) 100 ≤ 100 ∧
    (∀ (p2 : Progress) (s2 q2 : ℚ), p2.step = some s2 → p2.total_steps = some t →
      p2.progress_percentage = some q2 → s ≤ s2 → q ≤ q2 →
      overallPercentageDouble p ≤ overallPercentageDouble p2) := by
  have ht0 : 0 < t := by linarith
  have hform := overallPercentageDouble_formula p s t q hs ht hq (by linarith) (by linarith)
  have hnonneg : 0 ≤ overallPercentageDouble p := by
    rw [hform]
    exact stepFormulaDouble_nonneg s t q h1 ht0.le hq0
  obtain ⟨hE0, hE100, hEiff⟩ := stepFormula_exact_range s t q h1 hst hq0 hq100
  refine ⟨hform, hnonneg, ?_, hE0, hE100, hEiff, le_min hnonneg (by norm_num),
    min_le_right _ _, ?_⟩
  · rw [hform]
    exact stepFormulaDouble_error s t q h1 hst hq0 hq100
  · intro p2 s2 q2 hs2 ht2 hq2 hss hqq
    rw [hform, overallPercentageDouble_formula p2 s2 t q2 hs2 ht2 hq2 (by linarith)
      (by linarith)]
    exact stepFormulaDouble_mono s s2 t q q2 h1 ht0.le hq0 hss hqq

/-- Witness for C20: step 2 of 4 at 50 percent. -/
theorem overall_percentage_double_in_range_witness :
    0 ≤ overallPercentageDouble stepTwoOfFour ∧
    |overallPercentageDouble stepTwoOfFour - (((2 - 1) / 4) * 100 + 50 / 4)| ≤ 1 / 2 ^ 43 :=
  let h := overall_percentage_double_in_range stepTwoOfFour 2 4 50 rfl rfl rfl
    (by norm_num) (by norm_num) (by norm_num) (by norm_num)
  ⟨h.2.1, h.2.2.1⟩

/-! ## Claims about the poll tick -/

theorem getJobStatus_fetched (st : State) (o : FetchOutcome) (s : Status)
    (h : fetchedStatus o = some s) :
    getJobStatus st o
      = ({ st with requests := st.requests ++ [Request.progress st.currentProject] },
          .ok s) := by
  cases o with
  | rejected m => simp [fetchedStatus] at h
  | response r =>
    unfold fetchedStatus at h
    cases hok : r.ok
    · simp [hok] at h
    · cases hj : r.json with
      | error m => simp [hok, hj] at h
      | ok v =>
        simp only [hok, hj, if_true, Option.some.injEq] at h
        simp [getJobStatus, hok, hj, h]

theorem getJobStatus_failed (st : State) (o : FetchOutcome)
    (h : fetchedStatus o = none) :
    ∃ message, getJobStatus st o
      = ({ st with requests := st.requests ++ [Request.progress st.currentProject] },
          .error message) := by
  cases o with
  | rejected m => exact ⟨m, rfl⟩
  | response r =>
    unfold fetchedStatus at h
    cases hok : r.ok
    · exact ⟨statusErrorMessage, by simp [getJobStatus, hok]⟩
    · cases hj : r.json with
      | error m => exact ⟨m, by simp [getJobStatus, hok, hj]⟩
      | ok v => simp [hok, hj] at h

theorem updateProgress_frame (dom : Dom) (status : Status) :
    (updateProgress dom status).progressSectionDisplay = dom.progressSectionDisplay ∧
    (updateProgress dom status).resultsSectionDisplay = dom.resultsSectionDisplay ∧
    (updateProgress dom status).errorText = dom.errorText ∧
    (updateProgress dom status).errorDisplay = dom.errorDisplay := by
  unfold updateProgress
  cases status.progress with
  | none => simp
  | some p =>
    simp only
    split_ifs <;> simp

theorem showResults_effect (st : State) :
    (showResults st).1.timers = st.timers ∧
    (showResults st).1.results = st.results ∧
    (showResults st).1.progressInterval = st.progressInterval ∧
    (showResults st).1.dom.progressSectionDisplay = "none" ∧
    (showResults st).1.dom.resultsSectionDisplay = "block" ∧
    (showResults st).1.dom.errorText = st.dom.errorText ∧
    (showResults st).1.dom.errorDisplay = st.dom.errorDisplay := by
  unfold showResults updateStats
  cases hres : st.results with
  | none => simp [hres, hideProgress]
  | some res =>
    simp only [hres]
    unfold createVisualization
    simp only [hres]
    split_ifs <;> simp [hideProgress]

theorem isSuccessStatus_iff (s : Option String) :
    isSuccessStatus s = true ↔ s = some "SUCCESS" ∨ s = some "ANALYZED" := by
  simp [isSuccessStatus]

theorem isFailureStatus_iff (s : Option String) :
    isFailureStatus s = true ↔ s = some "FAILURE" ∨ s = some "ERROR" := by
  simp [isFailureStatus]

theorem isTerminalStatus_iff (s : Option String) :
    isTerminalStatus s ↔ isSuccessStatus s = true ∨ isFailureStatus s = true := by
  rw [isSuccessStatus_iff, isFailureStatus_iff]
  unfold isTerminalStatus
  tauto

theorem pollTick_failed (st : State) (o : FetchOutcome) (h : fetchedStatus o = none) :
    pollTick st o
      = { st with requests := st.requests ++ [Request.progress st.currentProject] } := by
  obtain ⟨m, hm⟩ := getJobStatus_failed st o h
  simp [pollTick, hm]

theorem pollTick_success (st : State) (o : FetchOutcome) (s : Status)
    (h : fetchedStatus o = some s) (hs : isSuccessStatus s.status = true) :
    pollTick st o = (showResults
      { st with
        requests := st.requests ++ [Request.progress st.currentProject]
        dom := updateProgress st.dom s
        timers := (clearInterval st st.progressInterval).timers
        results := s.result }).1 := by
  simp only [pollTick, getJobStatus_fetched st o s h, hs, if_true]
  cases hp : st.progressInterval <;> simp [clearInterval, hp]

theorem pollTick_failure (st : State) (o : FetchOutcome) (s : Status)
    (h : fetchedStatus o = some s) (hs : isSuccessStatus s.status = false)
    (hf : isFailureStatus s.status = true) :
    pollTick st o =
      { st with
        requests := st.requests ++ [Request.progress st.currentProject]
        dom := hideProgress (showError (updateProgress st.dom s)
          ("Analyse échouée: " ++ errorOrUnknown s.error))
        timers := (clearInterval st st.progressInterval).timers } := by
  simp only [pollTick, getJobStatus_fetched st o s h, hs, hf, if_true]
  cases hp : st.progressInterval <;> simp [clearInterval, hp]

theorem pollTick_running (st : State) (o : FetchOutcome) (s : Status)
    (h : fetchedStatus o = some s) (hs : isSuccessStatus s.status = false)
    (hf : isFailureStatus s.status = false) :
    pollTick st o =
      { st with
        requests := st.requests ++ [Request.progress st.currentProject]
        dom := updateProgress st.dom s } := by
  simp [pollTick, getJobStatus_fetched st o s h, hs, hf]

theorem clearInterval_timers (st : State) (t : ℕ) :
    (clearInterval st (some t)).timers = st.timers.filter (fun u => u ≠ t) := rfl

/-- Counterexample for C9: after two calls of `startProgressMonitoring`, a tick of the
first timer that fetches the status `SUCCESS` leaves that timer running (the tick clears
the handle stored in `progressInterval`, which is the second timer's). -/
theorem tick_of_older_timer_not_stopped :
    1 ∈ twoTimersState.timers ∧
    fetchedStatus (statusResponse (plainStatus "SUCCESS")) = some (plainStatus "SUCCESS") ∧
    isTerminalStatus (plainStatus "SUCCESS").status ∧
    1 ∈ (pollTick twoTimersState (statusResponse (plainStatus "SUCCESS"))).timers := by
  refine ⟨by decide, rfl, Or.inl rfl, ?_⟩
  rw [pollTick_success twoTimersState (statusResponse (plainStatus "SUCCESS"))
    (plainStatus "SUCCESS") rfl (by decide), (showResults_effect _).1]
  decide

/-- C9 (amended): for every poll tick of the timer whose handle `progressInterval` holds,
the timer is stopped by that tick if and only if the status fetch succeeded and the
returned status is SUCCESS, ANALYZED, FAILURE or ERROR, and then no other timer is
stopped. For any other status and for any tick whose fetch fails, the active timers, the
stored results, the error banner and the visibility of the progress section are
unchanged. -/
theorem tick_stops_timer_iff_terminal (st : State) (t : ℕ) (o : FetchOutcome)
    (hp : st.progressInterval = some t) (ht : t ∈ st.timers) :
    (t ∉ (pollTick st o).timers ↔
      ∃ s, fetchedStatus o = some s ∧ isTerminalStatus s.status) ∧
    ((∃ s, fetchedStatus o = some s ∧ isTerminalStatus s.status) →
      (pollTick st o).timers = st.timers.filter (fun u => u ≠ t)) ∧
    ((¬ ∃ s, fetchedStatus o = some s ∧ isTerminalStatus s.status) →
      (pollTick st o).timers = st.timers ∧
      (pollTick st o).results = st.results ∧
      (pollTick st o).dom.errorText = st.dom.errorText ∧
      (pollTick st o).dom.errorDisplay = st.dom.errorDisplay ∧
      (pollTick st o).dom.progressSectionDisplay = st.dom.progressSectionDisplay) := by
  have hnot : t ∉ st.timers.filter (fun u => u ≠ t) := by simp
  cases hfs : fetchedStatus o with
  | none =>
    rw [pollTick_failed st o hfs]
    simp [ht]
  | some s =>
    cases hs : isSuccessStatus s.status
    · cases hf : isFailureStatus s.status
      · have hterm : ¬ isTerminalStatus s.status := by
          rw [isTerminalStatus_iff]
          simp [hs, hf]
        rw [pollTick_running st o s hfs hs hf]
        have hfr := updateProgress_frame st.dom s
        simp [ht, hterm, hfr.1, hfr.2.2.1, hfr.2.2.2]
      · have hterm : isTerminalStatus s.status := by
          rw [isTerminalStatus_iff]
          exact Or.inr hf
        rw [pollTick_failure st o s hfs hs hf]
        simp only [hp, clearInterval_timers]
        simp [hterm]
    · have hterm : isTerminalStatus s.status := by
        rw [isTerminalStatus_iff]
        exact Or.inl hs
      rw [pollTick_success st o s hfs hs, (showResults_effect _).1]
      simp only [hp, clearInterval_timers]
      simp [hterm]

/-- Witness for C9: the only timer, started from the initial state, fetches `SUCCESS`. -/
theorem tick_stops_timer_iff_terminal_witness :
    1 ∉ (pollTick (startProgressMonitoring initialState)
      (statusResponse (plainStatus "SUCCESS"))).timers :=
  (tick_stops_timer_iff_terminal (startProgressMonitoring initialState) 1
    (statusResponse (plainStatus "SUCCESS")) rfl (by decide)).1.2
    ⟨plainStatus "SUCCESS", rfl, Or.inl rfl⟩

/-- C10: for every successfully fetched status, a tick with status SUCCESS or ANALYZED
stores `status.result` as the session results, hides the progress section and shows the
results section; a tick with status FAILURE or ERROR leaves the stored results unchanged,
shows the error banner with the backend's error message (`Erreur inconnue` when there is
none) and hides the progress section. -/
theorem tick_terminal_effects (st : State) (o : FetchOutcome) (s : Status)
    (h : fetchedStatus o = some s) :
    ((s.status = some "SUCCESS" ∨ s.status = some "ANALYZED") →
      (pollTick st o).results = s.result ∧
      (pollTick st o).dom.progressSectionDisplay = "none" ∧
      (pollTick st o).dom.resultsSectionDisplay = "block") ∧
    ((s.status = some "FAILURE" ∨ s.status = some "ERROR") →
      (pollTick st o).results = st.results ∧
      (pollTick st o).dom.errorDisplay = "block" ∧
      (pollTick st o).dom.errorText = "Analyse échouée: " ++
        (match s.error with
          | some e => if e = "" then "Erreur inconnue" else e
          | none => "Erreur inconnue") ∧
      (pollTick st o).dom.progressSectionDisplay = "none") := by
  constructor
  · intro hs
    have hs2 := (isSuccessStatus_iff s.status).2 hs
    rw [pollTick_success st o s h hs2]
    have he := showResults_effect
      { st with
        requests := st.requests ++ [Request.progress st.currentProject]
        dom := updateProgress st.dom s
        timers := (clearInterval st st.progressInterval).timers
        results := s.result }
    exact ⟨he.2.1, he.2.2.2.1, he.2.2.2.2.1⟩
  · intro hf
    have hf2 := (isFailureStatus_iff s.status).2 hf
    have hs2 : isSuccessStatus s.status = false := by
      rcases hf with hf | hf <;> rw [hf] <;> decide
    rw [pollTick_failure st o s h hs2 hf2]
    refine ⟨rfl, rfl, ?_, rfl⟩
    simp only [hideProgress, showError, errorOrUnknown, strTruthy]
    cases s.error with
    | none => simp
    | some e => by_cases he : e = "" <;> simp [he]

/-- Witness for C10: a `FAILURE` status without error text, fetched in the initial
state. -/
theorem tick_terminal_effects_witness :
    (pollTick initialState (statusResponse (plainStatus "FAILURE"))).dom.errorText
      = "Analyse échouée: Erreur inconnue" :=
  ((tick_terminal_effects initialState (statusResponse (plainStatus "FAILURE"))
    (plainStatus "FAILURE") rfl).2 (Or.inl rfl)).2.2.1

/-! ## Lemmas: the session controller -/

theorem createProject_ok (fetch : Request → FetchOutcome) (st : State) (r : Response)
    (h : fetch Request.createProject = .response r) (hok : r.ok = true) :
    createProject fetch st
      = ({ st with requests := st.requests ++ [Request.createProject] }, r.json) := by
  simp [createProject, h, hok]

theorem createProject_notOk (fetch : Request → FetchOutcome) (st : State)
    (h : respondsNotOk fetch Request.createProject) :
    createProject fetch st
      = ({ st with requests := st.requests ++ [Request.createProject] },
          .error createProjectErrorMessage) := by
  obtain ⟨r, hr, hok⟩ := h
  simp [createProject, hr, hok]

theorem startAnalysisBody_of_created (fetch : Request → FetchOutcome) (st : State)
    (pagesFile linksFile : Option (List Char)) (r : Response) (v : Json)
    (h : fetch Request.createProject = .response r) (hok : r.ok = true)
    (hj : r.json = .ok v) (hnull : v ≠ Json.null) :
    startAnalysisBody fetch st pagesFile linksFile
      = match uploadFiles fetch (afterCreate st v.id) pagesFile linksFile with
        | (st4, .error message) => (st4, .error message)
        | (st4, .ok _) =>
          match startSimpleAnalysis fetch
              { st4 with dom := updateProgress st4.dom analysisStartReport } with
          | (st6, .error message) => (st6, .error message)
          | (st6, .ok _) => (st6, .ok ()) := by
  unfold startAnalysisBody
  simp only [createProject_ok fetch _ r h hok, hj, hnull, if_false]
  rfl

theorem startAnalysisBody_null_project (fetch : Request → FetchOutcome) (st : State)
    (pagesFile linksFile : Option (List Char)) (r : Response)
    (h : fetch Request.createProject = .response r) (hok : r.ok = true)
    (hj : r.json = .ok Json.null) :
    startAnalysisBody fetch st pagesFile linksFile
      = ({ st with
            dom := showProgress (hideError st.dom)
            requests := st.requests ++ [Request.createProject] },
          .error "TypeError") := by
  unfold startAnalysisBody
  simp only [createProject_ok fetch _ r h hok, hj, if_true]

theorem startAnalysisBody_create_fail (fetch : Request → FetchOutcome) (st : State)
    (pagesFile linksFile : Option (List Char))
    (h : respondsNotOk fetch Request.createProject) :
    startAnalysisBody fetch st pagesFile linksFile
      = ({ st with
            dom := showProgress (hideError st.dom)
            requests := st.requests ++ [Request.createProject] },
          .error createProjectErrorMessage) := by
  unfold startAnalysisBody
  simp only [createProject_notOk fetch _ h]

theorem uploadFileByChunks_complete (fetch : Request → FetchOutcome) (st : State)
    (file : Option (List Char)) (fileType : String) (progressStep : ℚ)
    (h : ∀ project form, respondsOk fetch (Request.importChunk project form)) :
    uploadFileByChunks fetch st file fileType progressStep
      = ({ st with requests :=
            st.requests ++ fileChunkRequests st.currentProject file fileType }, .ok ()) := by
  cases file with
  | none => simp [uploadFileByChunks, fileChunkRequests]
  | some text =>
    rw [uploadFileByChunks_all_ok fetch st text fileType progressStep (fun i _ => h _ _)]
    rfl

theorem uploadFiles_complete (fetch : Request → FetchOutcome) (st : State)
    (pagesFile linksFile : Option (List Char)) (r : Response)
    (h : ∀ project form, respondsOk fetch (Request.importChunk project form))
    (hfin : fetch (Request.importFinalize st.currentProject) = .response r)
    (hok : r.ok = true) :
    uploadFiles fetch st pagesFile linksFile
      = ({ st with requests := st.requests ++
            (fileChunkRequests st.currentProject pagesFile "pages"
              ++ fileChunkRequests st.currentProject linksFile "links"
              ++ [Request.importFinalize st.currentProject]) }, r.json) := by
  have hst : ({ st with dom := updateProgress st.dom uploadStartReport } : State) = st := rfl
  unfold uploadFiles
  simp only [hst, uploadFileByChunks_complete fetch _ _ _ _ h]
  cases linksFile with
  | none => simp [fileChunkRequests, hfin, hok]
  | some text => simp [hfin, hok, List.append_assoc]

theorem uploadFiles_pages_fail (fetch : Request → FetchOutcome) (st : State)
    (text : List Char) (linksFile : Option (List Char)) (k : ℕ)
    (hk : k < totalChunksOf (dataLinesOf text).length)
    (hok : ∀ j, j < k → respondsOk fetch (chunkRequest st.currentProject text "pages" j))
    (hfail : respondsNotOk fetch (chunkRequest st.currentProject text "pages" k)) :
    uploadFiles fetch st (some text) linksFile
      = ({ st with requests := (st.requests ++
            (List.range (k + 1)).map (chunkRequest st.currentProject text "pages")) },
          .error (chunkErrorMessage k (totalChunksOf (dataLinesOf text).length))) := by
  have hst : ({ st with dom := updateProgress st.dom uploadStartReport } : State) = st := rfl
  unfold uploadFiles
  simp only [hst, uploadFileByChunks_fail fetch st text "pages" 50 k hk hok hfail]

theorem uploadFiles_finalize_notOk (fetch : Request → FetchOutcome) (st : State)
    (pagesFile linksFile : Option (List Char))
    (h : ∀ project form, respondsOk fetch (Request.importChunk project form))
    (hfin : respondsNotOk fetch (Request.importFinalize st.currentProject)) :
    ∃ st1, uploadFiles fetch st pagesFile linksFile = (st1, .error finalizeErrorMessage) := by
  have h2 := uploadFiles_finalize_fail fetch st pagesFile linksFile h hfin
  exact ⟨(uploadFiles fetch st pagesFile linksFile).1, by rw [← h2]⟩

theorem startSimpleAnalysis_ok (fetch : Request → FetchOutcome) (st : State) (r : Response)
    (h : fetch (Request.analyzeSimple st.currentProject) = .response r)
    (hok : r.ok = true) :
    startSimpleAnalysis fetch st
      = (startProgressMonitoring
          { st with requests := st.requests ++ [Request.analyzeSimple st.currentProject] },
          r.json) := by
  simp [startSimpleAnalysis, h, hok]

theorem startSimpleAnalysis_notOk (fetch : Request → FetchOutcome) (st : State)
    (r : Response) (h : fetch (Request.analyzeSimple st.currentProject) = .response r)
    (hok : r.ok = false) :
    startSimpleAnalysis fetch st
      = ({ st with requests := st.requests ++ [Request.analyzeSimple st.currentProject] },
          .error ("Erreur analyse: " ++ r.text)) := by
  simp [startSimpleAnalysis, h, hok]

theorem startAnalysis_of_error (fetch : Request → FetchOutcome) (st : State)
    (pagesFile linksFile : Option (List Char)) (st1 : State) (message : String)
    (h : startAnalysisBody fetch st pagesFile linksFile = (st1, .error message)) :
    startAnalysis fetch st pagesFile linksFile
      = { st1 with dom := (hideProgress
            (showError st1.dom ("Erreur lors de l'analyse: " ++ message))) } := by
  simp [startAnalysis, h]

theorem startAnalysisBody_complete (fetch : Request → FetchOutcome) (st : State)
    (pagesFile linksFile : Option (List Char)) (r : Response) (v : Json)
    (hcreate : fetch Request.createProject = .response r) (hok : r.ok = true)
    (hj : r.json = .ok v) (hnull : v ≠ Json.null) (hall : ∀ req, succeeds fetch req) :
    startAnalysisBody fetch st pagesFile linksFile
      = (startProgressMonitoring
          { afterCreate st v.id with requests := (st.requests ++
              ([Request.createProject] ++ fileChunkRequests v.id pagesFile "pages"
                ++ fileChunkRequests v.id linksFile "links"
                ++ [Request.importFinalize v.id, Request.analyzeSimple v.id])) },
          .ok ()) := by
  have hchunks : ∀ project form, respondsOk fetch (Request.importChunk project form) := by
    intro project form
    obtain ⟨r1, _, h1, h2, _⟩ := hall (Request.importChunk project form)
    exact ⟨r1, h1, h2⟩
  obtain ⟨r2, v2, hfin, hfinok, hfinj⟩ := hall (Request.importFinalize v.id)
  obtain ⟨r3, v3, han, hanok, hanj⟩ := hall (Request.analyzeSimple v.id)
  rw [startAnalysisBody_of_created fetch st pagesFile linksFile r v hcreate hok hj hnull,
    uploadFiles_complete fetch (afterCreate st v.id) pagesFile linksFile r2 hchunks hfin
      hfinok, hfinj]
  simp only
  rw [startSimpleAnalysis_ok fetch _ r3 han hanok, hanj]
  simp [afterCreate, updateProgress, analysisStartReport, List.append_assoc]

/-! ## Claims about the session controller -/

theorem uploadFiles_links_fail (fetch : Request → FetchOutcome) (st : State)
    (pagesFile : Option (List Char)) (text : List Char) (k : ℕ)
    (hpages : ∀ ptext i, pagesFile = some ptext →
      respondsOk fetch (chunkRequest st.currentProject ptext "pages" i))
    (hk : k < totalChunksOf (dataLinesOf text).length)
    (hok : ∀ j, j < k → respondsOk fetch (chunkRequest st.currentProject text "links" j))
    (hfail : respondsNotOk fetch (chunkRequest st.currentProject text "links" k)) :
    (uploadFiles fetch st pagesFile (some text)).2
      = .error (chunkErrorMessage k (totalChunksOf (dataLinesOf text).length)) := by
  have hst : ({ st with dom := updateProgress st.dom uploadStartReport } : State) = st := rfl
  have hp : uploadFileByChunks fetch st pagesFile "pages" 50
      = ({ st with requests :=
            st.requests ++ fileChunkRequests st.currentProject pagesFile "pages" },
          .ok ()) := by
    cases pagesFile with
    | none => simp [uploadFileByChunks, fileChunkRequests]
    | some ptext =>
      rw [uploadFileByChunks_all_ok fetch st ptext "pages" 50
        (fun i _ => hpages ptext i rfl)]
      rfl
  have hl := uploadFileByChunks_fail fetch
    { st with requests :=
        st.requests ++ fileChunkRequests st.currentProject pagesFile "pages" }
    text "links" 50 k hk hok hfail
  unfold uploadFiles
  simp only [hst, hp, Option.isSome_some, if_true, hl]

/-- C11: whenever the `try` block of `startAnalysis` throws, `startAnalysis` itself
returns normally with the error banner visible, its text `Erreur lors de l'analyse: `
followed by the message of the failure, and the progress section hidden; a failed project
creation, pages or links chunk upload, finalize call and analyze call each make the block
throw, with their own message, and so does a create body that is `null`. -/
theorem start_analysis_failure_banner (fetch : Request → FetchOutcome) (st : State)
    (pagesFile linksFile : Option (List Char)) :
    (∀ message,
      (startAnalysisBody fetch st pagesFile linksFile).2 = .error message →
      (startAnalysis fetch st pagesFile linksFile).dom.errorDisplay = "block" ∧
      (startAnalysis fetch st pagesFile linksFile).dom.errorText
        = "Erreur lors de l'analyse: " ++ message ∧
      (startAnalysis fetch st pagesFile linksFile).dom.progressSectionDisplay = "none") ∧
    (respondsNotOk fetch Request.createProject →
      (startAnalysisBody fetch st pagesFile linksFile).2
        = .error createProjectErrorMessage) ∧
    (∀ r v text k, fetch Request.createProject = .response r → r.ok = true →
      r.json = .ok v → v ≠ Json.null → pagesFile = some text →
      k < totalChunksOf (dataLinesOf text).length →
      (∀ j, j < k → respondsOk fetch (chunkRequest v.id text "pages" j)) →
      respondsNotOk fetch (chunkRequest v.id text "pages" k) →
      (startAnalysisBody fetch st pagesFile linksFile).2
        = .error (chunkErrorMessage k (totalChunksOf (dataLinesOf text).length))) ∧
    (∀ r v, fetch Request.createProject = .response r → r.ok = true → r.json = .ok v →
      v ≠ Json.null →
      (∀ project form, respondsOk fetch (Request.importChunk project form)) →
      respondsNotOk fetch (Request.importFinalize v.id) →
      (startAnalysisBody fetch st pagesFile linksFile).2 = .error finalizeErrorMessage) ∧
    (∀ r v r2 v2 r3, fetch Request.createProject = .response r → r.ok = true →
      r.json = .ok v → v ≠ Json.null →
      (∀ project form, respondsOk fetch (Request.importChunk project form)) →
      fetch (Request.importFinalize v.id) = .response r2 → r2.ok = true →
      r2.json = .ok v2 →
      fetch (Request.analyzeSimple v.id) = .response r3 → r3.ok = false →
      (startAnalysisBody fetch st pagesFile linksFile).2
        = .error ("Erreur analyse: " ++ r3.text)) ∧
    (∀ r v text k, fetch Request.createProject = .response r → r.ok = true →
      r.json = .ok v → v ≠ Json.null → linksFile = some text →
      (∀ ptext i, pagesFile = some ptext →
        respondsOk fetch (chunkRequest v.id ptext "pages" i)) →
      k < totalChunksOf (dataLinesOf text).length →
      (∀ j, j < k → respondsOk fetch (chunkRequest v.id text "links" j)) →
      respondsNotOk fetch (chunkRequest v.id text "links" k) →
      (startAnalysisBody fetch st pagesFile linksFile).2
        = .error (chunkErrorMessage k (totalChunksOf (dataLinesOf text).length))) ∧
    (∀ r, fetch Request.createProject = .response r → r.ok = true →
      r.json = .ok Json.null →
      ∃ message, (startAnalysisBody fetch st pagesFile linksFile).2 = .error message) := by
  refine ⟨?_, ?_, ?_, ?_, ?_, ?_, ?_⟩
  · intro message h
    have hpair : startAnalysisBody fetch st pagesFile linksFile
        = ((startAnalysisBody fetch st pagesFile linksFile).1, .error message) := by
      rw [← h]
    rw [startAnalysis_of_error fetch st pagesFile linksFile _ message hpair]
    exact ⟨rfl, rfl, rfl⟩
  · intro h
    rw [startAnalysisBody_create_fail fetch st pagesFile linksFile h]
  · intro r v text k hcreate hok hj hnull hpages hk hprior hfail
    subst hpages
    rw [startAnalysisBody_of_created fetch st _ linksFile r v hcreate hok hj hnull,
      uploadFiles_pages_fail fetch (afterCreate st v.id) text linksFile k hk hprior hfail]
  · intro r v hcreate hok hj hnull hchunks hfin
    obtain ⟨st1, h1⟩ := uploadFiles_finalize_notOk fetch (afterCreate st v.id) pagesFile
      linksFile hchunks hfin
    rw [startAnalysisBody_of_created fetch st pagesFile linksFile r v hcreate hok hj hnull,
      h1]
  · intro r v r2 v2 r3 hcreate hok hj hnull hchunks hfin hfinok hfinj han hanok
    rw [startAnalysisBody_of_created fetch st pagesFile linksFile r v hcreate hok hj hnull,
      uploadFiles_complete fetch (afterCreate st v.id) pagesFile linksFile r2 hchunks hfin
        hfinok, hfinj]
    simp only
    rw [startSimpleAnalysis_notOk fetch _ r3 han hanok]
  · intro r v text k hcreate hok hj hnull hlinks hpages hk hprior hfail
    subst hlinks
    have hup := uploadFiles_links_fail fetch (afterCreate st v.id) pagesFile text k hpages
      hk hprior hfail
    rw [startAnalysisBody_of_created fetch st pagesFile _ r v hcreate hok hj hnull]
    rcases hu : uploadFiles fetch (afterCreate st v.id) pagesFile (some text)
      with ⟨st4, res4⟩
    rw [hu] at hup
    simp only at hup
    rw [hup]
  · intro r hcreate hok hj
    rw [startAnalysisBody_null_project fetch st pagesFile linksFile r hcreate hok hj]
    exact ⟨_, rfl⟩

/-- Witness for C11: every request of the sample session is refused, so the project
creation fails. -/
theorem start_analysis_failure_banner_witness :
    (startAnalysis failFetch initialState (some sampleText) none).dom.errorText
      = "Erreur lors de l'analyse: " ++ createProjectErrorMessage ∧
    (startAnalysis failFetch initialState (some sampleText) none).dom.progressSectionDisplay
      = "none" :=
  let h := start_analysis_failure_banner failFetch initialState (some sampleText) none
  let hb := h.1 createProjectErrorMessage (h.2.1 ⟨_, rfl, rfl⟩)
  ⟨hb.2.1, hb.2.2⟩

theorem chunkRows_length_of_2500 (text : List Char) (fileType : String)
    (h : (dataLinesOf text).length = 2500) :
    totalChunksOf (dataLinesOf text).length = 3 ∧
    (chunkRows (chunkFormOf text fileType 0)).length = 1000 ∧
    (chunkRows (chunkFormOf text fileType 1)).length = 1000 ∧
    (chunkRows (chunkFormOf text fileType 2)).length = 500 := by
  have hn : totalChunksOf (dataLinesOf text).length = 3 := by
    rw [totalChunksOf_eq, h]
  refine ⟨hn, ?_, ?_, ?_⟩
  · rw [chunkRows_chunkFormOf text fileType 0 (by rw [hn]; norm_num), chunkLines_length, h]
    rfl
  · rw [chunkRows_chunkFormOf text fileType 1 (by rw [hn]; norm_num), chunkLines_length, h]
    rfl
  · rw [chunkRows_chunkFormOf text fileType 2 (by rw [hn]; norm_num), chunkLines_length, h]
    rfl

/-- Counterexample for C12: every request is answered ok with a body that parses, the
body being `null`; `startAnalysis` then issues the project-create request and nothing
else (no chunk, no finalize, no analyze), and starts no timer. -/
theorem null_project_stops_after_create :
    (∀ req, succeeds nullFetch req) ∧
    (startAnalysis nullFetch initialState (some sampleText) none).requests
      = [Request.createProject] ∧
    (startAnalysis nullFetch initialState (some sampleText) none).timers = [] := by
  have hbody := startAnalysisBody_null_project nullFetch initialState (some sampleText) none
    _ rfl rfl rfl
  refine ⟨fun _ => ⟨_, _, rfl, rfl, rfl⟩, ?_, ?_⟩
  · simp only [startAnalysis, hbody]
    rfl
  · simp only [startAnalysis, hbody]
    rfl

/-- C12 (amended): in a session in which every request succeeds and the body of the
create response is not `null`, `startAnalysis` issues one project-create, then the pages
chunks in increasing index order, then the links chunks in increasing index order (none
without a links file), then one import-finalize, then one analyze-simple, all but the
first for the created project. For a pages file with 2500 data rows and no links file
these are three chunks of 1000, 1000 and 500 rows between the create and the finalize. -/
theorem start_analysis_request_order (fetch : Request → FetchOutcome) (st : State)
    (pagesFile linksFile : Option (List Char)) (r : Response) (v : Json)
    (hcreate : fetch Request.createProject = .response r) (hok : r.ok = true)
    (hj : r.json = .ok v) (hnull : v ≠ Json.null) (hall : ∀ req, succeeds fetch req) :
    (startAnalysis fetch st pagesFile linksFile).requests
      = st.requests ++
        ([Request.createProject] ++ fileChunkRequests v.id pagesFile "pages"
          ++ fileChunkRequests v.id linksFile "links"
          ++ [Request.importFinalize v.id, Request.analyzeSimple v.id]) ∧
    fileChunkRequests v.id none "links" = [] ∧
    (∀ text, pagesFile = some text → (dataLinesOf text).length = 2500 → linksFile = none →
      (startAnalysis fetch st pagesFile linksFile).requests
        = st.requests ++
          [Request.createProject, chunkRequest v.id text "pages" 0,
            chunkRequest v.id text "pages" 1, chunkRequest v.id text "pages" 2,
            Request.importFinalize v.id, Request.analyzeSimple v.id] ∧
      (chunkRows (chunkFormOf text "pages" 0)).length = 1000 ∧
      (chunkRows (chunkFormOf text "pages" 1)).length = 1000 ∧
      (chunkRows (chunkFormOf text "pages" 2)).length = 500) := by
  have hbody := startAnalysisBody_complete fetch st pagesFile linksFile r v hcreate hok hj
    hnull hall
  have hreq : (startAnalysis fetch st pagesFile linksFile).requests
      = st.requests ++
        ([Request.createProject] ++ fileChunkRequests v.id pagesFile "pages"
          ++ fileChunkRequests v.id linksFile "links"
          ++ [Request.importFinalize v.id, Request.analyzeSimple v.id]) := by
    simp only [startAnalysis, hbody]
    rfl
  refine ⟨hreq, rfl, ?_⟩
  intro text hpages hrows hlinks
  obtain ⟨hn, h0, h1, h2⟩ := chunkRows_length_of_2500 text "pages" hrows
  refine ⟨?_, h0, h1, h2⟩
  rw [hreq, hpages, hlinks]
  simp [fileChunkRequests, hn, List.range_succ]

/-- Witness for C12: the sample file, no links file, every request accepted. -/
theorem start_analysis_request_order_witness :
    (startAnalysis projectFetch initialState (some sampleText) none).requests
      = [] ++
        ([Request.createProject] ++ fileChunkRequests (some "p1") (some sampleText) "pages"
          ++ fileChunkRequests (some "p1") none "links"
          ++ [Request.importFinalize (some "p1"), Request.analyzeSimple (some "p1")]) :=
  (start_analysis_request_order projectFetch initialState (some sampleText) none _
    (.project (some "p1")) rfl rfl rfl (by simp) (fun _ => ⟨_, _, rfl, rfl, rfl⟩)).1

/-- C13: when the project-create response is not ok, `startAnalysis` issues the create
request and no other request, starts no timer, leaves `currentProject` as it was, and ends
with the error banner showing `Erreur lors de l'analyse: Impossible de créer le projet` and
the progress section hidden. -/
theorem create_failure_skips_rest (fetch : Request → FetchOutcome) (st : State)
    (pagesFile linksFile : Option (List Char))
    (h : respondsNotOk fetch Request.createProject) :
    (startAnalysis fetch st pagesFile linksFile).requests
      = st.requests ++ [Request.createProject] ∧
    (startAnalysis fetch st pagesFile linksFile).timers = st.timers ∧
    (startAnalysis fetch st pagesFile linksFile).nextTimer = st.nextTimer ∧
    (startAnalysis fetch st pagesFile linksFile).progressInterval = st.progressInterval ∧
    (startAnalysis fetch st pagesFile linksFile).currentProject = st.currentProject ∧
    (startAnalysis fetch st pagesFile linksFile).dom.errorDisplay = "block" ∧
    (startAnalysis fetch st pagesFile linksFile).dom.errorText
      = "Erreur lors de l'analyse: Impossible de créer le projet" ∧
    (startAnalysis fetch st pagesFile linksFile).dom.progressSectionDisplay = "none" := by
  rw [startAnalysis_of_error fetch st pagesFile linksFile _ _
    (startAnalysisBody_create_fail fetch st pagesFile linksFile h)]
  have hmsg : "Erreur lors de l'analyse: " ++ createProjectErrorMessage
      = "Erreur lors de l'analyse: Impossible de créer le projet" := by decide
  exact ⟨rfl, rfl, rfl, rfl, rfl, rfl, hmsg, rfl⟩

/-- Witness for C13: the sample session against the refusing transport. -/
theorem create_failure_skips_rest_witness :
    (startAnalysis failFetch initialState (some sampleText) none).requests
      = [Request.createProject] ∧
    (startAnalysis failFetch initialState (some sampleText) none).timers = [] :=
  let h := create_failure_skips_rest failFetch initialState (some sampleText) none
    ⟨_, rfl, rfl⟩
  ⟨h.1, h.2.1⟩

/-! ## Claims about upload progress reports -/

theorem chunkProduct_error (n i : ℕ) (ps : ℚ) (hi : i < n) (hn : n < 2 ^ 53) :
    |jsMul (jsDiv (jsAdd (i : ℚ) 1) (n : ℚ)) ps - ((i : ℚ) + 1) / (n : ℚ) * ps|
      ≤ 3 * |((i : ℚ) + 1) / (n : ℚ) * ps| / 2 ^ 53 + 1 / 2 ^ 1075 := by
  have ha : jsAdd (i : ℚ) 1 = (i : ℚ) + 1 := by
    unfold jsAdd
    have h := toDouble_natCast (i + 1) (by omega)
    push_cast at h
    exact h
  rw [ha]
  unfold jsMul jsDiv
  have hnpos : (0 : ℚ) < n := by exact_mod_cast (by omega : 0 < n)
  have hn2 : (n : ℚ) ≤ 2 ^ 53 := by exact_mod_cast hn.le
  have hi0 : (0 : ℚ) ≤ i := by positivity
  obtain ⟨x, hx⟩ : ∃ x : ℚ, x = ((i : ℚ) + 1) / (n : ℚ) := ⟨_, rfl⟩
  rw [← hx]
  have hxpos : 0 < x := by
    rw [hx]
    positivity
  have hxlow : (1 : ℚ) / 2 ^ 53 ≤ x := by
    have hA : (1 : ℚ) / 2 ^ 53 ≤ 1 / n := one_div_le_one_div_of_le hnpos hn2
    have hB : (1 : ℚ) / n ≤ ((i : ℚ) + 1) / n :=
      div_le_div_of_nonneg_right (by linarith) hnpos.le
    rw [hx]
    exact le_trans hA hB
  have hxnorm : (2 : ℚ) ^ (-1022 : ℤ) ≤ |x| := by
    rw [abs_of_pos hxpos]
    have h2 : (2 : ℚ) ^ (-1022 : ℤ) ≤ 1 / 2 ^ 53 := by
      rw [← zpow_neg_nat]
      exact zpow_le_zpow_right₀ (by norm_num) (by norm_num)
    exact le_trans h2 hxlow
  have hd := abs_toDouble_sub_le_of_normal x hxnorm
  rw [abs_of_pos hxpos] at hd
  have habs : |x * ps| = x * |ps| := by rw [abs_mul, abs_of_pos hxpos]
  have h3 : |toDouble x * ps - x * ps| ≤ |x * ps| / 2 ^ 53 := by
    rw [← sub_mul, abs_mul, habs]
    calc |toDouble x - x| * |ps| ≤ x / 2 ^ 53 * |ps| :=
          mul_le_mul_of_nonneg_right hd (abs_nonneg _)
      _ = x * |ps| / 2 ^ 53 := by ring
  have h5 : |x * ps| / 2 ^ 53 ≤ |x * ps| := div_le_self (abs_nonneg _) (by norm_num)
  have h4 : |toDouble x * ps| ≤ 2 * |x * ps| := by
    have h := abs_sub_abs_le_abs_sub (toDouble x * ps) (x * ps)
    linarith
  have hP := abs_toDouble_sub_le (toDouble x * ps)
  have h6 : |toDouble x * ps| / 2 ^ 53 ≤ 2 * |x * ps| / 2 ^ 53 :=
    div_le_div_of_nonneg_right h4 (by positivity)
  have h7 := abs_sub_le (toDouble (toDouble x * ps)) (toDouble x * ps) (x * ps)
  obtain ⟨η, hη⟩ : ∃ η : ℚ, η = 1 / 2 ^ 1075 := ⟨_, rfl⟩
  rw [← hη] at hP ⊢
  have h8 : 3 * |x * ps| / 2 ^ 53 = |x * ps| / 2 ^ 53 + 2 * |x * ps| / 2 ^ 53 := by ring
  rw [h8]
  linarith

theorem chunkProduct_last (n w : ℕ) (hn0 : 0 < n) (hn : n < 2 ^ 53) (hw : w < 2 ^ 53) :
    jsMul (jsDiv (jsAdd ((n - 1 : ℕ) : ℚ) 1) (n : ℚ)) (w : ℚ) = w := by
  have ha : jsAdd ((n - 1 : ℕ) : ℚ) 1 = (n : ℚ) := by
    unfold jsAdd
    have h := toDouble_natCast n hn
    have h2 : (((n - 1 : ℕ) : ℚ) + 1) = (n : ℚ) := by
      have : n - 1 + 1 = n := by omega
      exact_mod_cast this
    rw [h2]
    exact h
  have hnpos : (n : ℚ) ≠ 0 := by exact_mod_cast (by omega : n ≠ 0)
  have h1 : toDouble 1 = 1 := by
    simpa using toDouble_natCast 1 (by norm_num)
  rw [ha]
  unfold jsMul jsDiv
  rw [div_self hnpos, h1, one_mul, toDouble_natCast w hw]

theorem chunkProduct_one_of_three :
    jsMul (jsDiv (jsAdd ((0 : ℕ) : ℚ) 1) ((3 : ℕ) : ℚ)) 50 = 4691249611844266 / 2 ^ 48 := by
  have e0 : toDouble (((0 : ℕ) : ℚ) + 1) = 1 := by
    have h := toDouble_natCast 1 (by norm_num)
    norm_num at h ⊢
    exact h
  have e1 : toDouble (1 / ((3 : ℕ) : ℚ)) = 6004799503160661 / 2 ^ 54 := by
    rw [toDouble_eq_of_pos _ (-2) 6004799503160661 (by norm_num) (by norm_num)
      (by norm_num) (by norm_num) (by norm_num)]
    norm_num
  have e2 : toDouble (6004799503160661 / 2 ^ 54 * 50) = 4691249611844266 / 2 ^ 48 := by
    rw [toDouble_eq_of_pos _ 4 4691249611844266 (by norm_num) (by norm_num)
      (by norm_num) (by norm_num) (by norm_num)]
    norm_num
  unfold jsAdd jsMul jsDiv
  rw [e0, e1, e2]

theorem chunkProduct_twentynine_of_hundred :
    jsMul (jsDiv (jsAdd ((28 : ℕ) : ℚ) 1) ((100 : ℕ) : ℚ)) 50
      = 8162774324609023 / 2 ^ 49 := by
  have e0 : toDouble (((28 : ℕ) : ℚ) + 1) = 29 := by
    have h := toDouble_natCast 29 (by norm_num)
    norm_num at h ⊢
    exact h
  have e1 : toDouble (29 / ((100 : ℕ) : ℚ)) = 5224175567749775 / 2 ^ 54 := by
    rw [toDouble_eq_of_pos _ (-2) 5224175567749775 (by norm_num) (by norm_num)
      (by norm_num) (by norm_num) (by norm_num)]
    norm_num
  have e2 : toDouble (5224175567749775 / 2 ^ 54 * 50) = 8162774324609023 / 2 ^ 49 := by
    rw [toDouble_eq_of_pos _ 3 8162774324609023 (by norm_num) (by norm_num)
      (by norm_num) (by norm_num) (by norm_num)]
    norm_num
  unfold jsAdd jsMul jsDiv
  rw [e0, e1, e2]

theorem chunkProgressReport_percentage (fileType : String) (progressStep : ℚ)
    (totalChunks i : ℕ) :
    (chunkProgressReport fileType progressStep totalChunks i).progress_percentage
      = some ((⌊jsMul (jsDiv (jsAdd (i : ℚ) 1) (totalChunks : ℚ)) progressStep + 1 / 2⌋ : ℤ)
          : ℚ) := rfl

/-- Counterexample for C14: after the first of three chunks with weight 50 the reported
progress is 17, not the scaled fraction `1 / 3 * 50`; after chunk 29 of 100 it is 14,
where the scaled fraction is `29 / 2`. -/
theorem chunk_progress_is_rounded :
    (chunkProgressReport "pages" 50 3 0).progress_percentage = some 17 ∧
    (chunkProgressReport "pages" 50 3 0).progress_percentage
      ≠ some (((0 : ℕ) + 1 : ℚ) / (3 : ℕ) * 50) ∧
    (chunkProgressReport "pages" 50 100 28).progress_percentage = some 14 ∧
    ((28 : ℕ) + 1 : ℚ) / (100 : ℕ) * 50 = 29 / 2 := by
  have h : (chunkProgressReport "pages" 50 3 0).progress_percentage = some 17 := by
    rw [chunkProgressReport_percentage, chunkProduct_one_of_three]
    have hfloor : ⌊(4691249611844266 : ℚ) / 2 ^ 48 + 1 / 2⌋ = 17 := by
      rw [Int.floor_eq_iff]
      constructor <;> norm_num
    rw [hfloor]
    norm_num
  have h2 : (chunkProgressReport "pages" 50 100 28).progress_percentage = some 14 := by
    rw [chunkProgressReport_percentage, chunkProduct_twentynine_of_hundred]
    have hfloor : ⌊(8162774324609023 : ℚ) / 2 ^ 49 + 1 / 2⌋ = 14 := by
      rw [Int.floor_eq_iff]
      constructor <;> norm_num
    rw [hfloor]
    norm_num
  refine ⟨h, ?_, h2, by norm_num⟩
  rw [h]
  intro heq
  have h3 := Option.some.inj heq
  norm_num at h3

/-- C14 (amended): after chunk `i` of `totalChunks` (below `2 ^ 53`) is uploaded, the
progress value `uploadFileByChunks` reports is `Math.round` of the double-precision
product `(i + 1) / totalChunks * progressStep`: an integer within one half of that
product, which differs from the exact scaled fraction by at most `3 * 2 ^ -53` times its
magnitude plus `2 ^ -1075`; after the last chunk, with an integer weight below `2 ^ 53`,
the report is the weight. -/
theorem chunk_progress_rounded_fraction (fileType : String) (progressStep : ℚ)
    (totalChunks i : ℕ) (hi : i < totalChunks) (hn : totalChunks < 2 ^ 53) :
    (chunkProgressReport fileType progressStep totalChunks i).progress_percentage
      = some ((⌊jsMul (jsDiv (jsAdd (i : ℚ) 1) (totalChunks : ℚ)) progressStep + 1 / 2⌋ : ℤ)
          : ℚ) ∧
    |jsMul (jsDiv (jsAdd (i : ℚ) 1) (totalChunks : ℚ)) progressStep
        - ((i : ℚ) + 1) / (totalChunks : ℚ) * progressStep|
      ≤ 3 * |((i : ℚ) + 1) / (totalChunks : ℚ) * progressStep| / 2 ^ 53 + 1 / 2 ^ 1075 ∧
    (∀ x : ℚ,
      (chunkProgressReport fileType progressStep totalChunks i).progress_percentage = some x →
      jsMul (jsDiv (jsAdd (i : ℚ) 1) (totalChunks : ℚ)) progressStep - 1 / 2 < x ∧
      x ≤ jsMul (jsDiv (jsAdd (i : ℚ) 1) (totalChunks : ℚ)) progressStep + 1 / 2 ∧
      |x - ((i : ℚ) + 1) / (totalChunks : ℚ) * progressStep|
        ≤ 1 / 2 + 3 * |((i : ℚ) + 1) / (totalChunks : ℚ) * progressStep| / 2 ^ 53
          + 1 / 2 ^ 1075) ∧
    (∀ w : ℕ, w < 2 ^ 53 → progressStep = (w : ℚ) → i + 1 = totalChunks →
      (chunkProgressReport fileType progressStep totalChunks i).progress_percentage
        = some progressStep) := by
  have hval := chunkProgressReport_percentage fileType progressStep totalChunks i
  have herr := chunkProduct_error totalChunks i progressStep hi hn
  refine ⟨hval, herr, ?_, ?_⟩
  · intro x hx
    rw [hval] at hx
    have hx2 := Option.some.inj hx
    have h1 := Int.floor_le
      (jsMul (jsDiv (jsAdd (i : ℚ) 1) (totalChunks : ℚ)) progressStep + 1 / 2)
    have h2 := Int.lt_floor_add_one
      (jsMul (jsDiv (jsAdd (i : ℚ) 1) (totalChunks : ℚ)) progressStep + 1 / 2)
    rw [hx2] at h1 h2
    have hlo : jsMul (jsDiv (jsAdd (i : ℚ) 1) (totalChunks : ℚ)) progressStep - 1 / 2 < x := by
      linarith
    have hhi : x ≤ jsMul (jsDiv (jsAdd (i : ℚ) 1) (totalChunks : ℚ)) progressStep + 1 / 2 := by
      linarith
    refine ⟨hlo, hhi, ?_⟩
    have h3 : |x - jsMul (jsDiv (jsAdd (i : ℚ) 1) (totalChunks : ℚ)) progressStep|
        ≤ 1 / 2 := by
      rw [abs_le]
      constructor <;> linarith
    have h4 := abs_sub_le x (jsMul (jsDiv (jsAdd (i : ℚ) 1) (totalChunks : ℚ)) progressStep)
      (((i : ℚ) + 1) / (totalChunks : ℚ) * progressStep)
    obtain ⟨η, hη⟩ : ∃ η : ℚ, η = 1 / 2 ^ 1075 := ⟨_, rfl⟩
    rw [← hη] at herr ⊢
    linarith
  · intro w hw hps hlast
    have hi2 : i = totalChunks - 1 := by omega
    rw [hval, hps, hi2, chunkProduct_last totalChunks w (by omega) hn hw]
    congr 1
    have hfl : ⌊(w : ℚ) + 1 / 2⌋ = (w : ℤ) := by
      rw [Int.floor_eq_iff]
      constructor <;> push_cast <;> linarith
    rw [hfl]
    norm_cast

/-- Witness for C14: the first of three chunks with weight 50. -/
theorem chunk_progress_rounded_fraction_witness :
    |jsMul (jsDiv (jsAdd ((0 : ℕ) : ℚ) 1) ((3 : ℕ) : ℚ)) 50
        - (((0 : ℕ) : ℚ) + 1) / ((3 : ℕ) : ℚ) * 50|
      ≤ 3 * |(((0 : ℕ) : ℚ) + 1) / ((3 : ℕ) : ℚ) * 50| / 2 ^ 53 + 1 / 2 ^ 1075 :=
  (chunk_progress_rounded_fraction "pages" 50 3 0 (by norm_num) (by norm_num)).2.1

theorem uploadChunksFrom_dom (fetch : Request → FetchOutcome) (header : List Char)
    (dataLines : List (List Char)) (fileType : String) (progressStep : ℚ) (n : ℕ) :
    ∀ (idxs : List ℕ) (st : State),
      (uploadChunksFrom fetch header dataLines fileType progressStep n idxs st).1.dom
        = st.dom := by
  intro idxs
  induction idxs with
  | nil => intro st; rfl
  | cons i rest ih =>
    intro st
    rw [uploadChunksFrom]
    cases hf : fetch (Request.importChunk st.currentProject
        (chunkForm header dataLines fileType n i)) with
    | rejected m => rfl
    | response r =>
      cases hok : r.ok
      · simp [hok]
      · simp only [hok, Bool.not_true, Bool.false_eq_true, ↓reduceIte,
          updateProgress_chunkProgressReport]
        rw [ih]

theorem uploadFileByChunks_dom (fetch : Request → FetchOutcome) (st : State)
    (file : Option (List Char)) (fileType : String) (progressStep : ℚ) :
    (uploadFileByChunks fetch st file fileType progressStep).1.dom = st.dom := by
  cases file with
  | none => rfl
  | some text => exact uploadChunksFrom_dom _ _ _ _ _ _ _ st

theorem uploadFiles_dom (fetch : Request → FetchOutcome) (st : State)
    (pagesFile linksFile : Option (List Char)) :
    (uploadFiles fetch st pagesFile linksFile).1.dom = st.dom := by
  have hst : ({ st with dom := updateProgress st.dom uploadStartReport } : State) = st := rfl
  unfold uploadFiles
  simp only [hst]
  have h1 := uploadFileByChunks_dom fetch st pagesFile "pages" 50
  rcases hp : uploadFileByChunks fetch st pagesFile "pages" 50 with ⟨st1, res1⟩
  rw [hp] at h1
  simp only at h1
  cases res1 with
  | error m => exact h1
  | ok u =>
    simp only
    have h2 : (if linksFile.isSome = true then uploadFileByChunks fetch st1 linksFile "links" 50
        else (st1, Except.ok ())).1.dom = st1.dom := by
      split_ifs
      · exact uploadFileByChunks_dom fetch st1 linksFile "links" 50
      · rfl
    rcases hl : (if linksFile.isSome = true then
        uploadFileByChunks fetch st1 linksFile "links" 50 else (st1, Except.ok ()))
      with ⟨st2, res2⟩
    rw [hl] at h2
    simp only at h2
    cases res2 with
    | error m => exact h2.trans h1
    | ok u2 =>
      simp only
      cases hf : fetch (Request.importFinalize st2.currentProject) with
      | rejected m => exact h2.trans h1
      | response r =>
        simp only
        split_ifs <;> exact h2.trans h1

/-- C19: for every status object without a `progress` field `updateProgress` changes
nothing on the page (bar width, progress text and step indicators included). The objects
built by `uploadFiles`, `uploadFileByChunks` and `startAnalysis` have no such field, so an
upload leaves the page as it was. -/
theorem update_progress_ignores_flat_reports :
    (∀ (dom : Dom) (status : Status), status.progress = none →
      updateProgress dom status = dom) ∧
    uploadStartReport.progress = none ∧
    (∀ (fileType : String) (progressStep : ℚ) (n i : ℕ),
      (chunkProgressReport fileType progressStep n i).progress = none) ∧
    analysisStartReport.progress = none ∧
    (∀ (fetch : Request → FetchOutcome) (st : State) (file : Option (List Char))
        (fileType : String) (progressStep : ℚ),
      (uploadFileByChunks fetch st file fileType progressStep).1.dom = st.dom) ∧
    (∀ (fetch : Request → FetchOutcome) (st : State) (pagesFile linksFile : Option (List Char)),
      (uploadFiles fetch st pagesFile linksFile).1.dom = st.dom) := by
  refine ⟨?_, rfl, fun _ _ _ _ => rfl, rfl, uploadFileByChunks_dom, uploadFiles_dom⟩
  intro dom status h
  unfold updateProgress
  rw [h]

/-- Witness for C19: the report built after the first chunk of a one-chunk pages file. -/
theorem update_progress_ignores_flat_reports_witness :
    updateProgress emptyDom (chunkProgressReport "pages" 50 1 0) = emptyDom :=
  update_progress_ignores_flat_reports.1 emptyDom (chunkProgressReport "pages" 50 1 0) rfl

/-! ## Claims about the result views -/

theorem sortByScoreDesc_perm (ps : List Proximity) : (sortByScoreDesc ps).Perm ps :=
  List.perm_insertionSort _ ps

theorem sortByScoreDesc_sorted (ps : List Proximity) :
    (sortByScoreDesc ps).Sorted (fun a b => b.anomaly_score ≤ a.anomaly_score) := by
  haveI : IsTotal Proximity (fun a b => b.anomaly_score ≤ a.anomaly_score) :=
    ⟨fun a b => le_total b.anomaly_score a.anomaly_score⟩
  haveI : IsTrans Proximity (fun a b => b.anomaly_score ≤ a.anomaly_score) :=
    ⟨fun _ _ _ hab hbc => le_trans hbc hab⟩
  exact List.sorted_insertionSort _ ps

theorem sortByScoreDesc_three (a b c : Proximity) (ha : a.anomaly_score = 9 / 10)
    (hb : b.anomaly_score = 3 / 10) (hc : c.anomaly_score = 7 / 10) :
    sortByScoreDesc [a, b, c] = [a, c, b] := by
  have h1 : ¬ c.anomaly_score ≤ b.anomaly_score := by
    rw [hb, hc]
    norm_num
  have h2 : c.anomaly_score ≤ a.anomaly_score := by
    rw [ha, hc]
    norm_num
  simp [sortByScoreDesc, List.insertionSort, List.orderedInsert, h1, h2]

theorem toFixed3_of_thousandths (x : ℚ) (n : ℕ) (hx : x = (n : ℚ) / 1000) :
    toFixed3 x = toString (n / 1000) ++ "." ++ pad3 (n % 1000) := by
  have hnonneg : 0 ≤ x := by
    rw [hx]
    positivity
  have hfloor : ⌊|x| * 1000 + 1 / 2⌋₊ = n := by
    rw [abs_of_nonneg hnonneg, hx, Nat.floor_eq_iff (by positivity)]
    constructor
    · have : (n : ℚ) / 1000 * 1000 = n := by field_simp
      rw [this]
      linarith
    · have : (n : ℚ) / 1000 * 1000 = n := by field_simp
      rw [this]
      linarith
  unfold toFixed3
  simp only [hfloor, not_lt.2 hnonneg, if_false]
  rfl

/-- C15: the rows rendered by `showAnomalies` and the lines written by
`exportAnomaliesCSV` are, one per anomaly, those of a permutation of the stored anomalies
in non-increasing `anomaly_score` order; anomalies with the scores 0.9, 0.3, 0.7 come out
in the order 0.9, 0.7, 0.3, their exported scores reading 0.900, 0.700, 0.300. -/
theorem anomalies_sorted_descending (st : State) (res : AnalysisResult)
    (h : st.results = some res) :
    ∃ sorted : List Proximity,
      sorted.Perm (res.proximities.getD []) ∧
      sorted.Sorted (fun a b => b.anomaly_score ≤ a.anomaly_score) ∧
      (showAnomalies st).1.dom.chart
        = Chart.anomalyTable (res.proximities.getD []).length (sorted.map anomalyRow) ∧
      (exportAnomaliesCSV st).2 = .ok (sorted.map anomalyCsvRow) ∧
      (∀ a b c : Proximity, res.proximities = some [a, b, c] →
        a.anomaly_score = 9 / 10 → b.anomaly_score = 3 / 10 → c.anomaly_score = 7 / 10 →
        sorted = [a, c, b] ∧
        sorted.map (fun prox => (anomalyCsvRow prox).score) = ["0.900", "0.700", "0.300"]) := by
  refine ⟨sortByScoreDesc (res.proximities.getD []), sortByScoreDesc_perm _,
    sortByScoreDesc_sorted _, ?_, ?_, ?_⟩
  · simp [showAnomalies, h]
  · simp [exportAnomaliesCSV, h]
  · intro a b c hp ha hb hc
    have hsorted : sortByScoreDesc (res.proximities.getD []) = [a, c, b] := by
      rw [hp]
      exact sortByScoreDesc_three a b c ha hb hc
    refine ⟨hsorted, ?_⟩
    rw [hsorted]
    simp only [List.map_cons, List.map_nil, anomalyCsvRow]
    rw [toFixed3_of_thousandths a.anomaly_score 900 (by rw [ha]; norm_num),
      toFixed3_of_thousandths c.anomaly_score 700 (by rw [hc]; norm_num),
      toFixed3_of_thousandths b.anomaly_score 300 (by rw [hb]; norm_num)]
    decide

/-- Witness for C15: the sample result, whose anomalies have the scores 0.9, 0.3, 0.7. -/
theorem anomalies_sorted_descending_witness :
    ∃ sorted : List Proximity,
      sorted.Perm (sampleResult.proximities.getD []) ∧
      sorted.Sorted (fun a b => b.anomaly_score ≤ a.anomaly_score) ∧
      (showAnomalies resultState).1.dom.chart
        = Chart.anomalyTable (sampleResult.proximities.getD []).length
            (sorted.map anomalyRow) ∧
      (exportAnomaliesCSV resultState).2 = .ok (sorted.map anomalyCsvRow) :=
  let ⟨sorted, h1, h2, h3, h4, _⟩ := anomalies_sorted_descending resultState sampleResult rfl
  ⟨sorted, h1, h2, h3, h4⟩

theorem digitChar_decimal (k : ℕ) (hk : k < 10) :
    48 ≤ (Nat.digitChar k).toNat ∧ (Nat.digitChar k).toNat ≤ 57 := by
  interval_cases k <;> decide

theorem toDigitsCore_decimal (fuel : ℕ) :
    ∀ (n : ℕ) (ds : List Char), n < fuel →
      ∃ pre, Nat.toDigitsCore 10 fuel n ds = pre ++ ds ∧ pre ≠ [] ∧
        ∀ c ∈ pre, 48 ≤ c.toNat ∧ c.toNat ≤ 57 := by
  induction fuel with
  | zero => intro n ds h; omega
  | succ fuel ih =>
    intro n ds h
    have hd := digitChar_decimal (n % 10) (Nat.mod_lt _ (by norm_num))
    unfold Nat.toDigitsCore
    by_cases h0 : n / 10 = 0
    · refine ⟨[Nat.digitChar (n % 10)], by simp [h0], by simp, ?_⟩
      intro c hc
      rw [List.mem_singleton.1 hc]
      exact hd
    · obtain ⟨pre, hpre, _, hall⟩ := ih (n / 10) (Nat.digitChar (n % 10) :: ds) (by omega)
      refine ⟨pre ++ [Nat.digitChar (n % 10)], by simp [h0, hpre], by simp, ?_⟩
      intro c hc
      rcases List.mem_append.1 hc with hc | hc
      · exact hall c hc
      · rw [List.mem_singleton.1 hc]
        exact hd

theorem toDigits_decimal (n : ℕ) :
    Nat.toDigits 10 n ≠ [] ∧ ∀ c ∈ Nat.toDigits 10 n, 48 ≤ c.toNat ∧ c.toNat ≤ 57 := by
  obtain ⟨pre, hpre, hne, hall⟩ := toDigitsCore_decimal (n + 1) n [] (by omega)
  simp only [List.append_nil] at hpre
  rw [Nat.toDigits, hpre]
  exact ⟨hne, hall⟩

theorem digitValue_decimal (c : Char) (h : 48 ≤ c.toNat ∧ c.toNat ≤ 57) :
    digitValue 10 c = some (c.toNat - 48) := by
  have h2 : c.toNat - 48 < 10 := by omega
  simp [digitValue, h, h2]

theorem leadingDigits_decimal (cs : List Char)
    (h : ∀ c ∈ cs, 48 ≤ c.toNat ∧ c.toNat ≤ 57) :
    leadingDigits 10 cs = cs.map (fun c => c.toNat - 48) := by
  induction cs with
  | nil => rfl
  | cons c rest ih =>
    rw [leadingDigits, digitValue_decimal c (h c (by simp))]
    simp only [List.map_cons]
    rw [ih (fun x hx => h x (List.mem_cons_of_mem _ hx))]

theorem foldl_digits_eq_decimalValue (cs : List Char) :
    (cs.map (fun c => c.toNat - 48)).foldl (fun acc d => acc * 10 + d) 0
      = decimalValue cs := by
  rw [List.foldl_map]
  rfl

theorem isJsWhiteSpace_decimal (c : Char) (h : 48 ≤ c.toNat ∧ c.toNat ≤ 57) :
    isJsWhiteSpace c = false := by
  simp only [isJsWhiteSpace, Bool.or_eq_false_iff, decide_eq_false_iff_not, List.mem_cons,
    List.mem_singleton, Bool.and_eq_false_iff, List.not_mem_nil, or_false]
  omega

theorem ne_of_toNat_ne (c d : Char) (h : c.toNat ≠ d.toNat) : c ≠ d := by
  intro hcd
  exact h (by rw [hcd])

theorem jsParseInt_decimal (s : String) (d : Char) (rest : List Char)
    (hs : s.data = d :: rest) (hall : ∀ c ∈ d :: rest, 48 ≤ c.toNat ∧ c.toNat ≤ 57) :
    jsParseInt s = some ((decimalValue (d :: rest) : ℕ) : ℤ) := by
  have hd := hall d (by simp)
  have hws := isJsWhiteSpace_decimal d hd
  have hdrop : (d :: rest).dropWhile isJsWhiteSpace = d :: rest := by
    simp [List.dropWhile, hws]
  have hminus : d ≠ '-' := ne_of_toNat_ne _ _ (by
    have : ('-' : Char).toNat = 45 := by decide
    omega)
  have hplus : d ≠ '+' := ne_of_toNat_ne _ _ (by
    have : ('+' : Char).toNat = 43 := by decide
    omega)
  have hhex1 : (d :: rest).take 2 ≠ ['0', 'x'] := by
    cases rest with
    | nil => simp
    | cons e r =>
      have he := hall e (by simp)
      have : e ≠ 'x' := ne_of_toNat_ne _ _ (by
        have : ('x' : Char).toNat = 120 := by decide
        omega)
      simp [this]
  have hhex2 : (d :: rest).take 2 ≠ ['0', 'X'] := by
    cases rest with
    | nil => simp
    | cons e r =>
      have he := hall e (by simp)
      have : e ≠ 'X' := ne_of_toNat_ne _ _ (by
        have : ('X' : Char).toNat = 88 := by decide
        omega)
      simp [this]
  have hld := leadingDigits_decimal (d :: rest) hall
  unfold jsParseInt
  simp only [hs, hdrop, List.head?_cons, Option.some.injEq, hminus, hplus, or_self,
    if_false, hhex1, hhex2, decide_False, Bool.false_eq_true, hld]
  rw [foldl_digits_eq_decimalValue]
  simp

theorem jsParseInt_toString (m : ℕ) : jsParseInt (toString m) = some (m : ℤ) := by
  obtain ⟨hne, hall⟩ := toDigits_decimal m
  have hdata := toString_nat_data m
  cases hD : Nat.toDigits 10 m with
  | nil => exact absurd hD hne
  | cons d rest =>
    rw [hD] at hall hdata
    rw [jsParseInt_decimal (toString m) d rest hdata hall, ← hD, (toDigits_spec m).1]

theorem clusterRowsFrom_cluster (cs : List Cluster) :
    ∀ index, (clusterRowsFrom index cs).map ClusterRow.cluster = cs := by
  induction cs with
  | nil => intro _; rfl
  | cons c rest ih =>
    intro index
    simp only [clusterRowsFrom, List.map_cons, ih (index + 1)]
    rfl

theorem minSizeFilterOf_pos (m : ℕ) (hm : 1 ≤ m) : minSizeFilterOf (some (m : ℤ)) = m := by
  have : (m : ℤ) ≠ 0 := by omega
  simp [minSizeFilterOf, this]

theorem updateClusterFilter_of_table (st : State) (minSize : String)
    (hchart : showsClusterTable st.dom.chart = true) :
    updateClusterFilter st minSize
      = showClusters { st with clusterMinSizeFilter := jsParseInt minSize } := by
  unfold updateClusterFilter
  cases hc : st.dom.chart <;> simp [showsClusterTable, hc] at hchart ⊢

theorem showClusters_chart (st : State) (res : AnalysisResult) (m : ℕ)
    (hres : st.results = some res) (hm : 1 ≤ m)
    (hfilter : st.clusterMinSizeFilter = some (m : ℤ)) :
    (showClusters st).2 = .ok () ∧
    (showClusters st).1.dom.chart
      = Chart.clusterTable (filterClusters m (res.clusters.getD [])).length
          (res.clusters.getD []).length (maxSize ((res.clusters.getD []).map Cluster.size))
          m (clusterRowsFrom 0 (filterClusters m (res.clusters.getD []))) := by
  constructor
  · simp [showClusters, hres]
  · simp [showClusters, hres, hfilter, minSizeFilterOf_pos m hm]

theorem updateClusterFilter_fields (st : State) (minSize : String) :
    (updateClusterFilter st minSize).1.clusterMinSizeFilter = jsParseInt minSize ∧
    (updateClusterFilter st minSize).1.results = st.results := by
  have hshow : ∀ s : State, (showClusters s).1.clusterMinSizeFilter = s.clusterMinSizeFilter ∧
      (showClusters s).1.results = s.results := by
    intro s
    unfold showClusters
    cases hr : s.results with
    | none => exact ⟨rfl, hr⟩
    | some res => exact ⟨rfl, rfl⟩
  unfold updateClusterFilter
  cases hc : st.dom.chart with
  | clusterTable a b c d e =>
    simp only [hc]
    exact hshow _
  | untouched => simp [hc]
  | noData => simp [hc]
  | scatter pts => simp [hc]
  | anomalyTable n rows => simp [hc]

/-- C16: once a minimum size `m ≥ 1` is set through `updateClusterFilter`, `showClusters`
renders one row for each cluster of size at least `m` and no other, in the order of the
stored list (a sublist of it, not re-sorted); when the cluster table is on display,
`updateClusterFilter` itself re-renders it so. For clusters of sizes 1, 5, 10 and `m = 5`
the two clusters of sizes 5 and 10 are rendered. -/
theorem cluster_filter_keeps_large (st : State) (res : AnalysisResult) (m : ℕ)
    (hres : st.results = some res) (hm : 1 ≤ m) :
    (updateClusterFilter st (toString m)).1.clusterMinSizeFilter = some (m : ℤ) ∧
    (showClusters (updateClusterFilter st (toString m)).1).2 = .ok () ∧
    (showClusters (updateClusterFilter st (toString m)).1).1.dom.chart
      = Chart.clusterTable (filterClusters m (res.clusters.getD [])).length
          (res.clusters.getD []).length (maxSize ((res.clusters.getD []).map Cluster.size))
          m (clusterRowsFrom 0 (filterClusters m (res.clusters.getD []))) ∧
    (showsClusterTable st.dom.chart = true →
      (updateClusterFilter st (toString m)).2 = .ok () ∧
      (updateClusterFilter st (toString m)).1.dom.chart
        = Chart.clusterTable (filterClusters m (res.clusters.getD [])).length
            (res.clusters.getD []).length
            (maxSize ((res.clusters.getD []).map Cluster.size))
            m (clusterRowsFrom 0 (filterClusters m (res.clusters.getD [])))) ∧
    (clusterRowsFrom 0 (filterClusters m (res.clusters.getD []))).map ClusterRow.cluster
      = filterClusters m (res.clusters.getD []) ∧
    (∀ c, c ∈ filterClusters m (res.clusters.getD []) ↔
      c ∈ res.clusters.getD [] ∧ (m : ℚ) ≤ c.size) ∧
    (filterClusters m (res.clusters.getD [])).Sublist (res.clusters.getD []) ∧
    (∀ c1 c2 c3 : Cluster, res.clusters = some [c1, c2, c3] → c1.size = 1 → c2.size = 5 →
      c3.size = 10 → m = 5 →
      filterClusters m (res.clusters.getD []) = [c2, c3]) := by
  obtain ⟨hfilter, hresults⟩ := updateClusterFilter_fields st (toString m)
  rw [jsParseInt_toString] at hfilter
  rw [hres] at hresults
  have hnext := showClusters_chart (updateClusterFilter st (toString m)).1 res m hresults hm
    hfilter
  refine ⟨hfilter, hnext.1, hnext.2, ?_, clusterRowsFrom_cluster _ 0, ?_, ?_, ?_⟩
  · intro hchart
    have hrun : updateClusterFilter st (toString m)
        = showClusters { st with clusterMinSizeFilter := some (m : ℤ) } := by
      rw [updateClusterFilter_of_table st _ hchart, jsParseInt_toString]
    rw [hrun]
    exact showClusters_chart _ res m hres hm rfl
  · intro c
    simp [filterClusters]
  · exact List.filter_sublist _
  · intro c1 c2 c3 hcl h1 h2 h3 hm5
    subst hm5
    rw [hcl]
    simp only [filterClusters, Option.getD_some, List.filter, h1, h2, h3]
    norm_num

/-- Witness for C16: the sample result (sizes 1, 5, 10) with the slider moved to 5. -/
theorem cluster_filter_keeps_large_witness :
    (updateClusterFilter clusterViewState (toString 5)).2 = .ok () ∧
    filterClusters ((5 : ℕ) : ℤ) (sampleResult.clusters.getD [])
      = [sampleCluster 1 5, sampleCluster 2 10] :=
  let h := cluster_filter_keeps_large clusterViewState sampleResult 5 rfl (by norm_num)
  ⟨(h.2.2.2.1 rfl).1, h.2.2.2.2.2.2.2 _ _ _ rfl rfl rfl rfl rfl⟩

/-! ## Lemmas: timers -/

theorem uploadChunksFrom_timerState (fetch : Request → FetchOutcome) (header : List Char)
    (dataLines : List (List Char)) (fileType : String) (progressStep : ℚ) (n : ℕ) :
    ∀ (idxs : List ℕ) (st : State),
      timerState (uploadChunksFrom fetch header dataLines fileType progressStep n idxs st).1
        = timerState st := by
  intro idxs
  induction idxs with
  | nil => intro st; rfl
  | cons i rest ih =>
    intro st
    rw [uploadChunksFrom]
    cases hf : fetch (Request.importChunk st.currentProject
        (chunkForm header dataLines fileType n i)) with
    | rejected m => rfl
    | response r =>
      cases hok : r.ok
      · simp [hok, timerState]
      · simp only [hok, Bool.not_true, Bool.false_eq_true, ↓reduceIte,
          updateProgress_chunkProgressReport]
        rw [ih]
        rfl

theorem uploadFileByChunks_timerState (fetch : Request → FetchOutcome) (st : State)
    (file : Option (List Char)) (fileType : String) (progressStep : ℚ) :
    timerState (uploadFileByChunks fetch st file fileType progressStep).1
      = timerState st := by
  cases file with
  | none => rfl
  | some text => exact uploadChunksFrom_timerState _ _ _ _ _ _ _ st

theorem uploadFiles_timerState (fetch : Request → FetchOutcome) (st : State)
    (pagesFile linksFile : Option (List Char)) :
    timerState (uploadFiles fetch st pagesFile linksFile).1 = timerState st := by
  have hst : ({ st with dom := updateProgress st.dom uploadStartReport } : State) = st := rfl
  unfold uploadFiles
  simp only [hst]
  have h1 := uploadFileByChunks_timerState fetch st pagesFile "pages" 50
  rcases hp : uploadFileByChunks fetch st pagesFile "pages" 50 with ⟨st1, res1⟩
  rw [hp] at h1
  simp only at h1
  cases res1 with
  | error m => exact h1
  | ok u =>
    simp only
    have h2 : timerState (if linksFile.isSome = true then
        uploadFileByChunks fetch st1 linksFile "links" 50
        else (st1, Except.ok ())).1 = timerState st1 := by
      split_ifs
      · exact uploadFileByChunks_timerState fetch st1 linksFile "links" 50
      · rfl
    rcases hl : (if linksFile.isSome = true then
        uploadFileByChunks fetch st1 linksFile "links" 50 else (st1, Except.ok ()))
      with ⟨st2, res2⟩
    rw [hl] at h2
    simp only at h2
    cases res2 with
    | error m => exact h2.trans h1
    | ok u2 =>
      simp only
      cases hf : fetch (Request.importFinalize st2.currentProject) with
      | rejected m => exact h2.trans h1
      | response r =>
        simp only
        split_ifs <;> exact h2.trans h1

theorem createProject_timerState (fetch : Request → FetchOutcome) (st : State) :
    timerState (createProject fetch st).1 = timerState st := by
  unfold createProject
  cases fetch Request.createProject with
  | rejected m => rfl
  | response r =>
    simp only
    split_ifs <;> rfl

theorem startSimpleAnalysis_timerState (fetch : Request → FetchOutcome) (st : State) :
    timerState (startSimpleAnalysis fetch st).1 = timerState st ∨
    timerState (startSimpleAnalysis fetch st).1
      = (st.timers ++ [st.nextTimer], some st.nextTimer, st.nextTimer + 1) := by
  unfold startSimpleAnalysis
  cases hf : fetch (Request.analyzeSimple st.currentProject) with
  | rejected m =>
    simp only [hf]
    exact Or.inl rfl
  | response r =>
    simp only [hf]
    split_ifs
    · exact Or.inl rfl
    · exact Or.inr rfl

theorem startAnalysisBody_timerState (fetch : Request → FetchOutcome) (st : State)
    (pagesFile linksFile : Option (List Char)) :
    timerState (startAnalysisBody fetch st pagesFile linksFile).1 = timerState st ∨
    timerState (startAnalysisBody fetch st pagesFile linksFile).1
      = (st.timers ++ [st.nextTimer], some st.nextTimer, st.nextTimer + 1) := by
  unfold startAnalysisBody
  simp only
  have h1 := createProject_timerState fetch { st with dom := showProgress (hideError st.dom) }
  rcases hc : createProject fetch { st with dom := showProgress (hideError st.dom) }
    with ⟨st2, res2⟩
  rw [hc] at h1
  simp only at h1
  cases res2 with
  | error m => exact Or.inl h1
  | ok project =>
    simp only
    split_ifs
    · exact Or.inl h1
    have h2 := uploadFiles_timerState fetch { st2 with currentProject := project.id }
      pagesFile linksFile
    rcases hu : uploadFiles fetch { st2 with currentProject := project.id }
      pagesFile linksFile with ⟨st4, res4⟩
    rw [hu] at h2
    simp only at h2
    have h24 : timerState st4 = timerState st := h2.trans h1
    cases res4 with
    | error m => exact Or.inl h24
    | ok v =>
      simp only
      have h3 := startSimpleAnalysis_timerState fetch
        { st4 with dom := updateProgress st4.dom analysisStartReport }
      rcases hs : startSimpleAnalysis fetch
        { st4 with dom := updateProgress st4.dom analysisStartReport } with ⟨st6, res6⟩
      rw [hs] at h3
      simp only at h3
      have h46 : timerState st6 = timerState st ∨
          timerState st6 = (st.timers ++ [st.nextTimer], some st.nextTimer,
            st.nextTimer + 1) := by
        simp only [timerState, Prod.mk.injEq] at h24 h3 ⊢
        rcases h3 with h3 | h3
        · left
          exact ⟨h3.1.trans h24.1, h3.2.1.trans h24.2.1, h3.2.2.trans h24.2.2⟩
        · right
          rw [h24.1, h24.2.2] at h3
          exact h3
      cases res6 <;> exact h46

theorem startAnalysis_timerState (fetch : Request → FetchOutcome) (st : State)
    (pagesFile linksFile : Option (List Char)) :
    timerState (startAnalysis fetch st pagesFile linksFile) = timerState st ∨
    timerState (startAnalysis fetch st pagesFile linksFile)
      = (st.timers ++ [st.nextTimer], some st.nextTimer, st.nextTimer + 1) := by
  have h := startAnalysisBody_timerState fetch st pagesFile linksFile
  unfold startAnalysis
  rcases hb : startAnalysisBody fetch st pagesFile linksFile with ⟨st1, res⟩
  rw [hb] at h
  cases res <;> exact h

theorem pollTick_timerState (st : State) (o : FetchOutcome) :
    (pollTick st o).progressInterval = st.progressInterval ∧
    ((pollTick st o).timers = st.timers ∨
      (pollTick st o).timers = (clearInterval st st.progressInterval).timers) := by
  cases hfs : fetchedStatus o with
  | none =>
    rw [pollTick_failed st o hfs]
    exact ⟨rfl, Or.inl rfl⟩
  | some s =>
    cases hs : isSuccessStatus s.status
    · cases hf : isFailureStatus s.status
      · rw [pollTick_running st o s hfs hs hf]
        exact ⟨rfl, Or.inl rfl⟩
      · rw [pollTick_failure st o s hfs hs hf]
        exact ⟨rfl, Or.inr rfl⟩
    · rw [pollTick_success st o s hfs hs, (showResults_effect _).1,
        (showResults_effect _).2.2.1]
      exact ⟨rfl, Or.inr rfl⟩

theorem clearInterval_timers_sublist (st : State) (handle : Option ℕ) :
    (clearInterval st handle).timers.Sublist st.timers := by
  cases handle with
  | none => exact List.Sublist.refl _
  | some h => exact List.filter_sublist _

theorem startAnalysis_projectFetch_timerState (st : State)
    (pagesFile linksFile : Option (List Char)) :
    timerState (startAnalysis projectFetch st pagesFile linksFile)
      = (st.timers ++ [st.nextTimer], some st.nextTimer, st.nextTimer + 1) := by
  have hbody := startAnalysisBody_complete projectFetch st pagesFile linksFile _
    (.project (some "p1")) rfl rfl rfl (by simp) (fun _ => ⟨_, _, rfl, rfl, rfl⟩)
  simp only [startAnalysis, hbody]
  rfl

theorem startAnalysis_eq_phases (fetch : Request → FetchOutcome) (st : State)
    (pagesFile linksFile : Option (List Char)) :
    startAnalysis fetch st pagesFile linksFile
      = if (startAnalysisUntilAnalyze fetch st pagesFile linksFile).2 = true then
          startAnalysisAfterAnalyze (startAnalysisUntilAnalyze fetch st pagesFile linksFile).1
            (fetch (Request.analyzeSimple
              (startAnalysisUntilAnalyze fetch st pagesFile linksFile).1.currentProject))
        else (startAnalysisUntilAnalyze fetch st pagesFile linksFile).1 := by
  unfold startAnalysis startAnalysisBody startAnalysisUntilAnalyze
  simp only
  rcases hc : createProject fetch { st with dom := showProgress (hideError st.dom) }
    with ⟨st2, res2⟩
  cases res2 with
  | error m => simp [startAnalysisCatch]
  | ok project =>
    simp only
    by_cases hn : project = Json.null
    · simp [hn, startAnalysisCatch]
    · simp only [hn, if_false]
      rcases hu : uploadFiles fetch { st2 with currentProject := project.id }
        pagesFile linksFile with ⟨st4, res4⟩
      cases res4 with
      | error m => simp [startAnalysisCatch]
      | ok v =>
        simp only [if_true]
        unfold startSimpleAnalysis startAnalysisAfterAnalyze
        simp only
        cases hf : fetch (Request.analyzeSimple st4.currentProject) with
        | rejected m => simp [startAnalysisCatch]
        | response r =>
          cases hok : r.ok <;> cases hj : r.json <;> simp [startAnalysisCatch, hok, hj]

theorem startAnalysisUntilAnalyze_complete (fetch : Request → FetchOutcome) (st : State)
    (pagesFile linksFile : Option (List Char)) (r : Response) (v : Json)
    (hcreate : fetch Request.createProject = .response r) (hok : r.ok = true)
    (hj : r.json = .ok v) (hnull : v ≠ Json.null) (hall : ∀ req, succeeds fetch req) :
    (startAnalysisUntilAnalyze fetch st pagesFile linksFile).2 = true ∧
    timerState (startAnalysisUntilAnalyze fetch st pagesFile linksFile).1 = timerState st := by
  have hchunks : ∀ project form, respondsOk fetch (Request.importChunk project form) := by
    intro project form
    obtain ⟨r1, _, h1, h2, _⟩ := hall (Request.importChunk project form)
    exact ⟨r1, h1, h2⟩
  obtain ⟨r2, v2, hfin, hfinok, hfinj⟩ := hall (Request.importFinalize v.id)
  have hup := uploadFiles_complete fetch (afterCreate st v.id) pagesFile linksFile r2 hchunks
    hfin hfinok
  have hup2 : uploadFiles fetch
      { ({ ({ st with dom := showProgress (hideError st.dom) } : State) with
            requests := st.requests ++ [Request.createProject] } : State) with
        currentProject := v.id } pagesFile linksFile
      = uploadFiles fetch (afterCreate st v.id) pagesFile linksFile := rfl
  unfold startAnalysisUntilAnalyze
  simp only [createProject_ok fetch _ r hcreate hok, hj, hnull, if_false, hup2, hup, hfinj]
  exact ⟨trivial, rfl⟩

/-! ## Claims about timers -/

/-- Counterexample for C17: two complete runs of `startAnalysis`, the second started
while the first session is still being monitored, leave the two timers 1 and 2 active.
So do two runs that overlap: the second is begun while the first awaits the response of
its analyze request, when no timer is active yet, and each run then registers a timer. -/
theorem second_start_leaves_two_timers :
    Reachable twoSessionsState ∧ twoSessionsState.timers = [1, 2] ∧
    ¬ (twoSessionsState.timers.length ≤ 1) ∧
    (startAnalysisUntilAnalyze projectFetch initialState (some sampleText) none).2 = true ∧
    firstRunWaiting.timers = [] ∧
    (startAnalysisUntilAnalyze projectFetch firstRunWaiting (some sampleText) none).2
      = true ∧
    bothRunsWaiting.timers = [] ∧
    overlappingRunsState.timers = [1, 2] ∧
    ¬ (overlappingRunsState.timers.length ≤ 1) := by
  have h1 := startAnalysis_projectFetch_timerState initialState (some sampleText) none
  have h2 := startAnalysis_projectFetch_timerState
    (startAnalysis projectFetch initialState (some sampleText) none) (some sampleText) none
  simp only [timerState, Prod.mk.injEq] at h1 h2
  have ht : twoSessionsState.timers = [1, 2] := by
    unfold twoSessionsState
    rw [h2.1, h1.1, h1.2.2]
    rfl
  obtain ⟨ha, hat⟩ := startAnalysisUntilAnalyze_complete projectFetch initialState
    (some sampleText) none _ (.project (some "p1")) rfl rfl rfl (by simp)
    (fun _ => ⟨_, _, rfl, rfl, rfl⟩)
  obtain ⟨hb, hbt⟩ := startAnalysisUntilAnalyze_complete projectFetch firstRunWaiting
    (some sampleText) none _ (.project (some "p1")) rfl rfl rfl (by simp)
    (fun _ => ⟨_, _, rfl, rfl, rfl⟩)
  have hat2 : timerState firstRunWaiting = timerState initialState := hat
  have hbt2 : timerState bothRunsWaiting = timerState initialState := hbt.trans hat2
  simp only [timerState, Prod.mk.injEq] at hat2 hbt2
  have ho : overlappingRunsState.timers = [1, 2] := by
    have hstep : overlappingRunsState
        = startProgressMonitoring (startProgressMonitoring bothRunsWaiting) := rfl
    rw [hstep]
    simp only [startProgressMonitoring, hbt2.1, hbt2.2.2]
    rfl
  refine ⟨Reachable.start _ _ _ _ (Reachable.start _ _ _ _ Reachable.initial), ht, ?_, ha,
    hat2.1, hb, hbt2.1, ho, ?_⟩
  · rw [ht]
    decide
  · rw [ho]
    decide

theorem serial_invariant (st : State) (h : ReachableSerial st) :
    st.timers.length ≤ 1 ∧ ∀ t ∈ st.timers, st.progressInterval = some t := by
  induction h with
  | initial => exact ⟨by decide, fun t ht => absurd ht (List.not_mem_nil t)⟩
  | start fetch st pagesFile linksFile _ hidle _ =>
    rcases startAnalysis_timerState fetch st pagesFile linksFile with h | h
    · simp only [timerState, Prod.mk.injEq] at h
      rw [h.1, hidle]
      exact ⟨by decide, fun t ht => absurd ht (List.not_mem_nil t)⟩
    · simp only [timerState, Prod.mk.injEq] at h
      rw [h.1, h.2.1, hidle]
      refine ⟨by simp, ?_⟩
      intro t ht
      simp only [List.nil_append, List.mem_singleton] at ht
      rw [ht]
  | tick st outcome _ ih =>
    obtain ⟨hp, ht⟩ := pollTick_timerState st outcome
    have hsub : (pollTick st outcome).timers.Sublist st.timers := by
      rcases ht with ht | ht
      · rw [ht]
      · rw [ht]
        exact clearInterval_timers_sublist st _
    refine ⟨le_trans hsub.length_le ih.1, ?_⟩
    intro t hmem
    rw [hp]
    exact ih.2 t (hsub.subset hmem)

/-- C17 (amended): in every state reached by runs of `startAnalysis` and poll ticks that
do not overlap (each is carried out to its end before the next begins) and in which a run
is only begun while no poll timer is active, at most one poll timer is active and it is
the one whose handle `progressInterval` holds; a tick that fetches a terminal status
cancels it, leaving no timer active. -/
theorem at_most_one_timer_when_started_idle (st : State) (h : ReachableSerial st) :
    st.timers.length ≤ 1 ∧
    (∀ t ∈ st.timers, st.progressInterval = some t) ∧
    (∀ (o : FetchOutcome) (s : Status), fetchedStatus o = some s →
      isTerminalStatus s.status → (pollTick st o).timers = []) := by
  obtain ⟨hlen, hhandle⟩ := serial_invariant st h
  refine ⟨hlen, hhandle, ?_⟩
  intro o s hfs hterm
  have htimers : (pollTick st o).timers = (clearInterval st st.progressInterval).timers := by
    rw [isTerminalStatus_iff] at hterm
    cases hs : isSuccessStatus s.status
    · have hf : isFailureStatus s.status = true := by
        rcases hterm with h1 | h1
        · rw [hs] at h1
          exact absurd h1 (by decide)
        · exact h1
      rw [pollTick_failure st o s hfs hs hf]
    · rw [pollTick_success st o s hfs hs, (showResults_effect _).1]
  rw [htimers]
  cases hT : st.timers with
  | nil =>
    cases hp : st.progressInterval <;> simp [clearInterval, hT]
  | cons t rest =>
    have hrest : rest = [] := by
      rw [hT] at hlen
      simp only [List.length_cons] at hlen
      exact List.length_eq_zero.1 (by omega)
    have hp := hhandle t (by rw [hT]; simp)
    rw [hp]
    simp [clearInterval, hT, hrest]

/-- Witness for C17: one complete session on the sample file, then a tick that fetches
`SUCCESS`. -/
theorem at_most_one_timer_when_started_idle_witness :
    (pollTick (startAnalysis projectFetch initialState (some sampleText) none)
      (statusResponse (plainStatus "SUCCESS"))).timers.length ≤ 1 :=
  (at_most_one_timer_when_started_idle _
    (ReachableSerial.tick _ _
      (ReachableSerial.start projectFetch initialState (some sampleText) none
        ReachableSerial.initial rfl))).1

/-! ## Claims about the stored result -/

/-- Counterexample for C18: for the sample result, whose anomalies are stored in the
order 0.9, 0.3, 0.7, `showAnomalies` and `exportAnomaliesCSV` each leave `this.results`
with the anomalies in the order 0.9, 0.7, 0.3. -/
theorem show_anomalies_reorders_result :
    (showAnomalies resultState).1.results ≠ resultState.results ∧
    (exportAnomaliesCSV resultState).1.results ≠ resultState.results := by
  have hsort : sortByScoreDesc [sampleProximity (9 / 10) "a", sampleProximity (3 / 10) "b",
        sampleProximity (7 / 10) "c"]
      = [sampleProximity (9 / 10) "a", sampleProximity (7 / 10) "c",
          sampleProximity (3 / 10) "b"] :=
    sortByScoreDesc_three _ _ _ rfl rfl rfl
  have hne : sampleProximity (7 / 10) "c" ≠ sampleProximity (3 / 10) "b" := by
    intro h
    have h2 := congrArg Proximity.url_i h
    exact absurd h2 (by decide)
  constructor
  · intro h
    simp only [showAnomalies, resultState, sampleResult, Option.map_some', hsort,
      Option.some.injEq, AnalysisResult.mk.injEq, List.cons.injEq, true_and] at h
    exact hne h.1.2.1.symm
  · intro h
    simp only [exportAnomaliesCSV, resultState, sampleResult, Option.map_some', hsort,
      Option.some.injEq, AnalysisResult.mk.injEq, List.cons.injEq, true_and] at h
    exact hne h.1.2.1.symm

/-- C18 (amended): `showClusters`, `exportClustersCSV` and `updateStats` leave
`this.results` exactly as it was. `showAnomalies` and `exportAnomaliesCSV` leave it as it
was except for the order of its proximities, which they sort in place by non-increasing
`anomaly_score`: the same anomalies (a permutation), and the same order when the stored
order is already non-increasing. -/
theorem views_keep_result_up_to_anomaly_order (st : State) (res : AnalysisResult)
    (h : st.results = some res) :
    (showClusters st).1.results = st.results ∧
    (exportClustersCSV st).1.results = st.results ∧
    (updateStats st).1.results = st.results ∧
    (showAnomalies st).1.results
      = some { res with proximities := res.proximities.map sortByScoreDesc } ∧
    (exportAnomaliesCSV st).1.results
      = some { res with proximities := res.proximities.map sortByScoreDesc } ∧
    (∀ ps, res.proximities = some ps → (sortByScoreDesc ps).Perm ps) ∧
    (∀ ps, res.proximities = some ps →
      ps.Sorted (fun a b => b.anomaly_score ≤ a.anomaly_score) →
      (showAnomalies st).1.results = st.results ∧
      (exportAnomaliesCSV st).1.results = st.results) ∧
    (res.proximities = none →
      (showAnomalies st).1.results = st.results ∧
      (exportAnomaliesCSV st).1.results = st.results) := by
  have hshow : (showAnomalies st).1.results
      = some { res with proximities := res.proximities.map sortByScoreDesc } := by
    simp [showAnomalies, h]
  have hexport : (exportAnomaliesCSV st).1.results
      = some { res with proximities := res.proximities.map sortByScoreDesc } := by
    simp [exportAnomaliesCSV, h]
  refine ⟨?_, ?_, ?_, hshow, hexport, ?_, ?_, ?_⟩
  · simp [showClusters, h]
  · simp [exportClustersCSV, h]
  · simp [updateStats, h]
  · intro ps _
    exact sortByScoreDesc_perm ps
  · intro ps hps hsorted
    have hid : res.proximities.map sortByScoreDesc = res.proximities := by
      rw [hps]
      simp only [Option.map_some', sortByScoreDesc]
      rw [List.Sorted.insertionSort_eq hsorted]
    rw [hshow, hexport, hid, h]
    exact ⟨rfl, rfl⟩
  · intro hnone
    rw [hshow, hexport, hnone, h]
    simp only [Option.map_none']
    constructor <;> rw [← hnone]

/-- Witness for C18: the cluster view of the sample result. -/
theorem views_keep_result_up_to_anomaly_order_witness :
    (showClusters resultState).1.results = resultState.results ∧
    (updateStats resultState).1.results = resultState.results :=
  let h := views_keep_result_up_to_anomaly_order resultState sampleResult rfl
  ⟨h.1, h.2.2.1⟩

end Cartographie
